import Mathlib

/-!
# io::CBoard — telemetry / command link (src/io/cboard.cpp, src/io/cboard.hpp)

Shallow embedding of the `CBoard` class and verification of its specification.

Conventions of the embedding

* A finite `double` is represented by its exact rational value.  Every arithmetic
  operation of the source on doubles is the exact operation followed by `fl`, the
  binary64 round-to-nearest-even rounding (no fused multiply-add, no overflow: all
  values handled here are far below `2 ^ 1024`).
* `steady_clock::time_point` is the signed count of nanoseconds (`Int`).  Clock
  readings are non-negative and below `2 ^ 63`, so their differences are exact; the
  difference from `time_point::min()` that the rate limiter of the log takes does not
  fit `int64_t` and is reduced by `toInt64` in `delta_time_chrono`.
* `int16_t`, `__u8`, `canid_t` are `Int` / `Nat` with explicit reductions.
* The blocking `queue_.pop` is modelled on the list of samples that the producer
  delivers: popping from an exhausted list never returns (`none`).
* Clock readings, transport outcomes and the atomic `quit_` flag are inputs of the
  operations that read them.
-/

namespace io

/-! ## binary64 arithmetic -/

/-- Nearest integer, ties to the even neighbour. -/
def roundHalfEven (x : ℚ) : ℤ :=
  let f := ⌊x⌋
  let r := x - f
  if r < 1 / 2 then f
  else if 1 / 2 < r then f + 1
  else if f % 2 = 0 then f else f + 1

/-- Exponent of the binade of `x`, clamped at the smallest normal exponent. -/
def binade (x : ℚ) : ℤ := max (Int.log 2 |x|) (-1022)

/-- Spacing of the doubles in the binade of `x` (53-bit significand). -/
def ulp (x : ℚ) : ℚ := (2 : ℚ) ^ (binade x - 52)

/-- Rounding of a real value to the nearest double, ties to even. -/
def fl (x : ℚ) : ℚ := roundHalfEven (x / ulp x) * ulp x

/-- Double addition `a + b`. -/
def dadd (a b : ℚ) : ℚ := fl (a + b)

/-- Double subtraction `a - b`. -/
def dsub (a b : ℚ) : ℚ := fl (a - b)

/-- Double multiplication `a * b`. -/
def dmul (a b : ℚ) : ℚ := fl (a * b)

/-- Double division `a / b` by a non-zero divisor. -/
def ddiv (a b : ℚ) : ℚ := fl (a / b)

/-- Truncation toward zero. -/
def truncate (d : ℚ) : ℤ := if 0 ≤ d then ⌊d⌋ else ⌈d⌉

/-- The cast `(int16_t)(d)` of a double: truncation toward zero, undefined when the
truncated value is not representable in `int16_t`. -/
def doubleToInt16 (d : ℚ) : Option ℤ :=
  if -32768 ≤ truncate d ∧ truncate d ≤ 32767 then some (truncate d) else none

/-! ## machine integers -/

/-- Conversion of an `int` to `int16_t` (reduction modulo `2 ^ 16`). -/
def toInt16 (n : ℤ) : ℤ := (n + 32768) % 65536 - 32768

/-- Conversion of an `int` to `__u8` (reduction modulo `2 ^ 8`). -/
def toUInt8 (n : ℤ) : ℕ := (n % 256).toNat

/-- Conversion of an `int` to `canid_t` (reduction modulo `2 ^ 32`). -/
def toCanId (n : ℤ) : ℕ := (n % 4294967296).toNat

/-- Reduction of a nanosecond count to `int64_t`, the representation of
`steady_clock::duration` (two's complement, modulo `2 ^ 64`). -/
def toInt64 (n : ℤ) : ℤ := (n + 9223372036854775808) % 18446744073709551616 - 9223372036854775808

/-- The expression `(int16_t)(hi << 8 | lo)` on two bytes. -/
def be16 (hi lo : ℕ) : ℤ := toInt16 ((hi <<< 8 ||| lo : ℕ) : ℤ)

/-- The expression `n >> 8` on a promoted `int16_t` (arithmetic shift). -/
def sar8 (n : ℤ) : ℤ := n >>> (8 : ℕ)

/-- Big-endian two's-complement reading of a byte pair, as the specification words it:
the unsigned value `256 * hi + lo`, minus `2 ^ 16` when the sign bit is set. -/
def beInt16Spec (hi lo : ℕ) : ℤ :=
  if 256 * hi + lo < 32768 then (256 * hi + lo : ℕ) else (256 * hi + lo : ℕ) - 65536

/-- Big-endian two's-complement bytes of a 16-bit signed integer, as the specification
words it: high then low byte of `n` modulo `2 ^ 16`. -/
def beBytesSpec (n : ℤ) : ℕ × ℕ :=
  (((n % 65536) / 256).toNat, ((n % 65536) % 256).toNat)

/-! ## data model -/

/-- The `Eigen::Quaterniond` coefficients. -/
structure Quaterniond where
  w : ℚ
  x : ℚ
  y : ℚ
  z : ℚ
  deriving DecidableEq, Repr

/-- The operations of the external math library used by `imu_at`. -/
structure EigenOps where
  /-- models `q.normalized()` -/
  normalized : Quaterniond → Quaterniond
  /-- models `q_a.slerp(k, q_b)` -/
  slerp : Quaterniond → ℚ → Quaterniond → Quaterniond

/-- The `CBoard::IMUData` record. -/
structure IMUData where
  q : Quaterniond
  timestamp : ℤ
  crc16 : ℕ
  deriving DecidableEq, Repr

/-- The linux `can_frame`. -/
structure can_frame where
  can_id : ℕ
  can_dlc : ℕ
  data : List ℕ
  deriving DecidableEq, Repr

/-- Byte `i` of a frame's payload, `frame.data[i]`. -/
def can_frame.byte (frame : can_frame) (i : ℕ) : ℕ := frame.data.getD i 0

/-- Modelled from the spec: the `Command` record of io/command.hpp (OutboundCommand:
control, shoot, yaw, pitch, horizonDistance). -/
structure Command where
  control : Bool
  shoot : Bool
  yaw : ℚ
  pitch : ℚ
  horizon_distance : ℚ
  deriving DecidableEq, Repr

/-- Modelled from the spec: the `GimbalMode` enumeration of io/gimbal/gimbal.hpp
(mode byte mapped 0:Idle, 1:AutoAim, 2:SmallBuff, 3:BigBuff). -/
inductive GimbalMode where
  | IDLE
  | AUTO_AIM
  | SMALL_BUFF
  | BIG_BUFF
  deriving DecidableEq, Repr

/-- Modelled from the spec: the received serial record `GimbalToVision` of
io/gimbal/gimbal.hpp, after the two marker bytes: mode byte, the eight quaternion
bytes and the bullet-speed field. -/
structure GimbalToVision where
  mode : ℕ
  q : List ℕ
  bullet_speed : ℚ
  deriving DecidableEq, Repr

/-- Modelled from the spec: the transmitted serial record `VisionToGimbal` of
io/gimbal/gimbal.hpp. -/
structure VisionToGimbal where
  mode : ℕ
  yaw : ℚ
  pitch : ℚ
  crc16 : ℕ
  deriving DecidableEq, Repr

/-- Modelled from the spec: the bounded queue of tools/thread_safe_queue.hpp; `push`
never blocks and evicts the oldest entry when full, `pop` takes the oldest entry and
blocks while there is none, `clear` empties the buffer. -/
structure ThreadSafeQueue where
  max_size : ℕ
  items : List IMUData
  deriving DecidableEq, Repr

/-- Modelled from the spec: `push(sample)`, evicting the oldest entry when full. -/
def ThreadSafeQueue.push (queue : ThreadSafeQueue) (value : IMUData) : ThreadSafeQueue :=
  if queue.items.length ≥ queue.max_size then
    { queue with items := queue.items.tail ++ [value] }
  else
    { queue with items := queue.items ++ [value] }

/-- Modelled from the spec: `pop`, `none` when the call never returns. -/
def ThreadSafeQueue.pop (queue : ThreadSafeQueue) : Option (IMUData × ThreadSafeQueue) :=
  match queue.items with
  | [] => none
  | value :: rest => some (value, { queue with items := rest })

/-- Modelled from the spec: `clear()`. -/
def ThreadSafeQueue.clear (queue : ThreadSafeQueue) : ThreadSafeQueue :=
  { queue with items := [] }

/-- The `MODES` name table. -/
def MODES : List String := ["idle", "auto_aim", "small_buff", "big_buff", "outpost"]

/-- The `SHOOT_MODES` name table. -/
def SHOOT_MODES : List String := ["left_shoot", "right_shoot", "both_shoot"]

/-- An info-level bullet-speed log line: the clock reading at which it is emitted and
its arguments; a name is `none` when the table lookup is out of range. -/
structure BulletSpeedLog where
  now : ℤ
  bullet_speed : ℚ
  mode_name : Option String
  shoot_mode_name : Option String
  ft_angle : ℚ
  deriving DecidableEq, Repr

/-- The state of a `CBoard` object.  `mode` and `shoot_mode` hold the integral value of
the enumerations `Mode` and `ShootMode`; `callback_last_log_time` and
`read_thread_last_log_time` are the two function-local statics `last_log_time`;
`info_log`, `can_written` and `serial_written` record the bullet-speed log lines and
the records handed to `can_.write` and `serial_.write`. -/
structure CBoard where
  bullet_speed : ℚ
  mode : ℕ
  shoot_mode : ℕ
  ft_angle : ℚ
  current_mode_ : String
  queue_ : ThreadSafeQueue
  data_ahead_ : IMUData
  data_behind_ : IMUData
  quaternion_canid_ : ℤ
  bullet_speed_canid_ : ℤ
  send_canid_ : ℤ
  mode_ : GimbalMode
  tx_data_ : VisionToGimbal
  callback_last_log_time : ℤ
  read_thread_last_log_time : ℤ
  info_log : List BulletSpeedLog
  can_written : List can_frame
  serial_written : List VisionToGimbal
  deriving DecidableEq, Repr

/-- The helpers of tools/ that the class calls and whose code is not part of the
sources: `delta_time a b` is `tools::delta_time(a, b)`, `get_crc16` is the checksum
`send` stores in `tx_data_`, `wire` is the conversion of a double to the type of the
`yaw` and `pitch` fields of `VisionToGimbal`. -/
structure Tools where
  delta_time : ℤ → ℤ → ℚ
  get_crc16 : VisionToGimbal → ℕ
  wire : ℚ → ℚ

/-! ## construction -/

/-- The value of `steady_clock::time_point::min()`. -/
def time_point_min : ℤ := -9223372036854775808

/-- The member initialisation of the constructor (cboard.cpp lines 11-16 and the
default member initialisers of cboard.hpp).  Members without an initialiser
(`ft_angle`, the quaternion and `crc16` of `data_ahead_` and `data_behind_`,
`tx_data_`) start with the indeterminate values given as arguments; a
default-constructed `time_point` is the epoch. -/
def CBoard.init (quaternion_canid bullet_speed_canid send_canid : ℤ) (mode_str : String)
    (ft_angle : ℚ) (ahead behind : IMUData) (tx : VisionToGimbal) : CBoard :=
  { bullet_speed := 0
    mode := 0
    shoot_mode := 0
    ft_angle := ft_angle
    current_mode_ := mode_str
    queue_ := { max_size := 5000, items := [] }
    data_ahead_ := { ahead with timestamp := 0 }
    data_behind_ := { behind with timestamp := 0 }
    quaternion_canid_ := quaternion_canid
    bullet_speed_canid_ := bullet_speed_canid
    send_canid_ := send_canid
    mode_ := GimbalMode.IDLE
    tx_data_ := tx
    callback_last_log_time := time_point_min
    read_thread_last_log_time := time_point_min
    info_log := []
    can_written := []
    serial_written := [] }

/-- The body of the constructor (cboard.cpp lines 20-44), run on the object whose
queue holds the samples delivered by the receive path.  `none`: the constructor does
not complete (a pop never returns, the port cannot be opened, or the mode string is
invalid). -/
def CBoard.construct (self : CBoard) (serial_open_ok : Bool) : Option CBoard :=
  if self.current_mode_ = "can" then
    match self.queue_.pop with
    | none => none
    | some (first, queue1) =>
      match queue1.pop with
      | none => none
      | some (second, queue2) =>
        some { self with data_ahead_ := first, data_behind_ := second, queue_ := queue2 }
  else if self.current_mode_ = "serial" then
    if serial_open_ok then
      match self.queue_.pop with
      | none => none
      | some (_, queue1) => some { self with queue_ := queue1 }
    else none
  else none

/-! ## imu_at -/

/-- The conversion `std::chrono::duration<double>(ns)` of a nanosecond count to
seconds: the count converted to double, divided by `1e9`. -/
def secondsOf (ns : ℤ) : ℚ := ddiv (fl ns) 1000000000

/-- The `while (true)` loop of `imu_at` (lines 58-62) on the samples the pops deliver:
returns `data_ahead_`, `data_behind_` and the samples left, `none` when no popped
sample is later than `timestamp` (the pop blocks). -/
def imu_at_loop (timestamp : ℤ) : List IMUData → IMUData → Option (IMUData × IMUData × List IMUData)
  | [], _ => none
  | popped :: rest, data_ahead_ =>
    if popped.timestamp > timestamp then some (data_ahead_, popped, rest)
    else imu_at_loop timestamp rest popped

/-- The advancement step of `imu_at` (lines 56-62): the shift of `data_ahead_` and the
pop loop; `none` when the call never returns. -/
def CBoard.advance (self : CBoard) (timestamp : ℤ) : Option CBoard :=
  let ahead0 :=
    if self.data_behind_.timestamp < timestamp then self.data_behind_ else self.data_ahead_
  match imu_at_loop timestamp self.queue_.items ahead0 with
  | none => none
  | some (ahead, behind, rest) =>
    some
      { self with
        data_ahead_ := ahead
        data_behind_ := behind
        queue_ := { self.queue_ with items := rest } }

/-- The fraction `k = t_ac / t_ab` of lines 66-73; `none` when the divisor is zero. -/
def interpolationFraction (t_a t_b t_c : ℤ) : Option ℚ :=
  let t_ab := secondsOf (t_b - t_a)
  let t_ac := secondsOf (t_c - t_a)
  if t_ab = 0 then none else some (ddiv t_ac t_ab)

/-- The outcome of one `imu_at` call: the object afterwards, the fraction `k`
(`none` when the divisor `t_ab` is zero) and the returned quaternion `q_c`. -/
structure ImuAt where
  board : CBoard
  k : Option ℚ
  q_c : Option Quaterniond

/-- The method `CBoard::imu_at` (lines 54-77); `none` when the call never returns. -/
def CBoard.imu_at (eigen : EigenOps) (self : CBoard) (timestamp : ℤ) : Option ImuAt :=
  match self.advance timestamp with
  | none => none
  | some board =>
    let q_a := eigen.normalized board.data_ahead_.q
    let q_b := eigen.normalized board.data_behind_.q
    let k :=
      interpolationFraction board.data_ahead_.timestamp board.data_behind_.timestamp timestamp
    some
      { board := board
        k := k
        q_c := k.map fun k => eigen.normalized (eigen.slerp q_a k q_b) }

/-- Successive `imu_at` calls, one per query, each on the object left by the previous
call; `none` when one of the calls never returns. -/
def imu_at_calls (eigen : EigenOps) : CBoard → List ℤ → Option (List ImuAt)
  | _, [] => some []
  | self, timestamp :: later =>
    match self.imu_at eigen timestamp with
    | none => none
    | some r =>
      match imu_at_calls eigen r.board later with
      | none => none
      | some rs => some (r :: rs)

/-- At every call of the sequence a sample later than the query is pending in the
queue. -/
def Served : CBoard → List ℤ → Prop
  | _, [] => True
  | self, timestamp :: later =>
    (∃ s ∈ self.queue_.items, timestamp < s.timestamp) ∧
      ∀ board, self.advance timestamp = some board → Served board later

/-- The samples are in non-decreasing timestamp order. -/
def NonDecreasing (samples : List IMUData) : Prop :=
  samples.Pairwise fun a b => a.timestamp ≤ b.timestamp

instance (samples : List IMUData) : Decidable (NonDecreasing samples) := by
  unfold NonDecreasing; infer_instance

/-- The bracketing condition `ahead.timestamp ≤ query ≤ behind.timestamp` together with
`k ∈ [0, 1]`. -/
def Bracketed (timestamp : ℤ) (r : ImuAt) : Prop :=
  r.board.data_ahead_.timestamp ≤ timestamp ∧ timestamp ≤ r.board.data_behind_.timestamp ∧
    ∃ k, r.k = some k ∧ 0 ≤ k ∧ k ≤ 1

/-! ## send -/

/-- The method `CBoard::send` (lines 79-113); `none` when a cast to `int16_t` is
undefined. -/
def CBoard.send (tools : Tools) (self : CBoard) (command : Command) : Option CBoard :=
  if self.current_mode_ = "can" then
    match doubleToInt16 (dmul command.yaw 100), doubleToInt16 (dmul command.pitch 100),
      doubleToInt16 (dmul command.horizon_distance 100) with
    | some yaw, some pitch, some horizon_distance =>
      let frame : can_frame :=
        { can_id := toCanId self.send_canid_
          can_dlc := 8
          data :=
            [if command.control then 1 else 0, if command.shoot then 1 else 0,
              toUInt8 (sar8 yaw), toUInt8 yaw,
              toUInt8 (sar8 pitch), toUInt8 pitch,
              toUInt8 (sar8 horizon_distance), toUInt8 horizon_distance] }
      some { self with can_written := self.can_written ++ [frame] }
    | _, _, _ => none
  else if self.current_mode_ = "serial" then
    let tx1 : VisionToGimbal :=
      { self.tx_data_ with
        mode := if command.control then (if command.shoot then 2 else 1) else 0
        yaw := tools.wire command.yaw
        pitch := tools.wire command.pitch }
    let tx2 : VisionToGimbal := { tx1 with crc16 := tools.get_crc16 tx1 }
    some { self with tx_data_ := tx2, serial_written := self.serial_written ++ [tx2] }
  else some self

/-! ## callback -/

/-- The expression `std::abs(x * x + y * y + z * z + w * w - 1)` of lines 125 and 267. -/
def normDeviation (w x y z : ℚ) : ℚ :=
  |dsub (dadd (dadd (dadd (dmul x x) (dmul y y)) (dmul z z)) (dmul w w)) 1|

/-- The double literal `1e-2`. -/
def tolerance : ℚ := fl (1 / 100)

/-- The method `CBoard::callback` (lines 115-150); `timestamp` and `now` are the two
clock readings of lines 117 and 141. -/
def CBoard.callback (tools : Tools) (self : CBoard) (frame : can_frame) (timestamp now : ℤ) :
    CBoard :=
  if frame.can_id = toCanId self.quaternion_canid_ then
    let w := ddiv (be16 (frame.byte 0) (frame.byte 1)) 1000
    let x := ddiv (be16 (frame.byte 2) (frame.byte 3)) 1000
    let y := ddiv (be16 (frame.byte 4) (frame.byte 5)) 1000
    let z := ddiv (be16 (frame.byte 6) (frame.byte 7)) 1000
    if normDeviation w x y z > tolerance then self
    else
      { self with
        queue_ := self.queue_.push { q := ⟨w, x, y, z⟩, timestamp := timestamp, crc16 := 0 } }
  else if frame.can_id = toCanId self.bullet_speed_canid_ then
    let bullet_speed := ddiv (be16 (frame.byte 0) (frame.byte 1)) 100
    let mode := frame.byte 2
    let shoot_mode := frame.byte 3
    let ft_angle := ddiv (be16 (frame.byte 4) (frame.byte 5)) 10000
    let self1 : CBoard :=
      { self with
        bullet_speed := bullet_speed
        mode := mode
        shoot_mode := shoot_mode
        ft_angle := ft_angle }
    if bullet_speed > 0 ∧ tools.delta_time now self.callback_last_log_time ≥ 1 then
      { self1 with
        info_log :=
          self1.info_log ++
            [{ now := now
               bullet_speed := bullet_speed
               mode_name := MODES[mode]?
               shoot_mode_name := SHOOT_MODES[shoot_mode]?
               ft_angle := ft_angle }]
        callback_last_log_time := now }
    else self1
  else self

/-- Sum of the squares of the four raw 16-bit fields of a quaternion; the exact
squared norm of the decoded quaternion is `rawNorm a b c d / 10 ^ 6`. -/
def rawNorm (a b c d : ℤ) : ℤ := a * a + b * b + c * c + d * d

/-- The exact deviation `|w² + x² + y² + z² - 1|` of the quaternion with raw fields
`a, b, c, d`, each scaled by `1e-3`. -/
def exactDeviation (a b c d : ℤ) : ℚ := |((rawNorm a b c d : ℤ) : ℚ) / 1000000 - 1|

/-- The sample built from the raw fields `a, b, c, d` of `w, x, y, z` at lines 120-130
and 263-271. -/
def decodedSample (a b c d timestamp : ℤ) : IMUData :=
  { q := ⟨ddiv a 1000, ddiv b 1000, ddiv c 1000, ddiv d 1000⟩
    timestamp := timestamp
    crc16 := 0 }

/-- The unit-norm check of lines 125 and 267 passes on the raw fields `a, b, c, d`. -/
def Accepted (a b c d : ℤ) : Prop :=
  ¬ normDeviation (ddiv a 1000) (ddiv b 1000) (ddiv c 1000) (ddiv d 1000) > tolerance

instance (a b c d : ℤ) : Decidable (Accepted a b c d) := by
  unfold Accepted; infer_instance

/-- The callback run on a sequence of inbound frames, each with its two clock
readings. -/
def CBoard.callbacks (tools : Tools) (self : CBoard) : List (can_frame × ℤ × ℤ) → CBoard
  | [] => self
  | (frame, timestamp, now) :: later =>
    (self.callback tools frame timestamp now).callbacks tools later

/-- Every payload byte of the frame is below 256. -/
def can_frame.WellFormed (frame : can_frame) : Prop := ∀ b ∈ frame.data, b < 256

instance (frame : can_frame) : Decidable frame.WellFormed := by
  unfold can_frame.WellFormed; infer_instance

/-! ## reconnect and read_thread -/

/-- The outcome of `reconnect`: the object afterwards, the number of `serial_.open()`
calls made and whether the last one succeeded. -/
structure Reconnect where
  board : CBoard
  attempts : ℕ
  reopened : Bool

/-- The `for` loop of `reconnect` (lines 181-198) from iteration `i` with `remaining`
iterations left before `i` reaches `max_retry_count`.  `quit_ i` is the value of the
atomic flag read by the loop test of iteration `i`; `open_ok i` tells whether the
`serial_.open()` of iteration `i` returns without throwing. -/
def reconnect_loop (quit_ open_ok : ℕ → Bool) (self : CBoard) : ℕ → ℕ → Reconnect
  | 0, i => { board := self, attempts := i, reopened := false }
  | remaining + 1, i =>
    if quit_ i then { board := self, attempts := i, reopened := false }
    else if open_ok i then
      { board := { self with queue_ := self.queue_.clear }, attempts := i + 1, reopened := true }
    else reconnect_loop quit_ open_ok self remaining (i + 1)

/-- The method `CBoard::reconnect` (lines 178-199), `max_retry_count = 10`. -/
def CBoard.reconnect (quit_ open_ok : ℕ → Bool) (self : CBoard) : Reconnect :=
  reconnect_loop quit_ open_ok self 10 0

/-- What one iteration of the receive loop gets from its environment: the header read
(`none`: failed or short), the body read, the result of `tools::check_crc16`, the
clock readings `timestamp` and `now`, and the inputs of a reconnection. -/
structure SerialInput where
  head : Option (ℕ × ℕ)
  body : Option GimbalToVision
  crc_ok : Bool
  timestamp : ℤ
  now : ℤ
  quit_ : ℕ → Bool
  open_ok : ℕ → Bool

/-- One iteration of the `while (!quit_)` loop of `read_thread` (lines 207-309) on the
object and the local `error_count`. -/
def CBoard.read_thread_iteration (tools : Tools) (self : CBoard) (error_count : ℤ)
    (input : SerialInput) : CBoard × ℤ :=
  if error_count > 5000 then ((self.reconnect input.quit_ input.open_ok).board, 0)
  else
    match input.head with
    | none => (self, error_count + 1)
    | some (head0, head1) =>
      if head0 ≠ 77 ∨ head1 ≠ 65 then (self, error_count)
      else
        match input.body with
        | none => (self, error_count + 1)
        | some rx_data_ =>
          if !input.crc_ok then (self, error_count)
          else
            let w := ddiv (be16 (rx_data_.q.getD 0 0) (rx_data_.q.getD 1 0)) 1000
            let x := ddiv (be16 (rx_data_.q.getD 2 0) (rx_data_.q.getD 3 0)) 1000
            let y := ddiv (be16 (rx_data_.q.getD 4 0) (rx_data_.q.getD 5 0)) 1000
            let z := ddiv (be16 (rx_data_.q.getD 6 0) (rx_data_.q.getD 7 0)) 1000
            if normDeviation w x y z > tolerance then (self, 0)
            else
              let self1 : CBoard :=
                { self with
                  queue_ :=
                    self.queue_.push
                      { q := ⟨w, x, y, z⟩, timestamp := input.timestamp, crc16 := 0 }
                  bullet_speed := rx_data_.bullet_speed }
              let self2 : CBoard :=
                if self1.bullet_speed > 0 ∧
                    tools.delta_time input.now self1.read_thread_last_log_time ≥ 1 then
                  { self1 with
                    info_log :=
                      self1.info_log ++
                        [{ now := input.now
                           bullet_speed := self1.bullet_speed
                           mode_name := MODES[self1.mode]?
                           shoot_mode_name := SHOOT_MODES[self1.shoot_mode]?
                           ft_angle := self1.ft_angle }]
                    read_thread_last_log_time := input.now }
                else self1
              let mode_ :=
                match rx_data_.mode with
                | 0 => GimbalMode.IDLE
                | 1 => GimbalMode.AUTO_AIM
                | 2 => GimbalMode.SMALL_BUFF
                | 3 => GimbalMode.BIG_BUFF
                | _ => GimbalMode.IDLE
              ({ self2 with mode_ := mode_ }, 0)

/-- The call of `reconnect()` made by an iteration of the receive loop (lines 207-212),
with its outcome; `none` when the iteration makes no such call. -/
def CBoard.read_thread_reconnect (self : CBoard) (error_count : ℤ) (input : SerialInput) :
    Option Reconnect :=
  if error_count > 5000 then some (self.reconnect input.quit_ input.open_ok) else none

/-- The outcome of a run of the receive loop: the object, the local `error_count`, and
the number of `serial_.open()` calls made by the reconnections of the run. -/
structure ReadThread where
  board : CBoard
  error_count : ℤ
  open_attempts : ℕ

/-- The `while (!quit_)` loop of `read_thread` (lines 206-310) from a given state.  Each
iteration comes with the value of `quit_` read by its loop test and with its input; the
run ends at the first loop test that reads `true`, or when the listed iterations are
done. -/
def read_thread_from (tools : Tools) : CBoard → ℤ → List (Bool × SerialInput) → ReadThread
  | self, error_count, [] => { board := self, error_count := error_count, open_attempts := 0 }
  | self, error_count, (quit_, input) :: later =>
    if quit_ then { board := self, error_count := error_count, open_attempts := 0 }
    else
      let rest :=
        read_thread_from tools (self.read_thread_iteration tools error_count input).1
          (self.read_thread_iteration tools error_count input).2 later
      { rest with
        open_attempts :=
          (self.read_thread_reconnect error_count input).elim 0 (fun r => r.attempts) +
            rest.open_attempts }

/-- The method `CBoard::read_thread` (lines 201-313): the loop entered with
`error_count = 0`. -/
def CBoard.read_thread (tools : Tools) (self : CBoard) (iterations : List (Bool × SerialInput)) :
    ReadThread :=
  read_thread_from tools self 0 iterations

/-- The iteration reads a complete record `rx` whose checksum and unit-norm checks
pass. -/
def ValidFrame (error_count : ℤ) (input : SerialInput) (rx : GimbalToVision) : Prop :=
  error_count ≤ 5000 ∧ input.head = some (77, 65) ∧ input.body = some rx ∧
    input.crc_ok = true ∧
    Accepted (be16 (rx.q.getD 0 0) (rx.q.getD 1 0)) (be16 (rx.q.getD 2 0) (rx.q.getD 3 0))
      (be16 (rx.q.getD 4 0) (rx.q.getD 5 0)) (be16 (rx.q.getD 6 0) (rx.q.getD 7 0))

/-- The mapping of the mode byte as the specification words it: 0 Idle, 1 AutoAim,
2 SmallBuff, 3 BigBuff, every other value Idle. -/
def gimbalModeSpec (mode_byte : ℕ) : GimbalMode :=
  if mode_byte = 0 then GimbalMode.IDLE
  else if mode_byte = 1 then GimbalMode.AUTO_AIM
  else if mode_byte = 2 then GimbalMode.SMALL_BUFF
  else if mode_byte = 3 then GimbalMode.BIG_BUFF
  else GimbalMode.IDLE

/-- Any two lines of the log are at least one second (`1e9` ns) apart, in the order in
which they were written. -/
def Spaced (log : List BulletSpeedLog) : Prop :=
  log.Pairwise fun earlier later => earlier.now + 1000000000 ≤ later.now

instance (log : List BulletSpeedLog) : Decidable (Spaced log) := by
  unfold Spaced; infer_instance

/-- The double computation `std::chrono::duration<double>(a - b).count()` of the seconds
from `b` to `a`: the two nanosecond counts are subtracted in `int64_t`, where a
difference outside the range wraps modulo `2 ^ 64` (two's complement), and the result
is converted to seconds in double. -/
def delta_time_chrono (a b : ℤ) : ℚ := secondsOf (toInt64 (a - b))

/-! ## example data -/

/-- A sample with the identity orientation at the given timestamp. -/
def sampleAt (timestamp : ℤ) : IMUData :=
  { q := ⟨1, 0, 0, 0⟩, timestamp := timestamp, crc16 := 0 }

/-- An instance of the library operations for worked examples: component-wise linear
interpolation and the identity as normalisation.  It agrees with the library on unit
quaternions at `k = 0`, at `k = 1` and whenever both endpoints are equal. -/
def lerpOps : EigenOps :=
  { normalized := id
    slerp := fun a k b =>
      ⟨a.w + k * (b.w - a.w), a.x + k * (b.x - a.x), a.y + k * (b.y - a.y),
        a.z + k * (b.z - a.z)⟩ }

/-- The object after member initialisation in the given mode, with the given samples
delivered to its queue. -/
def boardWith (mode_str : String) (samples : List IMUData) : CBoard :=
  { CBoard.init 256 257 255 mode_str 0 (sampleAt 0) (sampleAt 0) ⟨0, 0, 0, 0⟩ with
    queue_ := { max_size := 5000, items := samples } }

/-- An instance of the library operations for worked examples whose normalisation is
not the identity: a quaternion `(w, 0, 0, 0)` with `w > 0` has norm `w` and is
normalised to `(1, 0, 0, 0)`, as the library does (`sqrt (w * w) = w` and `w / w = 1`
in double arithmetic); every other quaternion is left unchanged.  The worked examples
that use it normalise quaternions of that form only.  The interpolation is that of
`lerpOps`. -/
def scalarOps : EigenOps :=
  { normalized := fun q =>
      if q.x = 0 ∧ q.y = 0 ∧ q.z = 0 ∧ 0 < q.w then ⟨1, 0, 0, 0⟩ else q
    slerp := lerpOps.slerp }

/-- An instance of the helpers of tools/ for worked examples: the double computation of
the elapsed seconds on the int64 nanosecond counts, a constant checksum and the identity
conversion. -/
def demoTools : Tools :=
  { delta_time := delta_time_chrono
    get_crc16 := fun _ => 0
    wire := id }

/-- The input of a receive-loop iteration that reads a complete record with a valid
checksum carrying the given quaternion bytes. -/
def demoInput (bytes : List ℕ) : SerialInput :=
  { head := some (77, 65)
    body := some { mode := 0, q := bytes, bullet_speed := 0 }
    crc_ok := true
    timestamp := 7
    now := 7
    quit_ := fun _ => false
    open_ok := fun _ => true }

/-- The elapsed seconds from `b` to `a` as a double when the difference of the two
nanosecond counts is taken exactly, without the reduction to `int64_t`.  It is
`delta_time_chrono a b` whenever `a - b` is representable in `int64_t`; the two differ
where the int64 subtraction overflows, as it does from `time_point::min()` to every
non-negative clock reading. -/
def delta_time_unwrapped (a b : ℤ) : ℚ := secondsOf (a - b)

/-- An instance of the helpers of tools/ whose `delta_time` is `delta_time_unwrapped`:
a rate limiter that is not subject to the overflow of the int64 subtraction. -/
def unwrappedTools : Tools :=
  { delta_time := delta_time_unwrapped
    get_crc16 := fun _ => 0
    wire := id }

/-- The input of a receive-loop iteration whose reads fail and whose reopen attempts all
fail, with the shutdown flag unset. -/
def failingInput : SerialInput :=
  { head := none
    body := none
    crc_ok := false
    timestamp := 0
    now := 0
    quit_ := fun _ => false
    open_ok := fun _ => false }

/-! ## rounding lemmas -/

theorem roundHalfEven_cases (x : ℚ) :
    roundHalfEven x = ⌊x⌋ ∧ x - ⌊x⌋ ≤ 1 / 2 ∨
      roundHalfEven x = ⌊x⌋ + 1 ∧ 1 / 2 ≤ x - ⌊x⌋ := by
  unfold roundHalfEven
  simp only
  by_cases h1 : x - (⌊x⌋ : ℚ) < 1 / 2
  · left; rw [if_pos h1]; exact ⟨rfl, le_of_lt h1⟩
  · rw [if_neg h1]
    by_cases h2 : 1 / 2 < x - (⌊x⌋ : ℚ)
    · right; rw [if_pos h2]; exact ⟨rfl, le_of_lt h2⟩
    · rw [if_neg h2]
      have heq : x - (⌊x⌋ : ℚ) = 1 / 2 := le_antisymm (not_lt.mp h2) (not_lt.mp h1)
      by_cases h3 : ⌊x⌋ % 2 = 0
      · left; rw [if_pos h3]; exact ⟨rfl, le_of_eq heq⟩
      · right; rw [if_neg h3]; exact ⟨rfl, le_of_eq heq.symm⟩

theorem abs_roundHalfEven_sub_le (x : ℚ) : |(roundHalfEven x : ℚ) - x| ≤ 1 / 2 := by
  have hf := Int.floor_le x
  have hl := Int.lt_floor_add_one x
  rcases roundHalfEven_cases x with ⟨h, hr⟩ | ⟨h, hr⟩
  · rw [h, abs_le]; constructor <;> linarith
  · rw [h, abs_le]; push_cast; constructor <;> linarith

theorem roundHalfEven_eq_of_abs_lt (x : ℚ) (m : ℤ) (h : |x - m| < 1 / 2) :
    roundHalfEven x = m := by
  have h1 := abs_roundHalfEven_sub_le x
  rw [abs_lt] at h
  rw [abs_le] at h1
  have h2 : ((roundHalfEven x - m : ℤ) : ℚ) < 1 := by push_cast; linarith
  have h3 : (-1 : ℚ) < ((roundHalfEven x - m : ℤ) : ℚ) := by push_cast; linarith
  have h4 : roundHalfEven x - m < 1 := by exact_mod_cast h2
  have h5 : -1 < roundHalfEven x - m := by exact_mod_cast h3
  omega

theorem roundHalfEven_intCast (n : ℤ) : roundHalfEven (n : ℚ) = n :=
  roundHalfEven_eq_of_abs_lt _ _ (by simp)

theorem roundHalfEven_mono {x y : ℚ} (h : x ≤ y) : roundHalfEven x ≤ roundHalfEven y := by
  have hfl : ⌊x⌋ ≤ ⌊y⌋ := Int.floor_mono h
  rcases lt_or_eq_of_le hfl with hlt | heq
  · have hx : roundHalfEven x ≤ ⌊x⌋ + 1 := by
      rcases roundHalfEven_cases x with ⟨h, _⟩ | ⟨h, _⟩ <;> omega
    have hy : ⌊y⌋ ≤ roundHalfEven y := by
      rcases roundHalfEven_cases y with ⟨h, _⟩ | ⟨h, _⟩ <;> omega
    omega
  · unfold roundHalfEven
    simp only
    rw [← heq]
    have hr : x - (⌊x⌋ : ℚ) ≤ y - (⌊x⌋ : ℚ) := by linarith
    split_ifs <;> first | omega | (exfalso; linarith)

theorem ulp_pos (x : ℚ) : 0 < ulp x := by
  unfold ulp; positivity

theorem abs_fl_sub_le (x : ℚ) : |fl x - x| ≤ ulp x / 2 := by
  have hu := ulp_pos x
  have h := abs_roundHalfEven_sub_le (x / ulp x)
  have e : fl x - x = ((roundHalfEven (x / ulp x) : ℚ) - x / ulp x) * ulp x := by
    unfold fl; field_simp
  rw [e, abs_mul, abs_of_pos hu]
  calc |(roundHalfEven (x / ulp x) : ℚ) - x / ulp x| * ulp x ≤ 1 / 2 * ulp x :=
        mul_le_mul_of_nonneg_right h hu.le
    _ = ulp x / 2 := by ring

theorem fl_zero : fl 0 = 0 := by
  unfold fl; simp [roundHalfEven]

theorem binade_eq_of (x : ℚ) (e : ℤ) (he : -1022 ≤ e) (h1 : (2 : ℚ) ^ e ≤ |x|)
    (h2 : |x| < (2 : ℚ) ^ (e + 1)) : binade x = e := by
  have hpos : 0 < |x| := lt_of_lt_of_le (by positivity) h1
  have hl : Int.log 2 |x| = e := by
    apply le_antisymm
    · have := (Int.lt_zpow_iff_log_lt (b := 2) (by norm_num) hpos).mp (by exact_mod_cast h2)
      omega
    · exact (Int.zpow_le_iff_le_log (b := 2) (by norm_num) hpos).mp (by exact_mod_cast h1)
  unfold binade
  rw [hl]; exact max_eq_left he

/-- Evaluation of `fl` at a value whose binade `e` and rounded significand `m` are
given. -/
theorem fl_eq_of (x : ℚ) (e m : ℤ) (he : -1022 ≤ e) (h1 : (2 : ℚ) ^ e ≤ |x|)
    (h2 : |x| < (2 : ℚ) ^ (e + 1)) (hm : |x / (2 : ℚ) ^ (e - 52) - m| < 1 / 2) :
    fl x = m * (2 : ℚ) ^ (e - 52) := by
  unfold fl ulp
  rw [binade_eq_of x e he h1 h2, roundHalfEven_eq_of_abs_lt _ m hm]

theorem fl_one : fl 1 = 1 := by
  rw [fl_eq_of 1 0 4503599627370496 (by norm_num) (by norm_num) (by norm_num)
    (by norm_num)]
  norm_num

theorem fl_nonneg {x : ℚ} (h : 0 ≤ x) : 0 ≤ fl x := by
  unfold fl
  have hu := ulp_pos x
  have h0 : roundHalfEven 0 ≤ roundHalfEven (x / ulp x) :=
    roundHalfEven_mono (div_nonneg h hu.le)
  have h1 : roundHalfEven (0 : ℚ) = 0 := by simpa using roundHalfEven_intCast 0
  rw [h1] at h0
  have : (0 : ℚ) ≤ (roundHalfEven (x / ulp x) : ℚ) := by exact_mod_cast h0
  positivity

theorem binade_mono {x y : ℚ} (hx : 0 < x) (h : x ≤ y) : binade x ≤ binade y := by
  unfold binade
  have hy : 0 < y := lt_of_lt_of_le hx h
  rw [abs_of_pos hx, abs_of_pos hy]
  exact max_le_max (Int.log_mono_right hx h) le_rfl

theorem fl_le_pow_succ {x : ℚ} (hx : 0 < x) : fl x ≤ (2 : ℚ) ^ (binade x + 1) := by
  have hu := ulp_pos x
  have hlt : x < (2 : ℚ) ^ (Int.log 2 x + 1) := by
    simpa using Int.lt_zpow_succ_log_self (b := 2) (by norm_num) x
  have hle : (2 : ℚ) ^ (Int.log 2 x + 1) ≤ (2 : ℚ) ^ (binade x + 1) := by
    apply zpow_le_zpow_right₀ (by norm_num)
    unfold binade
    rw [abs_of_pos hx]
    have := le_max_left (Int.log 2 x) (-1022)
    omega
  have hsplit : (2 : ℚ) ^ (binade x + 1) = ((2 ^ 53 : ℤ) : ℚ) * ulp x := by
    unfold ulp
    rw [show binade x + 1 = 53 + (binade x - 52) by ring, zpow_add₀ (by norm_num)]
    norm_num
  have hq : x / ulp x ≤ ((2 ^ 53 : ℤ) : ℚ) := by
    rw [div_le_iff₀ hu, ← hsplit]
    exact le_of_lt (lt_of_lt_of_le hlt hle)
  have hr := roundHalfEven_mono hq
  rw [roundHalfEven_intCast] at hr
  have hr2 : (roundHalfEven (x / ulp x) : ℚ) ≤ ((2 ^ 53 : ℤ) : ℚ) := by exact_mod_cast hr
  rw [hsplit]
  unfold fl
  exact mul_le_mul_of_nonneg_right hr2 hu.le

theorem pow_binade_le_fl {x : ℚ} (hx : 0 < x) (hb : -1022 < binade x) :
    (2 : ℚ) ^ binade x ≤ fl x := by
  have hu := ulp_pos x
  have hlog : binade x = Int.log 2 x := by
    unfold binade at hb ⊢
    rw [abs_of_pos hx] at hb ⊢
    rcases max_cases (Int.log 2 x) (-1022) with ⟨h, _⟩ | ⟨h, _⟩
    · exact h
    · rw [h] at hb; omega
  have hle : (2 : ℚ) ^ binade x ≤ x := by
    rw [hlog]
    simpa using Int.zpow_log_le_self (b := 2) (by norm_num) hx
  have hsplit : (2 : ℚ) ^ binade x = ((2 ^ 52 : ℤ) : ℚ) * ulp x := by
    unfold ulp
    rw [show binade x = 52 + (binade x - 52) by ring, zpow_add₀ (by norm_num)]
    norm_num
  have hq : ((2 ^ 52 : ℤ) : ℚ) ≤ x / ulp x := by
    rw [le_div_iff₀ hu, ← hsplit]
    exact hle
  have hr := roundHalfEven_mono hq
  rw [roundHalfEven_intCast] at hr
  have hr2 : ((2 ^ 52 : ℤ) : ℚ) ≤ (roundHalfEven (x / ulp x) : ℚ) := by exact_mod_cast hr
  rw [hsplit]
  unfold fl
  exact mul_le_mul_of_nonneg_right hr2 hu.le

/-- Rounding is monotone on the non-negative values. -/
theorem fl_mono_nonneg {x y : ℚ} (hx : 0 ≤ x) (h : x ≤ y) : fl x ≤ fl y := by
  rcases eq_or_lt_of_le hx with h0 | hpos
  · rw [← h0, fl_zero]; exact fl_nonneg (le_trans hx h)
  · have hy : 0 < y := lt_of_lt_of_le hpos h
    rcases eq_or_lt_of_le (binade_mono hpos h) with he | hlt
    · have hu : ulp x = ulp y := by unfold ulp; rw [he]
      unfold fl
      rw [hu]
      have hq : x / ulp y ≤ y / ulp y := div_le_div_of_nonneg_right h (ulp_pos y).le
      have hr : (roundHalfEven (x / ulp y) : ℚ) ≤ (roundHalfEven (y / ulp y) : ℚ) := by
        exact_mod_cast roundHalfEven_mono hq
      exact mul_le_mul_of_nonneg_right hr (ulp_pos y).le
    · have hb : -1022 < binade y := by
        have : -1022 ≤ binade x := le_max_right _ _
        omega
      calc fl x ≤ (2 : ℚ) ^ (binade x + 1) := fl_le_pow_succ hpos
        _ ≤ (2 : ℚ) ^ binade y := zpow_le_zpow_right₀ (by norm_num) (by omega)
        _ ≤ fl y := pow_binade_le_fl hy hb

/-- Absolute rounding error for a value bounded by a power of two. -/
theorem abs_fl_sub_le_of_abs_le (x : ℚ) (k : ℤ) (hk : -1022 ≤ k) (hx : |x| ≤ (2 : ℚ) ^ k) :
    |fl x - x| ≤ (2 : ℚ) ^ (k - 53) := by
  rcases eq_or_ne x 0 with h0 | hne
  · rw [h0, fl_zero]; simp; positivity
  · have hpos : 0 < |x| := abs_pos.mpr hne
    have hb : binade x ≤ k := by
      unfold binade
      apply max_le _ hk
      have := Int.log_mono_right (b := 2) hpos hx
      rwa [show ((2 : ℚ) ^ k) = (((2 : ℕ) : ℚ) ^ k) by norm_num,
        Int.log_zpow (by norm_num)] at this
    calc |fl x - x| ≤ ulp x / 2 := abs_fl_sub_le x
      _ = (2 : ℚ) ^ (binade x - 53) := by
          unfold ulp
          rw [show binade x - 52 = (binade x - 53) + 1 by ring, zpow_add₀ (by norm_num)]
          norm_num
      _ ≤ (2 : ℚ) ^ (k - 53) := zpow_le_zpow_right₀ (by norm_num) (by omega)

theorem fl_pos_of_le {x : ℚ} (h : (2 : ℚ) ^ (-30 : ℤ) ≤ x) : 0 < fl x := by
  have h1 : fl ((2 : ℚ) ^ (-30 : ℤ)) = (2 : ℚ) ^ (-30 : ℤ) := by
    rw [fl_eq_of ((2 : ℚ) ^ (-30 : ℤ)) (-30) 4503599627370496 (by norm_num)
      (by norm_num [abs_of_pos]) (by norm_num [abs_of_pos]) (by norm_num)]
    norm_num
  have h2 := fl_mono_nonneg (by positivity) h
  rw [h1] at h2
  exact lt_of_lt_of_le (by positivity) h2

theorem roundHalfEven_spec (x : ℚ) :
    |(roundHalfEven x : ℚ) - x| < 1 / 2 ∨
      (|(roundHalfEven x : ℚ) - x| = 1 / 2 ∧ roundHalfEven x % 2 = 0) := by
  have hf := Int.floor_le x
  have hl := Int.lt_floor_add_one x
  unfold roundHalfEven
  simp only
  by_cases h1 : x - (⌊x⌋ : ℚ) < 1 / 2
  · left; rw [if_pos h1, abs_lt]; constructor <;> linarith
  · rw [if_neg h1]
    by_cases h2 : 1 / 2 < x - (⌊x⌋ : ℚ)
    · left; rw [if_pos h2, abs_lt]; push_cast; constructor <;> linarith
    · rw [if_neg h2]
      have heq : x - (⌊x⌋ : ℚ) = 1 / 2 := le_antisymm (not_lt.mp h2) (not_lt.mp h1)
      right
      by_cases h3 : ⌊x⌋ % 2 = 0
      · rw [if_pos h3]
        refine ⟨?_, h3⟩
        rw [show ((⌊x⌋ : ℤ) : ℚ) - x = -(1 / 2) by linarith]
        norm_num
      · rw [if_neg h3]
        refine ⟨?_, by omega⟩
        push_cast
        rw [show ((⌊x⌋ : ℤ) : ℚ) + 1 - x = 1 / 2 by linarith]
        norm_num

theorem roundHalfEven_unique (x : ℚ) (m : ℤ)
    (h : |(m : ℚ) - x| < 1 / 2 ∨ (|(m : ℚ) - x| = 1 / 2 ∧ m % 2 = 0)) :
    roundHalfEven x = m := by
  rcases h with h | ⟨h, hm⟩
  · exact roundHalfEven_eq_of_abs_lt x m (by rwa [abs_sub_comm])
  · rcases roundHalfEven_spec x with h1 | ⟨h1, hr⟩
    · exfalso
      have hlt : |((roundHalfEven x - m : ℤ) : ℚ)| < 1 := by
        push_cast
        calc |(roundHalfEven x : ℚ) - m| = |((roundHalfEven x : ℚ) - x) - ((m : ℚ) - x)| := by
              ring_nf
          _ ≤ |(roundHalfEven x : ℚ) - x| + |(m : ℚ) - x| := abs_sub _ _
          _ < 1 := by linarith
      have hz : |roundHalfEven x - m| < 1 := by exact_mod_cast hlt
      have heq : roundHalfEven x = m := by
        rw [abs_lt] at hz; omega
      rw [heq] at h1
      linarith
    · have hle : |((roundHalfEven x - m : ℤ) : ℚ)| ≤ 1 := by
        push_cast
        calc |(roundHalfEven x : ℚ) - m| = |((roundHalfEven x : ℚ) - x) - ((m : ℚ) - x)| := by
              ring_nf
          _ ≤ |(roundHalfEven x : ℚ) - x| + |(m : ℚ) - x| := abs_sub _ _
          _ ≤ 1 := by linarith
      have hz : |roundHalfEven x - m| ≤ 1 := by exact_mod_cast hle
      rw [abs_le] at hz
      omega

theorem roundHalfEven_neg (x : ℚ) : roundHalfEven (-x) = -roundHalfEven x := by
  apply roundHalfEven_unique
  have e : ((-roundHalfEven x : ℤ) : ℚ) - -x = -((roundHalfEven x : ℚ) - x) := by
    push_cast; ring
  rw [e, abs_neg]
  rcases roundHalfEven_spec x with h | ⟨h, hr⟩
  · exact Or.inl h
  · exact Or.inr ⟨h, by omega⟩

/-- Rounding commutes with negation. -/
theorem fl_neg (x : ℚ) : fl (-x) = -fl x := by
  have hu : ulp (-x) = ulp x := by unfold ulp binade; rw [abs_neg]
  unfold fl
  rw [hu, neg_div, roundHalfEven_neg]
  push_cast
  ring

/-- Rounding is monotone. -/
theorem fl_mono {x y : ℚ} (h : x ≤ y) : fl x ≤ fl y := by
  rcases le_total 0 x with hx | hx
  · exact fl_mono_nonneg hx h
  · rcases le_total 0 y with hy | hy
    · have h1 := fl_nonneg (x := -x) (by linarith)
      rw [fl_neg] at h1
      have h2 := fl_nonneg hy
      linarith
    · have h1 := fl_mono_nonneg (x := -y) (y := -x) (by linarith) (by linarith)
      rw [fl_neg, fl_neg] at h1
      linarith

/-! ## imu_at: the bracketing window -/

theorem secondsOf_nonneg {n : ℤ} (h : 0 ≤ n) : 0 ≤ secondsOf n := by
  unfold secondsOf ddiv
  have h1 : (0 : ℚ) ≤ fl (n : ℚ) := fl_nonneg (by exact_mod_cast h)
  exact fl_nonneg (by positivity)

theorem secondsOf_mono {m n : ℤ} (hm : 0 ≤ m) (h : m ≤ n) : secondsOf m ≤ secondsOf n := by
  unfold secondsOf ddiv
  have h0 : (0 : ℚ) ≤ (m : ℚ) := by exact_mod_cast hm
  have h1 : fl (m : ℚ) ≤ fl (n : ℚ) := fl_mono_nonneg h0 (by exact_mod_cast h)
  have h2 : (0 : ℚ) ≤ fl (m : ℚ) := fl_nonneg h0
  exact fl_mono_nonneg (by positivity) (div_le_div_of_nonneg_right h1 (by norm_num))

theorem secondsOf_pos {n : ℤ} (h : 1 ≤ n) : 0 < secondsOf n := by
  unfold secondsOf ddiv
  have h1 : fl 1 ≤ fl (n : ℚ) := fl_mono_nonneg (by norm_num) (by exact_mod_cast h)
  rw [fl_one] at h1
  apply fl_pos_of_le
  calc (2 : ℚ) ^ (-30 : ℤ) ≤ 1 / 1000000000 := by norm_num
    _ ≤ fl (n : ℚ) / 1000000000 := div_le_div_of_nonneg_right h1 (by norm_num)

/-- With `t_a ≤ t_c < t_b` the divisor is non-zero and the fraction lies in `[0, 1]`. -/
theorem interpolationFraction_mem (t_a t_b t_c : ℤ) (h1 : t_a ≤ t_c) (h2 : t_c < t_b) :
    ∃ k, interpolationFraction t_a t_b t_c = some k ∧ 0 ≤ k ∧ k ≤ 1 := by
  have hab : 0 < secondsOf (t_b - t_a) := secondsOf_pos (by omega)
  have hac : 0 ≤ secondsOf (t_c - t_a) := secondsOf_nonneg (by omega)
  have hle : secondsOf (t_c - t_a) ≤ secondsOf (t_b - t_a) :=
    secondsOf_mono (by omega) (by omega)
  refine ⟨ddiv (secondsOf (t_c - t_a)) (secondsOf (t_b - t_a)), ?_, ?_, ?_⟩
  · unfold interpolationFraction
    simp only
    rw [if_neg (ne_of_gt hab)]
  · unfold ddiv
    exact fl_nonneg (div_nonneg hac hab.le)
  · unfold ddiv
    have h := fl_mono_nonneg (div_nonneg hac hab.le) ((div_le_one hab).mpr hle)
    rwa [fl_one] at h

theorem imu_at_loop_spec (t : ℤ) (items : List IMUData) (a0 : IMUData)
    (h : ∃ s ∈ items, t < s.timestamp) :
    ∃ a b rest, imu_at_loop t items a0 = some (a, b, rest) ∧ t < b.timestamp ∧
      (a = a0 ∨ a.timestamp ≤ t) := by
  induction items generalizing a0 with
  | nil => simp at h
  | cons s rest ih =>
    by_cases hs : s.timestamp > t
    · refine ⟨a0, s, rest, ?_, hs, Or.inl rfl⟩
      simp [imu_at_loop, hs]
    · have hrest : ∃ s1 ∈ rest, t < s1.timestamp := by
        obtain ⟨s1, hmem, hlt⟩ := h
        rcases List.mem_cons.mp hmem with heq | hmem
        · rw [heq] at hlt; exact absurd hlt hs
        · exact ⟨s1, hmem, hlt⟩
      obtain ⟨a, b, r, he, hb, ha⟩ := ih s hrest
      refine ⟨a, b, r, ?_, hb, Or.inr ?_⟩
      · simp [imu_at_loop, hs, he]
      · rcases ha with ha | ha
        · rw [ha]; exact not_lt.mp hs
        · exact ha

/-- One advancement: when a later sample is pending the step returns, `behind` is later
than the query, and `ahead` is not later than the query if it was not on entry. -/
theorem advance_spec (self : CBoard) (t : ℤ)
    (h : ∃ s ∈ self.queue_.items, t < s.timestamp) (h0 : self.data_ahead_.timestamp ≤ t) :
    ∃ board, self.advance t = some board ∧ board.data_ahead_.timestamp ≤ t ∧
      t < board.data_behind_.timestamp := by
  obtain ⟨a, b, rest, he, hb, ha⟩ := imu_at_loop_spec t self.queue_.items
    (if self.data_behind_.timestamp < t then self.data_behind_ else self.data_ahead_) h
  have hadv : self.advance t = some
      { self with
        data_ahead_ := a
        data_behind_ := b
        queue_ := { self.queue_ with items := rest } } := by
    unfold CBoard.advance
    simp only [he]
  refine ⟨_, hadv, ?_, hb⟩
  simp only
  rcases ha with ha | ha
  · rw [ha]
    split_ifs with hlt
    · exact le_of_lt hlt
    · exact h0
  · exact ha

/-- C1 (as amended): for non-decreasing queries whose first one is not earlier than
`data_ahead_.timestamp` on entry, and with a later sample pending at each call, every
call returns, `ahead.timestamp ≤ query ≤ behind.timestamp` holds after its advancement
step, and the fraction `k` lies in `[0, 1]`. -/
theorem imu_at_calls_bracketed (eigen : EigenOps) (self : CBoard) (queries : List ℤ)
    (hq : queries.Chain' (· ≤ ·))
    (h0 : ∀ t ∈ queries.head?, self.data_ahead_.timestamp ≤ t)
    (hs : Served self queries) :
    ∃ results, imu_at_calls eigen self queries = some results ∧
      List.Forall₂ Bracketed queries results := by
  induction queries generalizing self with
  | nil => exact ⟨[], rfl, List.Forall₂.nil⟩
  | cons t later ih =>
    obtain ⟨hav, hnext⟩ := hs
    obtain ⟨board, hadv, ha, hb⟩ := advance_spec self t hav (h0 t (by simp))
    obtain ⟨k, hk, hk0, hk1⟩ := interpolationFraction_mem _ _ t ha hb
    have hlater : ∀ t1 ∈ later.head?, board.data_ahead_.timestamp ≤ t1 := by
      intro t1 ht1
      cases later with
      | nil => simp at ht1
      | cons t2 rest =>
        simp at ht1
        rw [← ht1]
        have := (List.chain'_cons.mp hq).1
        omega
    obtain ⟨rs, hrs, hall⟩ := ih board (List.Chain'.tail hq) hlater (hnext board hadv)
    have hcall : imu_at_calls eigen self (t :: later) =
        some ({ board := board, k := some k, q_c := some (eigen.normalized
          (eigen.slerp (eigen.normalized board.data_ahead_.q) k
            (eigen.normalized board.data_behind_.q))) } :: rs) := by
      simp only [imu_at_calls, CBoard.imu_at, hadv, hk, hrs, Option.map_some']
    exact ⟨_, hcall, List.Forall₂.cons ⟨ha, le_of_lt hb, k, rfl, hk0, hk1⟩ hall⟩

theorem fl_neg_five : fl (-5) = (-5) := by
  rw [fl_eq_of (-5) (2) (-5629499534213120) (by norm_num) (by norm_num [abs_of_neg])
    (by norm_num [abs_of_neg]) (by norm_num [abs_lt])]
  norm_num

theorem fl_neg_five_ns : fl ((-5) / 1000000000) = (-3022314549036573 / 604462909807314587353088) := by
  rw [fl_eq_of ((-5) / 1000000000) (-28) (-6044629098073146) (by norm_num) (by norm_num [abs_of_neg])
    (by norm_num [abs_of_neg]) (by norm_num [abs_lt])]
  norm_num

theorem fl_twenty : fl 20 = 20 := by
  rw [fl_eq_of 20 (4) (5629499534213120) (by norm_num) (by norm_num [abs_of_pos])
    (by norm_num [abs_of_pos]) (by norm_num [abs_lt])]
  norm_num

theorem fl_twenty_ns : fl (20 / 1000000000) = (3022314549036573 / 151115727451828646838272) := by
  rw [fl_eq_of (20 / 1000000000) (-26) (6044629098073146) (by norm_num) (by norm_num [abs_of_pos])
    (by norm_num [abs_of_pos]) (by norm_num [abs_lt])]
  norm_num

theorem fl_neg_quarter : fl (-1 / 4) = (-1 / 4) := by
  rw [fl_eq_of (-1 / 4) (-2) (-4503599627370496) (by norm_num) (by norm_num [abs_of_neg])
    (by norm_num [abs_of_neg]) (by norm_num [abs_lt])]
  norm_num

theorem secondsOf_twenty :
    secondsOf 20 = 3022314549036573 / 151115727451828646838272 := by
  unfold secondsOf ddiv
  rw [show ((20 : ℤ) : ℚ) = 20 by norm_num, fl_twenty, fl_twenty_ns]

theorem secondsOf_neg_five :
    secondsOf (-5) = (-3022314549036573 / 604462909807314587353088) := by
  unfold secondsOf ddiv
  rw [show ((-5 : ℤ) : ℚ) = (-5) by norm_num, fl_neg_five, fl_neg_five_ns]

theorem interpolationFraction_example : interpolationFraction 10 30 5 = some (-1 / 4) := by
  unfold interpolationFraction
  simp only [show (30 : ℤ) - 10 = 20 by norm_num, show (5 : ℤ) - 10 = -5 by norm_num,
    secondsOf_twenty, secondsOf_neg_five]
  rw [if_neg (by norm_num)]
  unfold ddiv
  rw [show (-3022314549036573 / 604462909807314587353088 : ℚ) /
      (3022314549036573 / 151115727451828646838272) = (-1 / 4) by norm_num, fl_neg_quarter]

/-- C1 (as stated) fails: in CAN mode with samples at 10, 20 and 30 the constructor
primes the window with the first two; the single query 5 is then served by the sample
at 30, leaving `ahead.timestamp = 10 > 5` and `k = -1/4`. -/
theorem imu_at_query_before_window :
    NonDecreasing [sampleAt 10, sampleAt 20, sampleAt 30] ∧
      List.Chain' (· ≤ ·) ([5] : List ℤ) ∧
      ∃ board r,
        (boardWith "can" [sampleAt 10, sampleAt 20, sampleAt 30]).construct true = some board ∧
          Served board [5] ∧
          imu_at_calls lerpOps board [5] = some [r] ∧
          r.board.data_ahead_.timestamp = 10 ∧ r.board.data_behind_.timestamp = 30 ∧
          r.k = some (-1 / 4) ∧ ¬ Bracketed 5 r := by
  refine ⟨by simp [NonDecreasing, sampleAt], by simp, ?_⟩
  refine ⟨{ boardWith "can" [sampleAt 30] with
            data_ahead_ := sampleAt 10
            data_behind_ := sampleAt 20 }, ?_⟩
  refine ⟨{ board :=
              { boardWith "can" [] with
                data_ahead_ := sampleAt 10
                data_behind_ := sampleAt 30 }
            k := some (-1 / 4)
            q_c := some ⟨1, 0, 0, 0⟩ }, ?_⟩
  refine ⟨?_, ?_, ?_, rfl, rfl, rfl, ?_⟩
  · simp [boardWith, CBoard.construct, CBoard.init, ThreadSafeQueue.pop]
  · simp [Served, sampleAt, boardWith]
  · simp [imu_at_calls, CBoard.imu_at, CBoard.advance, imu_at_loop, sampleAt, boardWith,
      CBoard.init, interpolationFraction_example, lerpOps]
  · simp [Bracketed, sampleAt]

/-- Witness for C1 (as amended): window (10, 20), samples at 30 and 40 pending, queries
15 and 25. -/
theorem imu_at_calls_bracketed_witness :
    ∃ results,
      imu_at_calls lerpOps
          { boardWith "can" [sampleAt 30, sampleAt 40] with
            data_ahead_ := sampleAt 10
            data_behind_ := sampleAt 20 } [15, 25] = some results ∧
        List.Forall₂ Bracketed [15, 25] results :=
  imu_at_calls_bracketed lerpOps _ [15, 25] (by simp) (by simp [sampleAt])
    (by simp [Served, CBoard.advance, imu_at_loop, boardWith, sampleAt])

/-! ## imu_at at the endpoints of the window -/

theorem fl_ten : fl 10 = 10 := by
  rw [fl_eq_of 10 (3) (5629499534213120) (by norm_num) (by norm_num [abs_of_pos])
    (by norm_num [abs_of_pos]) (by norm_num [abs_lt])]
  norm_num

theorem fl_ten_ns : fl (10 / 1000000000) = (3022314549036573 / 302231454903657293676544) := by
  rw [fl_eq_of (10 / 1000000000) (-27) (6044629098073146) (by norm_num) (by norm_num [abs_of_pos])
    (by norm_num [abs_of_pos]) (by norm_num [abs_lt])]
  norm_num

theorem fl_half : fl (1 / 2) = (1 / 2) := by
  rw [fl_eq_of (1 / 2) (-1) (4503599627370496) (by norm_num) (by norm_num [abs_of_pos])
    (by norm_num [abs_of_pos]) (by norm_num [abs_lt])]
  norm_num

theorem secondsOf_ten : secondsOf 10 = (3022314549036573 / 302231454903657293676544) := by
  unfold secondsOf ddiv
  rw [show ((10 : ℤ) : ℚ) = 10 by norm_num, fl_ten, fl_ten_ns]

theorem secondsOf_zero : secondsOf 0 = 0 := by
  unfold secondsOf ddiv
  rw [show ((0 : ℤ) : ℚ) = 0 by norm_num, fl_zero]
  norm_num [fl_zero]

theorem interpolationFraction_midway : interpolationFraction 10 30 20 = some (1 / 2) := by
  unfold interpolationFraction
  simp only [show (30 : ℤ) - 10 = 20 by norm_num, show (20 : ℤ) - 10 = 10 by norm_num,
    secondsOf_twenty, secondsOf_ten]
  rw [if_neg (by norm_num)]
  unfold ddiv
  rw [show (3022314549036573 / 302231454903657293676544 : ℚ) /
      (3022314549036573 / 151115727451828646838272) = (1 / 2) by norm_num, fl_half]

/-- What the code does on a query at `behind.timestamp`: `data_ahead_` is kept, the next
sample replaces `data_behind_`, and the result is interpolated between those two; the
orientation of the former `data_behind_` is not used. -/
theorem imu_at_at_behind_spec (eigen : EigenOps) (self : CBoard) (next : IMUData)
    (rest : List IMUData) (hq : self.queue_.items = next :: rest)
    (hnext : self.data_behind_.timestamp < next.timestamp) :
    self.imu_at eigen self.data_behind_.timestamp =
      some
        { board :=
            { self with
              data_behind_ := next
              queue_ := { self.queue_ with items := rest } }
          k := interpolationFraction self.data_ahead_.timestamp next.timestamp
            self.data_behind_.timestamp
          q_c :=
            (interpolationFraction self.data_ahead_.timestamp next.timestamp
              self.data_behind_.timestamp).map fun k =>
                eigen.normalized
                  (eigen.slerp (eigen.normalized self.data_ahead_.q) k
                    (eigen.normalized next.q)) } := by
  simp [CBoard.imu_at, CBoard.advance, hq, imu_at_loop, hnext]

/-- C2 at a failing input: window `ahead = (identity, 10)`, `behind = ((0,1,0,0), 20)`,
next sample `(identity, 30)`.  The query at 20 returns, for every choice of the library
operations, the interpolation of the two identity endpoints at `k = 1/2`; with the
example operations this is the identity, not the orientation `(0,1,0,0)` of `behind`. -/
theorem imu_at_at_behind_timestamp_skips_behind :
    (∀ eigen : EigenOps,
      (({ boardWith "can" [sampleAt 30] with
          data_ahead_ := sampleAt 10
          data_behind_ := { q := ⟨0, 1, 0, 0⟩, timestamp := 20, crc16 := 0 } } : CBoard).imu_at
            eigen 20).bind (fun r => r.q_c) =
        some (eigen.normalized
          (eigen.slerp (eigen.normalized ⟨1, 0, 0, 0⟩) (1 / 2) (eigen.normalized ⟨1, 0, 0, 0⟩)))) ∧
      (({ boardWith "can" [sampleAt 30] with
          data_ahead_ := sampleAt 10
          data_behind_ := { q := ⟨0, 1, 0, 0⟩, timestamp := 20, crc16 := 0 } } : CBoard).imu_at
            lerpOps 20).bind (fun r => r.q_c) = some ⟨1, 0, 0, 0⟩ ∧
      (⟨1, 0, 0, 0⟩ : Quaterniond) ≠ ⟨0, 1, 0, 0⟩ := by
  have h : ∀ eigen : EigenOps,
      (({ boardWith "can" [sampleAt 30] with
          data_ahead_ := sampleAt 10
          data_behind_ := { q := ⟨0, 1, 0, 0⟩, timestamp := 20, crc16 := 0 } } : CBoard).imu_at
            eigen 20).bind (fun r => r.q_c) =
        some (eigen.normalized
          (eigen.slerp (eigen.normalized ⟨1, 0, 0, 0⟩) (1 / 2)
            (eigen.normalized ⟨1, 0, 0, 0⟩))) := by
    intro eigen
    simp [CBoard.imu_at, CBoard.advance, imu_at_loop, sampleAt, boardWith, CBoard.init,
      interpolationFraction_midway]
  refine ⟨h, ?_, by decide⟩
  rw [h lerpOps]
  simp [lerpOps]

/-- What the code does on a query at `ahead.timestamp`: `data_ahead_` is kept, the next
sample replaces `data_behind_`, the fraction is `k = 0`, and with a library
interpolation that returns its first endpoint at fraction 0 the result is the
orientation of `ahead` normalised twice (once as endpoint, once as result). -/
theorem imu_at_at_ahead_spec (eigen : EigenOps) (self : CBoard) (next : IMUData)
    (rest : List IMUData)
    (hslerp : ∀ a b, eigen.slerp a 0 b = a)
    (hwin : self.data_ahead_.timestamp < self.data_behind_.timestamp)
    (hq : self.queue_.items = next :: rest)
    (hnext : self.data_ahead_.timestamp < next.timestamp) :
    self.imu_at eigen self.data_ahead_.timestamp =
      some
        { board :=
            { self with
              data_behind_ := next
              queue_ := { self.queue_ with items := rest } }
          k := some 0
          q_c := some (eigen.normalized (eigen.normalized self.data_ahead_.q)) } := by
  have hk : interpolationFraction self.data_ahead_.timestamp next.timestamp
      self.data_ahead_.timestamp = some 0 := by
    unfold interpolationFraction
    have hpos : 0 < secondsOf (next.timestamp - self.data_ahead_.timestamp) :=
      secondsOf_pos (by omega)
    simp only [sub_self, secondsOf_zero]
    rw [if_neg (ne_of_gt hpos)]
    unfold ddiv
    rw [zero_div, fl_zero]
  simp [CBoard.imu_at, CBoard.advance, hq, imu_at_loop, hnext, not_lt.mpr (le_of_lt hwin),
    hk, hslerp]

theorem scalarOps_slerp_zero (a b : Quaterniond) : scalarOps.slerp a 0 b = a := by
  simp [scalarOps, lerpOps]

/-- C3 (as amended): on a window with `ahead.timestamp < behind.timestamp` whose next
queued sample is later than the query, the call at `t = ahead.timestamp` returns; the
window becomes `(ahead, next)`, the fraction is `k = 0`, and with a library interpolation
that returns its first endpoint at fraction 0 the result is the orientation of `ahead`
in normalised form, `normalized (normalized ahead.q)`: the endpoint is normalised before
the interpolation and the result after it.  The result is `ahead.q` itself when
normalisation leaves `ahead.q` unchanged. -/
theorem imu_at_at_ahead_timestamp (eigen : EigenOps) (self : CBoard) (next : IMUData)
    (rest : List IMUData)
    (hslerp : ∀ a b, eigen.slerp a 0 b = a)
    (hwin : self.data_ahead_.timestamp < self.data_behind_.timestamp)
    (hq : self.queue_.items = next :: rest)
    (hnext : self.data_ahead_.timestamp < next.timestamp) :
    ∃ r, self.imu_at eigen self.data_ahead_.timestamp = some r ∧
      r.board.data_ahead_ = self.data_ahead_ ∧ r.board.data_behind_ = next ∧
      r.k = some 0 ∧
      r.q_c = some (eigen.normalized (eigen.normalized self.data_ahead_.q)) ∧
      (eigen.normalized self.data_ahead_.q = self.data_ahead_.q →
        r.q_c = some self.data_ahead_.q) := by
  refine ⟨_, imu_at_at_ahead_spec eigen self next rest hslerp hwin hq hnext, rfl, rfl, rfl,
    rfl, ?_⟩
  intro hunit
  simp only [hunit]

/-- Witness for C3 (as amended): the window holds the sample decoded from the raw fields
(1002, 0, 0, 0) at 10 and a sample at 20, the next sample is at 30, the query is 10, and
the normalisation is not the identity. -/
theorem imu_at_at_ahead_timestamp_witness :
    ∃ r, ({ boardWith "can" [sampleAt 30] with
            data_ahead_ := decodedSample 1002 0 0 0 10
            data_behind_ := sampleAt 20 } : CBoard).imu_at scalarOps 10 = some r ∧
      r.board.data_ahead_ = decodedSample 1002 0 0 0 10 ∧ r.board.data_behind_ = sampleAt 30 ∧
      r.k = some 0 ∧
      r.q_c =
        some (scalarOps.normalized (scalarOps.normalized (decodedSample 1002 0 0 0 10).q)) ∧
      (scalarOps.normalized (decodedSample 1002 0 0 0 10).q = (decodedSample 1002 0 0 0 10).q →
        r.q_c = some (decodedSample 1002 0 0 0 10).q) :=
  imu_at_at_ahead_timestamp scalarOps
    { boardWith "can" [sampleAt 30] with
      data_ahead_ := decodedSample 1002 0 0 0 10
      data_behind_ := sampleAt 20 } (sampleAt 30) []
    scalarOps_slerp_zero (by simp [decodedSample, sampleAt]) (by simp [boardWith])
    (by simp [decodedSample, sampleAt])

/-! ## the 16-bit big-endian codec -/

/-- Every integer of magnitude below `2 ^ 53` is a double. -/
theorem fl_intCast (n : ℤ) (h : |n| < 2 ^ 53) : fl (n : ℚ) = n := by
  rcases eq_or_ne n 0 with h0 | hne
  · rw [h0]; simpa using fl_zero
  · have hpos : 0 < |(n : ℚ)| := abs_pos.mpr (by exact_mod_cast hne)
    have h1 : (1 : ℚ) ≤ |(n : ℚ)| := by
      have : (1 : ℤ) ≤ |n| := Int.one_le_abs hne
      exact_mod_cast this
    have h53 : |(n : ℚ)| < (2 : ℚ) ^ (53 : ℤ) := by
      have : ((|n| : ℤ) : ℚ) < ((2 ^ 53 : ℤ) : ℚ) := by exact_mod_cast h
      rw [Int.cast_abs] at this
      norm_num at this ⊢
      exact this
    have he0 : 0 ≤ Int.log 2 |(n : ℚ)| :=
      (Int.zpow_le_iff_le_log (b := 2) (by norm_num) hpos).mp (by simpa using h1)
    have he53 : Int.log 2 |(n : ℚ)| < 53 :=
      (Int.lt_zpow_iff_log_lt (b := 2) (by norm_num) hpos).mp (by simpa using h53)
    have hb : binade (n : ℚ) = Int.log 2 |(n : ℚ)| := by
      unfold binade; exact max_eq_left (by omega)
    obtain ⟨k, hk⟩ : ∃ k : ℕ, (52 : ℤ) - Int.log 2 |(n : ℚ)| = k :=
      ⟨(52 - Int.log 2 |(n : ℚ)|).toNat, (Int.toNat_of_nonneg (by omega)).symm⟩
    have hu : ulp (n : ℚ) = ((2 : ℚ) ^ k)⁻¹ := by
      unfold ulp
      rw [hb, show Int.log 2 |(n : ℚ)| - 52 = -(k : ℤ) by omega, zpow_neg, zpow_natCast]
    have hq : (n : ℚ) / ulp (n : ℚ) = ((n * 2 ^ k : ℤ) : ℚ) := by
      rw [hu]; push_cast; field_simp
    unfold fl
    rw [hq, roundHalfEven_intCast, hu]
    push_cast
    field_simp

theorem toUInt8_sar8 (n : ℤ) : toUInt8 (sar8 n) = (beBytesSpec n).1 := by
  unfold toUInt8 sar8 beBytesSpec
  have h : n >>> (8 : ℕ) = n / 256 := by
    rw [Int.shiftRight_eq_div_pow]; norm_num
  rw [h]
  congr 1
  omega

theorem toUInt8_low (n : ℤ) : toUInt8 n = (beBytesSpec n).2 := by
  unfold toUInt8 beBytesSpec
  congr 1
  omega

theorem toCanId_of_range (n : ℤ) (h0 : 0 ≤ n) (h1 : n < 4294967296) : (toCanId n : ℤ) = n := by
  unfold toCanId
  rw [Int.toNat_of_nonneg (Int.emod_nonneg _ (by norm_num)), Int.emod_eq_of_lt h0 h1]

theorem shiftLeft_or_eq (hi lo : ℕ) (h : lo < 256) : hi <<< 8 ||| lo = 256 * hi + lo := by
  have h2 : lo < 2 ^ 8 := by simpa using h
  rw [Nat.shiftLeft_eq, Nat.mul_comm, ← Nat.mul_add_lt_is_or h2]

theorem byte_lt_of_wellFormed (frame : can_frame) (hw : frame.WellFormed) (i : ℕ) :
    frame.byte i < 256 := by
  unfold can_frame.byte
  rcases Nat.lt_or_ge i frame.data.length with h | h
  · rw [List.getD_eq_getElem _ _ h]
    exact hw _ (List.getElem_mem h)
  · rw [List.getD_eq_default _ _ h]
    norm_num

/-- The expression `(int16_t)(hi << 8 | lo)` reads the pair as a big-endian
two-complement 16-bit integer. -/
theorem be16_eq_spec (hi lo : ℕ) (hhi : hi < 256) (hlo : lo < 256) :
    be16 hi lo = beInt16Spec hi lo := by
  unfold be16 toInt16 beInt16Spec
  rw [shiftLeft_or_eq hi lo hlo]
  split_ifs <;> push_cast <;> omega

theorem be16_range (hi lo : ℕ) : -32768 ≤ be16 hi lo ∧ be16 hi lo ≤ 32767 := by
  unfold be16 toInt16
  omega

/-- Decoding the byte pair `(n >> 8, n)` of a 16-bit signed integer gives it back. -/
theorem be16_roundtrip (n : ℤ) (h0 : -32768 ≤ n) (h1 : n ≤ 32767) :
    be16 (toUInt8 (sar8 n)) (toUInt8 n) = n := by
  have hs : sar8 n = n / 256 := by
    unfold sar8
    rw [Int.shiftRight_eq_div_pow]; norm_num
  have hlo : toUInt8 n < 256 := by unfold toUInt8; omega
  unfold be16 toInt16
  rw [shiftLeft_or_eq _ _ hlo, hs]
  unfold toUInt8
  push_cast
  rw [Int.toNat_of_nonneg (Int.emod_nonneg _ (by norm_num)),
    Int.toNat_of_nonneg (Int.emod_nonneg _ (by norm_num))]
  omega

theorem truncate_intCast (n : ℤ) : truncate (n : ℚ) = n := by
  unfold truncate
  split_ifs <;> simp

theorem abs_truncate_sub_lt (d : ℚ) : |(truncate d : ℚ) - d| < 1 := by
  unfold truncate
  split_ifs
  · have h1 := Int.floor_le d
    have h2 := Int.lt_floor_add_one d
    rw [abs_lt]; constructor <;> linarith
  · have h1 := Int.le_ceil d
    have h2 := Int.ceil_lt_add_one d
    rw [abs_lt]; constructor <;> linarith

/-! ## send -/

/-- C4: in CAN mode, for a command whose `yaw * 1e2`, `pitch * 1e2` and
`horizon_distance * 1e2` truncate into the `int16_t` range, `send` hands to the
transport one frame with the configured send identifier, length 8, the control and
shoot flags in bytes 0 and 1, and in bytes 2-3, 4-5, 6-7 the big-endian
two-complement bytes of the three truncated products. -/
theorem send_can_frame (tools : Tools) (self : CBoard) (command : Command)
    (hmode : self.current_mode_ = "can")
    (hyaw : -32768 ≤ truncate (dmul command.yaw 100) ∧ truncate (dmul command.yaw 100) ≤ 32767)
    (hpitch : -32768 ≤ truncate (dmul command.pitch 100) ∧
      truncate (dmul command.pitch 100) ≤ 32767)
    (hdist : -32768 ≤ truncate (dmul command.horizon_distance 100) ∧
      truncate (dmul command.horizon_distance 100) ≤ 32767) :
    ∃ frame : can_frame,
      self.send tools command = some { self with can_written := self.can_written ++ [frame] } ∧
      frame.can_id = toCanId self.send_canid_ ∧
      (0 ≤ self.send_canid_ → self.send_canid_ < 4294967296 →
        (frame.can_id : ℤ) = self.send_canid_) ∧
      frame.can_dlc = 8 ∧
      frame.data =
        [if command.control then 1 else 0, if command.shoot then 1 else 0,
          (beBytesSpec (truncate (dmul command.yaw 100))).1,
          (beBytesSpec (truncate (dmul command.yaw 100))).2,
          (beBytesSpec (truncate (dmul command.pitch 100))).1,
          (beBytesSpec (truncate (dmul command.pitch 100))).2,
          (beBytesSpec (truncate (dmul command.horizon_distance 100))).1,
          (beBytesSpec (truncate (dmul command.horizon_distance 100))).2] := by
  refine ⟨⟨toCanId self.send_canid_, 8,
      [if command.control then 1 else 0, if command.shoot then 1 else 0,
        toUInt8 (sar8 (truncate (dmul command.yaw 100))),
        toUInt8 (truncate (dmul command.yaw 100)),
        toUInt8 (sar8 (truncate (dmul command.pitch 100))),
        toUInt8 (truncate (dmul command.pitch 100)),
        toUInt8 (sar8 (truncate (dmul command.horizon_distance 100))),
        toUInt8 (truncate (dmul command.horizon_distance 100))]⟩,
    ?_, rfl, toCanId_of_range _, rfl, ?_⟩
  · unfold CBoard.send doubleToInt16
    rw [if_pos hmode, if_pos hyaw, if_pos hpitch, if_pos hdist]
  · simp only [toUInt8_sar8]
    simp only [toUInt8_low]

/-- Witness for C4: control set, shoot clear, yaw 0.5, pitch -0.25, distance 3. -/
theorem send_can_frame_witness :
    ∃ frame : can_frame,
      (boardWith "can" []).send demoTools ⟨true, false, 1 / 2, -1 / 4, 3⟩ =
        some { boardWith "can" [] with can_written := (boardWith "can" []).can_written ++ [frame] } ∧
      frame.can_id = toCanId (boardWith "can" []).send_canid_ ∧
      (0 ≤ (boardWith "can" []).send_canid_ → (boardWith "can" []).send_canid_ < 4294967296 →
        (frame.can_id : ℤ) = (boardWith "can" []).send_canid_) ∧
      frame.can_dlc = 8 ∧
      frame.data =
        [if (true : Bool) then 1 else 0, if (false : Bool) then 1 else 0,
          (beBytesSpec (truncate (dmul (1 / 2) 100))).1,
          (beBytesSpec (truncate (dmul (1 / 2) 100))).2,
          (beBytesSpec (truncate (dmul (-1 / 4) 100))).1,
          (beBytesSpec (truncate (dmul (-1 / 4) 100))).2,
          (beBytesSpec (truncate (dmul 3 100))).1,
          (beBytesSpec (truncate (dmul 3 100))).2] :=
  have h1 : dmul (1 / 2) 100 = ((50 : ℤ) : ℚ) := by
    unfold dmul
    rw [show (1 / 2 : ℚ) * 100 = ((50 : ℤ) : ℚ) by norm_num, fl_intCast 50 (by norm_num)]
  have h2 : dmul (-1 / 4) 100 = ((-25 : ℤ) : ℚ) := by
    unfold dmul
    rw [show (-1 / 4 : ℚ) * 100 = ((-25 : ℤ) : ℚ) by norm_num, fl_intCast (-25) (by norm_num)]
  have h3 : dmul 3 100 = ((300 : ℤ) : ℚ) := by
    unfold dmul
    rw [show (3 : ℚ) * 100 = ((300 : ℤ) : ℚ) by norm_num, fl_intCast 300 (by norm_num)]
  send_can_frame demoTools (boardWith "can" []) ⟨true, false, 1 / 2, -1 / 4, 3⟩ rfl
    (by rw [h1, truncate_intCast]; norm_num) (by rw [h2, truncate_intCast]; norm_num)
    (by rw [h3, truncate_intCast]; norm_num)

/-! ## callback: status frames -/

theorem callback_status_fields (tools : Tools) (self : CBoard) (frame : can_frame)
    (timestamp now : ℤ) (hq : frame.can_id ≠ toCanId self.quaternion_canid_)
    (hs : frame.can_id = toCanId self.bullet_speed_canid_) :
    (self.callback tools frame timestamp now).bullet_speed =
        ddiv (be16 (frame.byte 0) (frame.byte 1)) 100 ∧
      (self.callback tools frame timestamp now).mode = frame.byte 2 ∧
      (self.callback tools frame timestamp now).shoot_mode = frame.byte 3 ∧
      (self.callback tools frame timestamp now).ft_angle =
        ddiv (be16 (frame.byte 4) (frame.byte 5)) 10000 ∧
      (self.callback tools frame timestamp now).queue_ = self.queue_ := by
  unfold CBoard.callback
  rw [if_neg hq, if_pos hs]
  simp only
  split_ifs <;> exact ⟨rfl, rfl, rfl, rfl, rfl⟩

/-! ## round trip of the 1e-2 fixed-point fields -/

theorem fl_058_times_100 : fl (5224175567749775 / 9007199254740992 * 100) = (8162774324609023 / 140737488355328) := by
  rw [fl_eq_of (5224175567749775 / 9007199254740992 * 100) (5) (8162774324609023) (by norm_num) (by norm_num [abs_of_pos])
    (by norm_num [abs_of_pos]) (by norm_num [abs_lt])]
  norm_num

theorem fl_057 : fl (57 / 100) = (5134103575202365 / 9007199254740992) := by
  rw [fl_eq_of (57 / 100) (-1) (5134103575202365) (by norm_num) (by norm_num [abs_of_pos])
    (by norm_num [abs_of_pos]) (by norm_num [abs_lt])]
  norm_num

theorem fl_058 : fl (58 / 100) = (5224175567749775 / 9007199254740992) := by
  rw [fl_eq_of (58 / 100) (-1) (5224175567749775) (by norm_num) (by norm_num [abs_of_pos])
    (by norm_num [abs_of_pos]) (by norm_num [abs_lt])]
  norm_num

/-- C5 (as stated) fails at `v = 0.58` (the double `58 / 100` rounds to): `send` writes
the bytes `(0, 57)` because the double product `0.58 * 1e2` is `57.99999999999999`, the
status decode of these bytes is the double `0.57`, and `0.58 - 0.57` exceeds `0.01`. -/
theorem centi_roundtrip_exceeds :
    fl (58 / 100) = (5224175567749775 / 9007199254740992) ∧
      ((boardWith "can" []).send demoTools ⟨true, false, (5224175567749775 / 9007199254740992), 0, 0⟩).map
          (fun b => b.can_written.map fun frame => frame.data) =
        some [[1, 0, 0, 57, 0, 0, 0, 0]] ∧
      ((boardWith "can" []).callback demoTools ⟨257, 8, [0, 57, 0, 0, 0, 0, 0, 0]⟩ 0 0).bullet_speed =
        (5134103575202365 / 9007199254740992) ∧
      ¬ |(5134103575202365 / 9007199254740992 : ℚ) - (5224175567749775 / 9007199254740992)| ≤ 1 / 100 := by
  have hp : dmul (5224175567749775 / 9007199254740992) 100 = (8162774324609023 / 140737488355328) := by
    unfold dmul; exact fl_058_times_100
  have ht : truncate (8162774324609023 / 140737488355328 : ℚ) = 57 := by
    unfold truncate
    rw [if_pos (by norm_num), Int.floor_eq_iff]
    norm_num
  have hz : dmul 0 100 = 0 := by unfold dmul; rw [zero_mul, fl_zero]
  have hz2 : truncate (0 : ℚ) = 0 := by simpa using truncate_intCast 0
  refine ⟨fl_058, ?_, ?_, by norm_num [abs_le]⟩
  · have h57 : toUInt8 (sar8 57) = 0 ∧ toUInt8 57 = 57 ∧ toUInt8 (sar8 0) = 0 ∧
        toUInt8 0 = 0 := by decide
    simp [CBoard.send, boardWith, CBoard.init, doubleToInt16, hp, ht, hz, hz2, h57]
  · have hb : be16 0 57 = 57 := by decide
    rw [(callback_status_fields demoTools (boardWith "can" [])
      ⟨257, 8, [0, 57, 0, 0, 0, 0, 0, 0]⟩ 0 0 (by decide) (by decide)).1]
    simp only [can_frame.byte, List.getD_cons_zero, List.getD_cons_succ, hb]
    unfold ddiv
    rw [show ((57 : ℤ) : ℚ) / 100 = 57 / 100 by norm_num]
    exact fl_057

theorem abs_le_of_abs_fl_lt (x : ℚ) (h : |fl x| < 65536) : |x| ≤ (2 : ℚ) ^ (16 : ℤ) := by
  have h16 : fl 65536 = 65536 := by simpa using fl_intCast 65536 (by norm_num)
  rw [abs_lt] at h
  rw [abs_le]
  norm_num
  constructor
  · by_contra hc
    have h1 := fl_mono (le_of_lt (not_le.mp hc))
    rw [show (-65536 : ℚ) = -(65536) by norm_num, fl_neg, h16] at h1
    linarith
  · by_contra hc
    have h1 := fl_mono (le_of_lt (not_le.mp hc))
    rw [h16] at h1
    linarith

/-- C5 (as amended): for every `v` whose double product `v * 1e2` truncates into the
`int16_t` range, the status decode of the two bytes `send` writes for `v` is within
`0.01 + 1e-12` of `v`; and for every 16-bit signed integer `n`, decoding the byte pair
`(n >> 8, n)` gives back exactly `n`. -/
theorem centi_roundtrip (v : ℚ)
    (hv : -32768 ≤ truncate (dmul v 100) ∧ truncate (dmul v 100) ≤ 32767) :
    (∃ n, doubleToInt16 (dmul v 100) = some n ∧
        |ddiv (be16 (toUInt8 (sar8 n)) (toUInt8 n)) 100 - v| ≤ 1 / 100 + 1 / 10 ^ 12) ∧
      ∀ n : ℤ, -32768 ≤ n → n ≤ 32767 → be16 (toUInt8 (sar8 n)) (toUInt8 n) = n := by
  refine ⟨⟨truncate (dmul v 100), ?_, ?_⟩, be16_roundtrip⟩
  · unfold doubleToInt16
    rw [if_pos hv]
  · rw [be16_roundtrip _ hv.1 hv.2]
    have ht := abs_truncate_sub_lt (dmul v 100)
    have hn0 : (-32768 : ℚ) ≤ (truncate (dmul v 100) : ℚ) := by exact_mod_cast hv.1
    have hn1 : (truncate (dmul v 100) : ℚ) ≤ 32767 := by exact_mod_cast hv.2
    have hp : |fl (v * 100)| < 65536 := by
      rw [abs_lt] at ht ⊢
      unfold dmul at ht hn0 hn1
      constructor <;> linarith
    have hx := abs_fl_sub_le_of_abs_le (v * 100) 16 (by norm_num) (abs_le_of_abs_fl_lt _ hp)
    have hd := abs_fl_sub_le_of_abs_le ((truncate (dmul v 100) : ℚ) / 100) 9 (by norm_num)
      (by rw [abs_le]; norm_num; constructor <;> linarith)
    unfold ddiv
    unfold dmul at ht hd ⊢
    rw [abs_le] at hx hd ⊢
    rw [abs_lt] at ht
    norm_num at hx hd ⊢
    constructor <;> linarith

/-- Witness for C5 (as amended): `v = 0.5`. -/
theorem centi_roundtrip_witness :
    (∃ n, doubleToInt16 (dmul (1 / 2) 100) = some n ∧
        |ddiv (be16 (toUInt8 (sar8 n)) (toUInt8 n)) 100 - 1 / 2| ≤ 1 / 100 + 1 / 10 ^ 12) ∧
      ∀ n : ℤ, -32768 ≤ n → n ≤ 32767 → be16 (toUInt8 (sar8 n)) (toUInt8 n) = n :=
  have h1 : dmul (1 / 2) 100 = ((50 : ℤ) : ℚ) := by
    unfold dmul
    rw [show (1 / 2 : ℚ) * 100 = ((50 : ℤ) : ℚ) by norm_num, fl_intCast 50 (by norm_num)]
  centi_roundtrip (1 / 2) (by rw [h1, truncate_intCast]; norm_num)

/-! ## the unit-norm check -/

theorem ddiv_thousand_close (a : ℤ) (h0 : -32768 ≤ a) (h1 : a ≤ 32767) :
    |ddiv a 1000 - (a : ℚ) / 1000| ≤ (2 : ℚ) ^ (-47 : ℤ) ∧ |(a : ℚ) / 1000| ≤ 33 := by
  have c0 : (-32768 : ℚ) ≤ a := by exact_mod_cast h0
  have c1 : (a : ℚ) ≤ 32767 := by exact_mod_cast h1
  have hA : |(a : ℚ) / 1000| ≤ 33 := by
    rw [abs_le]; constructor <;> linarith
  refine ⟨?_, hA⟩
  exact abs_fl_sub_le_of_abs_le ((a : ℚ) / 1000) 6 (by norm_num)
    (le_trans hA (by norm_num))

theorem dmul_self_close (w A : ℚ) (hA : |A| ≤ 33) (hw : |w - A| ≤ (2 : ℚ) ^ (-47 : ℤ)) :
    |dmul w w - A * A| ≤ (2 : ℚ) ^ (-40 : ℤ) ∧ A * A ≤ 1089 ∧ 0 ≤ A * A := by
  have hsmall : (2 : ℚ) ^ (-47 : ℤ) ≤ 1 := by norm_num
  rw [abs_le] at hA hw
  have hw34 : |w| ≤ 34 := by rw [abs_le]; constructor <;> linarith
  have hsum : |w + A| ≤ 67 := by
    rw [abs_le] at hw34 ⊢; constructor <;> linarith
  have hprod : |w * w - A * A| ≤ (2 : ℚ) ^ (-47 : ℤ) * 67 := by
    rw [show w * w - A * A = (w - A) * (w + A) by ring, abs_mul]
    exact mul_le_mul (abs_le.mpr hw) hsum (abs_nonneg _) (by positivity)
  have hww : |w * w| ≤ (2 : ℚ) ^ (11 : ℤ) := by
    rw [abs_mul]
    calc |w| * |w| ≤ 34 * 34 := mul_le_mul hw34 hw34 (abs_nonneg _) (by norm_num)
      _ ≤ (2 : ℚ) ^ (11 : ℤ) := by norm_num
  have hfl := abs_fl_sub_le_of_abs_le (w * w) 11 (by norm_num) hww
  have hAA : A * A ≤ 1089 := by nlinarith [hA.1, hA.2]
  refine ⟨?_, hAA, mul_self_nonneg A⟩
  unfold dmul
  rw [abs_le] at hprod hfl ⊢
  norm_num at hprod hfl ⊢
  constructor <;> linarith

theorem dadd_close (u v U V eu ev : ℚ) (k : ℤ) (hk : -1022 ≤ k)
    (hu : |u - U| ≤ eu) (hv : |v - V| ≤ ev) (hb : |u + v| ≤ (2 : ℚ) ^ k) :
    |dadd u v - (U + V)| ≤ eu + ev + (2 : ℚ) ^ (k - 53) := by
  have hfl := abs_fl_sub_le_of_abs_le (u + v) k hk hb
  unfold dadd
  rw [abs_le] at hu hv hfl ⊢
  constructor <;> linarith

/-- The deviation computed in double arithmetic differs from the exact deviation by
less than `1e-9`. -/
theorem normDeviation_close (a b c d : ℤ)
    (ha : -32768 ≤ a ∧ a ≤ 32767) (hb : -32768 ≤ b ∧ b ≤ 32767)
    (hc : -32768 ≤ c ∧ c ≤ 32767) (hd : -32768 ≤ d ∧ d ≤ 32767) :
    |normDeviation (ddiv a 1000) (ddiv b 1000) (ddiv c 1000) (ddiv d 1000) -
        exactDeviation a b c d| ≤ 1 / 10 ^ 9 := by
  obtain ⟨ha1, ha2⟩ := ddiv_thousand_close a ha.1 ha.2
  obtain ⟨hb1, hb2⟩ := ddiv_thousand_close b hb.1 hb.2
  obtain ⟨hc1, hc2⟩ := ddiv_thousand_close c hc.1 hc.2
  obtain ⟨hd1, hd2⟩ := ddiv_thousand_close d hd.1 hd.2
  obtain ⟨hww, hA1, hA0⟩ := dmul_self_close _ _ ha2 ha1
  obtain ⟨hxx, hB1, hB0⟩ := dmul_self_close _ _ hb2 hb1
  obtain ⟨hyy, hC1, hC0⟩ := dmul_self_close _ _ hc2 hc1
  obtain ⟨hzz, hD1, hD0⟩ := dmul_self_close _ _ hd2 hd1
  have e40 : (2 : ℚ) ^ (-40 : ℤ) = 1 / 1099511627776 := by norm_num
  rw [e40] at hww hxx hyy hzz
  have hs1 := dadd_close _ _ _ _ _ _ 12 (by norm_num) hxx hyy (by
    rw [abs_le] at hxx hyy ⊢; norm_num; constructor <;> linarith)
  have hs2 := dadd_close _ _ _ _ _ _ 12 (by norm_num) hs1 hzz (by
    rw [abs_le] at hs1 hzz ⊢; norm_num at hs1 ⊢; constructor <;> linarith)
  have hs3 := dadd_close _ _ _ _ _ _ 13 (by norm_num) hs2 hww (by
    rw [abs_le] at hs2 hww ⊢; norm_num at hs2 ⊢; constructor <;> linarith)
  have hfl := abs_fl_sub_le_of_abs_le
    (dadd (dadd (dadd (dmul (ddiv b 1000) (ddiv b 1000)) (dmul (ddiv c 1000) (ddiv c 1000)))
      (dmul (ddiv d 1000) (ddiv d 1000))) (dmul (ddiv a 1000) (ddiv a 1000)) - 1) 13
    (by norm_num) (by
      rw [abs_le] at hs3 ⊢; norm_num at hs3 ⊢; constructor <;> linarith)
  have hexact : ((rawNorm a b c d : ℤ) : ℚ) / 1000000 - 1 =
      (b : ℚ) / 1000 * ((b : ℚ) / 1000) + (c : ℚ) / 1000 * ((c : ℚ) / 1000) +
        (d : ℚ) / 1000 * ((d : ℚ) / 1000) + (a : ℚ) / 1000 * ((a : ℚ) / 1000) - 1 := by
    unfold rawNorm; push_cast; ring
  unfold normDeviation dsub exactDeviation
  rw [hexact]
  refine le_trans (abs_abs_sub_abs_le_abs_sub _ _) ?_
  rw [abs_le] at hs3 hfl ⊢
  norm_num at hs3 hfl ⊢
  constructor <;> linarith

theorem tolerance_close : |tolerance - 1 / 100| ≤ 1 / 10 ^ 9 := by
  unfold tolerance
  have h := abs_fl_sub_le_of_abs_le (1 / 100) (-6) (by norm_num) (by norm_num [abs_of_pos])
  refine le_trans h (by norm_num)

theorem accepted_of_lt (a b c d : ℤ)
    (ha : -32768 ≤ a ∧ a ≤ 32767) (hb : -32768 ≤ b ∧ b ≤ 32767)
    (hc : -32768 ≤ c ∧ c ≤ 32767) (hd : -32768 ≤ d ∧ d ≤ 32767)
    (h : |rawNorm a b c d - 1000000| < 10000) : Accepted a b c d := by
  have hclose := normDeviation_close a b c d ha hb hc hd
  have htol := tolerance_close
  have hex : exactDeviation a b c d ≤ 9999 / 1000000 := by
    unfold exactDeviation
    rw [abs_lt] at h
    have h1 : (-9999 : ℚ) ≤ ((rawNorm a b c d : ℤ) : ℚ) - 1000000 := by
      have : (-9999 : ℤ) ≤ rawNorm a b c d - 1000000 := by omega
      exact_mod_cast this
    have h2 : ((rawNorm a b c d : ℤ) : ℚ) - 1000000 ≤ 9999 := by
      have : rawNorm a b c d - 1000000 ≤ (9999 : ℤ) := by omega
      exact_mod_cast this
    rw [abs_le]; constructor <;> linarith
  unfold Accepted
  rw [abs_le] at hclose htol
  norm_num at hclose htol
  linarith

theorem not_accepted_of_gt (a b c d : ℤ)
    (ha : -32768 ≤ a ∧ a ≤ 32767) (hb : -32768 ≤ b ∧ b ≤ 32767)
    (hc : -32768 ≤ c ∧ c ≤ 32767) (hd : -32768 ≤ d ∧ d ≤ 32767)
    (h : |rawNorm a b c d - 1000000| > 10000) : ¬ Accepted a b c d := by
  have hclose := normDeviation_close a b c d ha hb hc hd
  have htol := tolerance_close
  have hex : 10001 / 1000000 ≤ exactDeviation a b c d := by
    unfold exactDeviation
    have h1 : (10001 : ℤ) ≤ |rawNorm a b c d - 1000000| := by omega
    have h2 : ((10001 : ℤ) : ℚ) ≤ ((|rawNorm a b c d - 1000000| : ℤ) : ℚ) := by
      exact_mod_cast h1
    rw [Int.cast_abs] at h2
    push_cast at h2
    rw [show ((rawNorm a b c d : ℤ) : ℚ) / 1000000 - 1 =
      (((rawNorm a b c d : ℤ) : ℚ) - 1000000) / 1000000 by ring, abs_div]
    rw [le_div_iff₀ (by norm_num)]
    norm_num
    linarith
  unfold Accepted
  rw [not_not]
  rw [abs_le] at hclose htol
  norm_num at hclose htol
  linarith

theorem fl_tenth : fl (1 / 10) = (3602879701896397 / 36028797018963968) := by
  rw [fl_eq_of (1 / 10) (-4) (7205759403792794) (by norm_num) (by norm_num [abs_of_pos])
    (by norm_num [abs_of_pos]) (by norm_num [abs_lt])]
  norm_num

theorem fl_tenth_sq : fl (12980742146337070512478121581609 / 1298074214633706907132624082305024) = (1441151880758559 / 144115188075855872) := by
  rw [fl_eq_of (12980742146337070512478121581609 / 1298074214633706907132624082305024) (-7) (5764607523034236) (by norm_num) (by norm_num [abs_of_pos])
    (by norm_num [abs_of_pos]) (by norm_num [abs_lt])]
  norm_num

theorem fl_tenth_sq_again : fl (1441151880758559 / 144115188075855872) = (1441151880758559 / 144115188075855872) := by
  rw [fl_eq_of (1441151880758559 / 144115188075855872) (-7) (5764607523034236) (by norm_num) (by norm_num [abs_of_pos])
    (by norm_num [abs_of_pos]) (by norm_num [abs_lt])]
  norm_num

theorem fl_one_plus : fl (145556339956614431 / 144115188075855872) = (4548635623644201 / 4503599627370496) := by
  rw [fl_eq_of (145556339956614431 / 144115188075855872) (0) (4548635623644201) (by norm_num) (by norm_num [abs_of_pos])
    (by norm_num [abs_of_pos]) (by norm_num [abs_lt])]
  norm_num

theorem fl_excess : fl (45035996273705 / 4503599627370496) = (45035996273705 / 4503599627370496) := by
  rw [fl_eq_of (45035996273705 / 4503599627370496) (-7) (5764607523034240) (by norm_num) (by norm_num [abs_of_pos])
    (by norm_num [abs_of_pos]) (by norm_num [abs_lt])]
  norm_num

theorem fl_hundredth : fl (1 / 100) = (5764607523034235 / 576460752303423488) := by
  rw [fl_eq_of (1 / 100) (-7) (5764607523034235) (by norm_num) (by norm_num [abs_of_pos])
    (by norm_num [abs_of_pos]) (by norm_num [abs_lt])]
  norm_num

/-- The unit-norm check rejects the raw fields `(1000, 100, 0, 0)`: the deviation
computed in double arithmetic is `0.010000000000000009`, above the double `1e-2`. -/
theorem not_accepted_boundary : ¬ Accepted 1000 100 0 0 := by
  have hw : ddiv ((1000 : ℤ) : ℚ) 1000 = 1 := by
    unfold ddiv; rw [show ((1000 : ℤ) : ℚ) / 1000 = 1 by norm_num, fl_one]
  have hx : ddiv ((100 : ℤ) : ℚ) 1000 = (3602879701896397 / 36028797018963968) := by
    unfold ddiv; rw [show ((100 : ℤ) : ℚ) / 1000 = (1 / 10) by norm_num, fl_tenth]
  have h0 : ddiv ((0 : ℤ) : ℚ) 1000 = 0 := by
    unfold ddiv; rw [show ((0 : ℤ) : ℚ) / 1000 = 0 by norm_num, fl_zero]
  have hxx : dmul (3602879701896397 / 36028797018963968) (3602879701896397 / 36028797018963968) = (1441151880758559 / 144115188075855872) := by
    unfold dmul
    rw [show (3602879701896397 / 36028797018963968 : ℚ) * (3602879701896397 / 36028797018963968) = (12980742146337070512478121581609 / 1298074214633706907132624082305024) by norm_num, fl_tenth_sq]
  have h00 : dmul 0 0 = 0 := by unfold dmul; rw [mul_zero, fl_zero]
  have h11 : dmul 1 1 = 1 := by unfold dmul; rw [mul_one, fl_one]
  have hs0 : dadd (1441151880758559 / 144115188075855872) 0 = (1441151880758559 / 144115188075855872) := by
    unfold dadd; rw [add_zero, fl_tenth_sq_again]
  have hs1 : dadd (1441151880758559 / 144115188075855872) 1 = (4548635623644201 / 4503599627370496) := by
    unfold dadd
    rw [show (1441151880758559 / 144115188075855872 : ℚ) + 1 = (145556339956614431 / 144115188075855872) by norm_num, fl_one_plus]
  have hd : dsub (4548635623644201 / 4503599627370496) 1 = (45035996273705 / 4503599627370496) := by
    unfold dsub
    rw [show (4548635623644201 / 4503599627370496 : ℚ) - 1 = (45035996273705 / 4503599627370496) by norm_num, fl_excess]
  unfold Accepted normDeviation tolerance
  rw [hw, hx, h0, hxx, h00, hs0, hs0, h11, hs1, hd, fl_hundredth]
  norm_num [abs_of_pos]

/-- C6 (as amended): on the CAN orientation path and on the serial path alike, the
decoded sample is pushed when the deviation computed in double arithmetic is not above
the double `1e-2`, and otherwise the call leaves the object, hence the queue, unchanged;
a quaternion whose exact deviation is below `1e-2` is accepted and one whose exact
deviation is above `1e-2` is rejected; at an exact deviation of `1e-2` rounding decides,
and the raw fields `(1000, 100, 0, 0)` are rejected. -/
theorem unit_norm_check (tools : Tools) (self : CBoard) (frame : can_frame) (timestamp now : ℤ)
    (input : SerialInput) (rx : GimbalToVision) (error_count : ℤ) (bytes : List ℕ)
    (a b c d : ℤ)
    (hid : frame.can_id = toCanId self.quaternion_canid_) (hdata : frame.data = bytes)
    (hcount : error_count ≤ 5000) (hhead : input.head = some (77, 65))
    (hbody : input.body = some rx) (hcrc : input.crc_ok = true) (hrx : rx.q = bytes)
    (ha : a = be16 (bytes.getD 0 0) (bytes.getD 1 0))
    (hb : b = be16 (bytes.getD 2 0) (bytes.getD 3 0))
    (hc : c = be16 (bytes.getD 4 0) (bytes.getD 5 0))
    (hd : d = be16 (bytes.getD 6 0) (bytes.getD 7 0)) :
    (Accepted a b c d →
        (self.callback tools frame timestamp now).queue_ =
            self.queue_.push (decodedSample a b c d timestamp) ∧
          (self.read_thread_iteration tools error_count input).1.queue_ =
            self.queue_.push (decodedSample a b c d input.timestamp)) ∧
      (¬ Accepted a b c d →
        self.callback tools frame timestamp now = self ∧
          self.read_thread_iteration tools error_count input = (self, 0)) ∧
      (|rawNorm a b c d - 1000000| < 10000 → Accepted a b c d) ∧
      (|rawNorm a b c d - 1000000| > 10000 → ¬ Accepted a b c d) ∧
      ¬ Accepted 1000 100 0 0 := by
  have ra := be16_range (bytes.getD 0 0) (bytes.getD 1 0)
  have rb := be16_range (bytes.getD 2 0) (bytes.getD 3 0)
  have rc := be16_range (bytes.getD 4 0) (bytes.getD 5 0)
  have rd := be16_range (bytes.getD 6 0) (bytes.getD 7 0)
  rw [← ha] at ra
  rw [← hb] at rb
  rw [← hc] at rc
  rw [← hd] at rd
  refine ⟨?_, ?_, accepted_of_lt a b c d ra rb rc rd, not_accepted_of_gt a b c d ra rb rc rd,
    not_accepted_boundary⟩
  · intro hacc
    unfold Accepted at hacc
    constructor
    · unfold CBoard.callback
      rw [if_pos hid]
      simp only [can_frame.byte, hdata, ← ha, ← hb, ← hc, ← hd]
      rw [if_neg hacc]
      rfl
    · unfold CBoard.read_thread_iteration
      rw [if_neg (not_lt.mpr hcount)]
      simp only [hhead, hbody, hcrc, hrx, ← ha, ← hb, ← hc, ← hd]
      simp only [ne_eq, not_true_eq_false, or_self, if_false, Bool.not_true,
        Bool.false_eq_true]
      rw [if_neg hacc]
      simp only
      split_ifs <;> rfl
  · intro hrej
    unfold Accepted at hrej
    rw [not_not] at hrej
    constructor
    · unfold CBoard.callback
      rw [if_pos hid]
      simp only [can_frame.byte, hdata, ← ha, ← hb, ← hc, ← hd]
      rw [if_pos hrej]
    · unfold CBoard.read_thread_iteration
      rw [if_neg (not_lt.mpr hcount)]
      simp only [hhead, hbody, hcrc, hrx, ← ha, ← hb, ← hc, ← hd]
      simp only [ne_eq, not_true_eq_false, or_self, if_false, Bool.not_true,
        Bool.false_eq_true]
      rw [if_pos hrej]

/-- C6 (as stated) fails at the boundary example: the raw fields `(1000, 100, 0, 0)`
(bytes `03 E8 00 64 00 00 00 00`) have exact deviation `1e-2`, yet the unit-norm check
rejects them and both receive paths leave the object unchanged. -/
theorem unit_norm_check_rejects_boundary :
    be16 3 232 = 1000 ∧ be16 0 100 = 100 ∧ be16 0 0 = 0 ∧
      exactDeviation 1000 100 0 0 = 1 / 100 ∧
      (boardWith "can" []).callback demoTools ⟨256, 8, [3, 232, 0, 100, 0, 0, 0, 0]⟩ 7 7 =
        boardWith "can" [] ∧
      (boardWith "serial" []).read_thread_iteration demoTools 0
          { head := some (77, 65)
            body := some { mode := 0, q := [3, 232, 0, 100, 0, 0, 0, 0], bullet_speed := 0 }
            crc_ok := true
            timestamp := 7
            now := 7
            quit_ := fun _ => false
            open_ok := fun _ => true } =
        (boardWith "serial" [], 0) := by
  have h1 : be16 3 232 = 1000 := by decide
  have h2 : be16 0 100 = 100 := by decide
  have h3 : be16 0 0 = 0 := by decide
  have hrej := not_accepted_boundary
  unfold Accepted at hrej
  rw [not_not] at hrej
  refine ⟨h1, h2, h3, ?_, ?_, ?_⟩
  · unfold exactDeviation rawNorm
    norm_num [abs_of_pos]
  · unfold CBoard.callback
    rw [if_pos (by decide)]
    simp only [can_frame.byte, List.getD_cons_zero, List.getD_cons_succ, h1, h2, h3]
    rw [if_pos hrej]
  · unfold CBoard.read_thread_iteration
    rw [if_neg (by norm_num)]
    simp only [List.getD_cons_zero, List.getD_cons_succ, h1, h2, h3]
    simp only [ne_eq, not_true_eq_false, or_self, if_false, Bool.not_true,
      Bool.false_eq_true]
    rw [if_pos hrej]

/-- Witness for C6 (as amended): the bytes `03 E8 00 00 00 00 00 00`, raw fields
`(1000, 0, 0, 0)`. -/
theorem unit_norm_check_witness :
    (Accepted 1000 0 0 0 →
        ((boardWith "can" []).callback demoTools ⟨256, 8, [3, 232, 0, 0, 0, 0, 0, 0]⟩ 7 7).queue_ =
            (boardWith "can" []).queue_.push (decodedSample 1000 0 0 0 7) ∧
          ((boardWith "can" []).read_thread_iteration demoTools 0
              (demoInput [3, 232, 0, 0, 0, 0, 0, 0])).1.queue_ =
            (boardWith "can" []).queue_.push
              (decodedSample 1000 0 0 0 (demoInput [3, 232, 0, 0, 0, 0, 0, 0]).timestamp)) ∧
      (¬ Accepted 1000 0 0 0 →
        (boardWith "can" []).callback demoTools ⟨256, 8, [3, 232, 0, 0, 0, 0, 0, 0]⟩ 7 7 =
            boardWith "can" [] ∧
          (boardWith "can" []).read_thread_iteration demoTools 0
              (demoInput [3, 232, 0, 0, 0, 0, 0, 0]) = (boardWith "can" [], 0)) ∧
      (|rawNorm 1000 0 0 0 - 1000000| < 10000 → Accepted 1000 0 0 0) ∧
      (|rawNorm 1000 0 0 0 - 1000000| > 10000 → ¬ Accepted 1000 0 0 0) ∧
      ¬ Accepted 1000 100 0 0 :=
  unit_norm_check demoTools (boardWith "can" []) ⟨256, 8, [3, 232, 0, 0, 0, 0, 0, 0]⟩ 7 7
    (demoInput [3, 232, 0, 0, 0, 0, 0, 0])
    { mode := 0, q := [3, 232, 0, 0, 0, 0, 0, 0], bullet_speed := 0 } 0
    [3, 232, 0, 0, 0, 0, 0, 0] 1000 0 0 0 (by decide) rfl (by norm_num) rfl rfl rfl rfl
    (by decide) (by decide) (by decide) (by decide)

/-! ## callback: orientation frames -/

theorem fl_neg_thousandth : fl ((-1) / 1000) = (-1152921504606847 / 1152921504606846976) := by
  rw [fl_eq_of ((-1) / 1000) (-10) (-4611686018427388) (by norm_num) (by norm_num [abs_of_neg])
    (by norm_num [abs_of_neg]) (by norm_num [abs_lt])]
  norm_num

/-- C7: for a frame with the orientation identifier whose decoded quaternion passes the
unit-norm check, the sample pushed has the components `w, x, y, z` obtained from the
byte pairs (0-1), (2-3), (4-5), (6-7), each read as a big-endian two-complement 16-bit
integer and divided by `1e3`; the pair `FF FF` reads as `-1` and decodes to the double
`-0.001`. -/
theorem callback_orientation_frame (tools : Tools) (self : CBoard) (frame : can_frame)
    (timestamp now : ℤ) (hw : frame.WellFormed)
    (hid : frame.can_id = toCanId self.quaternion_canid_)
    (hpass : Accepted (be16 (frame.byte 0) (frame.byte 1)) (be16 (frame.byte 2) (frame.byte 3))
      (be16 (frame.byte 4) (frame.byte 5)) (be16 (frame.byte 6) (frame.byte 7))) :
    (self.callback tools frame timestamp now).queue_ =
        self.queue_.push
          { q :=
              ⟨fl ((beInt16Spec (frame.byte 0) (frame.byte 1) : ℚ) / 1000),
                fl ((beInt16Spec (frame.byte 2) (frame.byte 3) : ℚ) / 1000),
                fl ((beInt16Spec (frame.byte 4) (frame.byte 5) : ℚ) / 1000),
                fl ((beInt16Spec (frame.byte 6) (frame.byte 7) : ℚ) / 1000)⟩
            timestamp := timestamp
            crc16 := 0 } ∧
      beInt16Spec 255 255 = -1 ∧
      fl (((-1 : ℤ) : ℚ) / 1000) = (-1152921504606847 / 1152921504606846976) ∧
      |fl (((-1 : ℤ) : ℚ) / 1000) - (-1 / 1000)| ≤ 1 / 10 ^ 18 := by
  refine ⟨?_, by decide, ?_, ?_⟩
  · unfold Accepted at hpass
    unfold CBoard.callback
    rw [if_pos hid]
    simp only
    rw [if_neg hpass]
    simp only [be16_eq_spec _ _ (byte_lt_of_wellFormed frame hw _)
      (byte_lt_of_wellFormed frame hw _), ddiv]
  · rw [show (((-1 : ℤ) : ℚ) / 1000) = ((-1) / 1000) by norm_num, fl_neg_thousandth]
  · rw [show (((-1 : ℤ) : ℚ) / 1000) = ((-1) / 1000) by norm_num, fl_neg_thousandth]
    norm_num [abs_le]

/-- Witness for C7: the bytes `03 E8 FF FF 00 00 00 00`, raw fields `(1000, -1, 0, 0)`. -/
theorem callback_orientation_frame_witness :
    ((boardWith "can" []).callback demoTools ⟨256, 8, [3, 232, 255, 255, 0, 0, 0, 0]⟩ 7 7).queue_ =
        (boardWith "can" []).queue_.push
          { q :=
              ⟨fl ((beInt16Spec 3 232 : ℚ) / 1000), fl ((beInt16Spec 255 255 : ℚ) / 1000),
                fl ((beInt16Spec 0 0 : ℚ) / 1000), fl ((beInt16Spec 0 0 : ℚ) / 1000)⟩
            timestamp := 7
            crc16 := 0 } ∧
      beInt16Spec 255 255 = -1 ∧
      fl (((-1 : ℤ) : ℚ) / 1000) = (-1152921504606847 / 1152921504606846976) ∧
      |fl (((-1 : ℤ) : ℚ) / 1000) - (-1 / 1000)| ≤ 1 / 10 ^ 18 :=
  callback_orientation_frame demoTools (boardWith "can" [])
    ⟨256, 8, [3, 232, 255, 255, 0, 0, 0, 0]⟩ 7 7
    (by decide)
    (by decide)
    (by
      have h1 : be16 3 232 = 1000 := by decide
      have h2 : be16 255 255 = -1 := by decide
      have h3 : be16 0 0 = 0 := by decide
      simp only [can_frame.byte, List.getD_cons_zero, List.getD_cons_succ, h1, h2, h3]
      exact accepted_of_lt 1000 (-1) 0 0 (by norm_num) (by norm_num) (by norm_num)
        (by norm_num) (by decide))

/-- C8: a well-formed frame carrying the status identifier (distinct from the
orientation identifier) sets `bullet_speed`, `mode`, `shoot_mode` and `ft_angle` from
bytes 0-1, 2, 3 and 4-5, leaves the queue unchanged, and the outcome does not depend on
bytes 6-7. -/
theorem callback_status_frame (tools : Tools) (self : CBoard) (frame other : can_frame)
    (timestamp now : ℤ) (hw : frame.WellFormed)
    (hq : frame.can_id ≠ toCanId self.quaternion_canid_)
    (hs : frame.can_id = toCanId self.bullet_speed_canid_)
    (hid : other.can_id = frame.can_id)
    (hsame : ∀ i, i < 6 → other.byte i = frame.byte i) :
    (self.callback tools frame timestamp now).bullet_speed =
        fl ((beInt16Spec (frame.byte 0) (frame.byte 1) : ℚ) / 100) ∧
      (self.callback tools frame timestamp now).mode = frame.byte 2 ∧
      (self.callback tools frame timestamp now).shoot_mode = frame.byte 3 ∧
      (self.callback tools frame timestamp now).ft_angle =
        fl ((beInt16Spec (frame.byte 4) (frame.byte 5) : ℚ) / 10000) ∧
      (self.callback tools frame timestamp now).queue_ = self.queue_ ∧
      self.callback tools other timestamp now = self.callback tools frame timestamp now := by
  obtain ⟨h1, h2, h3, h4, h5⟩ := callback_status_fields tools self frame timestamp now hq hs
  refine ⟨?_, h2, h3, ?_, h5, ?_⟩
  · rw [h1, be16_eq_spec _ _ (byte_lt_of_wellFormed frame hw _)
      (byte_lt_of_wellFormed frame hw _)]; rfl
  · rw [h4, be16_eq_spec _ _ (byte_lt_of_wellFormed frame hw _)
      (byte_lt_of_wellFormed frame hw _)]; rfl
  · unfold CBoard.callback
    rw [hid, if_neg hq, if_neg hq, if_pos hs, if_pos hs]
    simp only [hsame 0 (by norm_num), hsame 1 (by norm_num), hsame 2 (by norm_num),
      hsame 3 (by norm_num), hsame 4 (by norm_num), hsame 5 (by norm_num)]

/-- Witness for C8: the status frame `09 C4 01 02 00 64 AA BB` and the same frame with
bytes 6-7 cleared. -/
theorem callback_status_frame_witness :
    ((boardWith "can" []).callback demoTools ⟨257, 8, [9, 196, 1, 2, 0, 100, 170, 187]⟩ 7 7).bullet_speed =
        fl ((beInt16Spec 9 196 : ℚ) / 100) ∧
      ((boardWith "can" []).callback demoTools ⟨257, 8, [9, 196, 1, 2, 0, 100, 170, 187]⟩ 7 7).mode = 1 ∧
      ((boardWith "can" []).callback demoTools ⟨257, 8, [9, 196, 1, 2, 0, 100, 170, 187]⟩ 7 7).shoot_mode = 2 ∧
      ((boardWith "can" []).callback demoTools ⟨257, 8, [9, 196, 1, 2, 0, 100, 170, 187]⟩ 7 7).ft_angle =
        fl ((beInt16Spec 0 100 : ℚ) / 10000) ∧
      ((boardWith "can" []).callback demoTools ⟨257, 8, [9, 196, 1, 2, 0, 100, 170, 187]⟩ 7 7).queue_ =
        (boardWith "can" []).queue_ ∧
      (boardWith "can" []).callback demoTools ⟨257, 8, [9, 196, 1, 2, 0, 100, 0, 0]⟩ 7 7 =
        (boardWith "can" []).callback demoTools ⟨257, 8, [9, 196, 1, 2, 0, 100, 170, 187]⟩ 7 7 :=
  callback_status_frame demoTools (boardWith "can" [])
    ⟨257, 8, [9, 196, 1, 2, 0, 100, 170, 187]⟩ ⟨257, 8, [9, 196, 1, 2, 0, 100, 0, 0]⟩ 7 7
    (by decide)
    (by decide) (by decide) rfl
    (by
      intro i hi
      unfold can_frame.byte
      rcases i with _ | _ | _ | _ | _ | _ | i
      · rfl
      · rfl
      · rfl
      · rfl
      · rfl
      · rfl
      · omega)

/-! ## the bullet-speed field -/

theorem fl_neg_hundredth : fl ((-1) / 100) = (-5764607523034235 / 576460752303423488) := by
  rw [fl_eq_of ((-1) / 100) (-7) (-5764607523034235) (by norm_num) (by norm_num [abs_of_neg])
    (by norm_num [abs_of_neg]) (by norm_num [abs_lt])]
  norm_num

/-- C9 (as stated) fails: on the freshly constructed object, where `bullet_speed` is 0,
the status frame `FF FF 00 00 00 00 00 00` sets `bullet_speed` to the double `-0.01`. -/
theorem bullet_speed_negative :
    (boardWith "can" []).bullet_speed = 0 ∧
      ((boardWith "can" []).callbacks demoTools
          [(⟨257, 8, [255, 255, 0, 0, 0, 0, 0, 0]⟩, 7, 7)]).bullet_speed =
        (-5764607523034235 / 576460752303423488) ∧
      ¬ 0 ≤ ((boardWith "can" []).callbacks demoTools
          [(⟨257, 8, [255, 255, 0, 0, 0, 0, 0, 0]⟩, 7, 7)]).bullet_speed := by
  have h : ((boardWith "can" []).callbacks demoTools
      [(⟨257, 8, [255, 255, 0, 0, 0, 0, 0, 0]⟩, 7, 7)]).bullet_speed = (-5764607523034235 / 576460752303423488) := by
    have hb : be16 255 255 = -1 := by decide
    unfold CBoard.callbacks CBoard.callbacks
    rw [(callback_status_fields demoTools (boardWith "can" [])
      ⟨257, 8, [255, 255, 0, 0, 0, 0, 0, 0]⟩ 7 7 (by decide) (by decide)).1]
    simp only [can_frame.byte, List.getD_cons_zero, List.getD_cons_succ, hb]
    unfold ddiv
    rw [show ((-1 : ℤ) : ℚ) / 100 = ((-1) / 100) by norm_num]
    exact fl_neg_hundredth
  refine ⟨rfl, h, ?_⟩
  rw [h]
  norm_num

theorem callback_bullet_speed (tools : Tools) (self : CBoard) (frame : can_frame)
    (timestamp now : ℤ)
    (h : ∃ n : ℤ, -32768 ≤ n ∧ n ≤ 32767 ∧ self.bullet_speed = fl ((n : ℚ) / 100)) :
    ∃ n : ℤ, -32768 ≤ n ∧ n ≤ 32767 ∧
      (self.callback tools frame timestamp now).bullet_speed = fl ((n : ℚ) / 100) := by
  by_cases hq : frame.can_id = toCanId self.quaternion_canid_
  · have hsame : (self.callback tools frame timestamp now).bullet_speed =
        self.bullet_speed := by
      unfold CBoard.callback
      rw [if_pos hq]
      simp only
      split_ifs <;> rfl
    rw [hsame]; exact h
  · by_cases hs : frame.can_id = toCanId self.bullet_speed_canid_
    · rw [(callback_status_fields tools self frame timestamp now hq hs).1]
      exact ⟨_, (be16_range _ _).1, (be16_range _ _).2, rfl⟩
    · have hsame : self.callback tools frame timestamp now = self := by
        unfold CBoard.callback
        rw [if_neg hq, if_neg hs]
      rw [hsame]; exact h

theorem callbacks_bullet_speed (tools : Tools) (frames : List (can_frame × ℤ × ℤ))
    (self : CBoard)
    (h : ∃ n : ℤ, -32768 ≤ n ∧ n ≤ 32767 ∧ self.bullet_speed = fl ((n : ℚ) / 100)) :
    ∃ n : ℤ, -32768 ≤ n ∧ n ≤ 32767 ∧
      (self.callbacks tools frames).bullet_speed = fl ((n : ℚ) / 100) := by
  induction frames generalizing self with
  | nil => exact h
  | cons head later ih =>
    obtain ⟨frame, timestamp, now⟩ := head
    unfold CBoard.callbacks
    exact ih _ (callback_bullet_speed tools self frame timestamp now h)

/-- C9 (as amended): after the constructor and any sequence of inbound CAN frames,
`bullet_speed` is the double `n / 1e2` of some 16-bit signed integer `n` (0 before the
first status frame), so it lies between -328 and 328; it can be negative. -/
theorem bullet_speed_range (tools : Tools) (quaternion_canid bullet_speed_canid send_canid : ℤ)
    (mode_str : String) (ft_angle : ℚ) (ahead behind : IMUData) (tx : VisionToGimbal)
    (frames : List (can_frame × ℤ × ℤ)) :
    ∃ n : ℤ, -32768 ≤ n ∧ n ≤ 32767 ∧
      ((CBoard.init quaternion_canid bullet_speed_canid send_canid mode_str ft_angle ahead
        behind tx).callbacks tools frames).bullet_speed = fl ((n : ℚ) / 100) ∧
      |((CBoard.init quaternion_canid bullet_speed_canid send_canid mode_str ft_angle ahead
        behind tx).callbacks tools frames).bullet_speed| ≤ 328 := by
  obtain ⟨n, h0, h1, h⟩ := callbacks_bullet_speed tools frames
    (CBoard.init quaternion_canid bullet_speed_canid send_canid mode_str ft_angle ahead
      behind tx) ⟨0, by norm_num, by norm_num, by simp [CBoard.init, fl_zero]⟩
  refine ⟨n, h0, h1, h, ?_⟩
  rw [h]
  have c0 : (-32768 : ℚ) ≤ n := by exact_mod_cast h0
  have c1 : (n : ℚ) ≤ 32767 := by exact_mod_cast h1
  have hb : |(n : ℚ) / 100| ≤ (2 : ℚ) ^ (9 : ℤ) := by
    rw [abs_le]; norm_num; constructor <;> linarith
  have he := abs_fl_sub_le_of_abs_le ((n : ℚ) / 100) 9 (by norm_num) hb
  rw [abs_le] at he ⊢
  norm_num at he
  constructor <;> linarith

/-! ## reconnect -/

theorem reconnect_loop_spec (quit_ open_ok : ℕ → Bool) (self : CBoard) (remaining i : ℕ) :
    i ≤ (reconnect_loop quit_ open_ok self remaining i).attempts ∧
      (reconnect_loop quit_ open_ok self remaining i).attempts ≤ i + remaining ∧
      (∀ j, i ≤ j → j + 1 < (reconnect_loop quit_ open_ok self remaining i).attempts →
        open_ok j = false) ∧
      ((reconnect_loop quit_ open_ok self remaining i).reopened = true →
        i < (reconnect_loop quit_ open_ok self remaining i).attempts ∧
          open_ok ((reconnect_loop quit_ open_ok self remaining i).attempts - 1) = true ∧
          (reconnect_loop quit_ open_ok self remaining i).board =
            { self with queue_ := self.queue_.clear }) ∧
      ((reconnect_loop quit_ open_ok self remaining i).reopened = false →
        (reconnect_loop quit_ open_ok self remaining i).board = self ∧
          ∀ j, i ≤ j → j < (reconnect_loop quit_ open_ok self remaining i).attempts →
            open_ok j = false) ∧
      ((∀ j, i ≤ j → j < i + remaining → quit_ j = false ∧ open_ok j = false) →
        (reconnect_loop quit_ open_ok self remaining i).attempts = i + remaining ∧
          (reconnect_loop quit_ open_ok self remaining i).reopened = false) := by
  induction remaining generalizing i with
  | zero =>
    rw [reconnect_loop]
    dsimp only
    refine ⟨le_rfl, le_rfl, ?_, ?_, ?_, ?_⟩
    · intro j h1 h2; omega
    · intro h; cases h
    · intro _; exact ⟨rfl, fun j h1 h2 => by omega⟩
    · intro _; exact ⟨rfl, rfl⟩
  | succ remaining ih =>
    rw [reconnect_loop]
    by_cases hquit : quit_ i = true
    · rw [if_pos hquit]
      dsimp only
      refine ⟨le_rfl, by omega, ?_, ?_, ?_, ?_⟩
      · intro j h1 h2; omega
      · intro h; cases h
      · intro _; exact ⟨rfl, fun j h1 h2 => by omega⟩
      · intro hall
        have := (hall i le_rfl (by omega)).1
        rw [hquit] at this; cases this
    · rw [if_neg hquit]
      by_cases hopen : open_ok i = true
      · rw [if_pos hopen]
        dsimp only
        refine ⟨by omega, by omega, ?_, ?_, ?_, ?_⟩
        · intro j h1 h2; omega
        · intro _; exact ⟨by omega, by simpa using hopen, rfl⟩
        · intro h; cases h
        · intro hall
          have := (hall i le_rfl (by omega)).2
          rw [hopen] at this; cases this
      · rw [if_neg hopen]
        have hfalse : open_ok i = false := by simpa using hopen
        obtain ⟨h1, h2, h3, h4, h5, h6⟩ := ih (i + 1)
        refine ⟨by omega, by omega, ?_, ?_, ?_, ?_⟩
        · intro j hj1 hj2
          rcases Nat.eq_or_lt_of_le hj1 with heq | hlt
          · rw [← heq]; exact hfalse
          · exact h3 j hlt hj2
        · intro hre
          obtain ⟨a, b, c⟩ := h4 hre
          exact ⟨by omega, b, c⟩
        · intro hre
          obtain ⟨a, b⟩ := h5 hre
          refine ⟨a, ?_⟩
          intro j hj1 hj2
          rcases Nat.eq_or_lt_of_le hj1 with heq | hlt
          · rw [← heq]; exact hfalse
          · exact b j hlt hj2
        · intro hall
          obtain ⟨a, b⟩ := h6 (fun j hj1 hj2 => hall j (by omega) (by omega))
          exact ⟨by omega, b⟩

/-- C10: one `reconnect` makes at most 10 open attempts; every attempt before the last
one failed, so it stops at the first success; after a success the queue is empty; when
no attempt succeeds the object, hence the queue, is left as it was, and when all 10
attempts run and fail exactly 10 attempts are made; when the shutdown flag is set on
entry no attempt is made. -/
theorem reconnect_spec (quit_ open_ok : ℕ → Bool) (self : CBoard) :
    (self.reconnect quit_ open_ok).attempts ≤ 10 ∧
      (∀ j, j + 1 < (self.reconnect quit_ open_ok).attempts → open_ok j = false) ∧
      ((self.reconnect quit_ open_ok).reopened = true →
        0 < (self.reconnect quit_ open_ok).attempts ∧
          open_ok ((self.reconnect quit_ open_ok).attempts - 1) = true ∧
          (self.reconnect quit_ open_ok).board.queue_.items = [] ∧
          (self.reconnect quit_ open_ok).board = { self with queue_ := self.queue_.clear }) ∧
      ((self.reconnect quit_ open_ok).reopened = false →
        (self.reconnect quit_ open_ok).board = self ∧
          ∀ j, j < (self.reconnect quit_ open_ok).attempts → open_ok j = false) ∧
      ((∀ j, j < 10 → quit_ j = false ∧ open_ok j = false) →
        (self.reconnect quit_ open_ok).attempts = 10 ∧
          (self.reconnect quit_ open_ok).board.queue_ = self.queue_) ∧
      (quit_ 0 = true →
        (self.reconnect quit_ open_ok).attempts = 0 ∧
          (self.reconnect quit_ open_ok).board = self) := by
  obtain ⟨_, h2, h3, h4, h5, h6⟩ := reconnect_loop_spec quit_ open_ok self 10 0
  unfold CBoard.reconnect
  refine ⟨by omega, fun j hj => h3 j (Nat.zero_le j) hj, ?_, ?_, ?_, ?_⟩
  · intro hre
    obtain ⟨a, b, c⟩ := h4 hre
    refine ⟨a, b, ?_, c⟩
    rw [c]; rfl
  · intro hre
    obtain ⟨a, b⟩ := h5 hre
    exact ⟨a, fun j hj => b j (Nat.zero_le j) hj⟩
  · intro hall
    obtain ⟨a, b⟩ := h6 (fun j _ hj => hall j (by omega))
    refine ⟨by omega, ?_⟩
    rw [(h5 b).1]
  · intro hq
    rw [reconnect_loop, if_pos hq]
    exact ⟨rfl, rfl⟩

/-! ## the receive loop -/

theorem read_thread_iteration_reconnect (tools : Tools) (self : CBoard) (error_count : ℤ)
    (input : SerialInput) (h : error_count > 5000) :
    self.read_thread_iteration tools error_count input =
      ((self.reconnect input.quit_ input.open_ok).board, 0) := by
  unfold CBoard.read_thread_iteration
  rw [if_pos h]

theorem read_thread_iteration_head_failed (tools : Tools) (self : CBoard) (error_count : ℤ)
    (input : SerialInput) (h : error_count ≤ 5000) (hhead : input.head = none) :
    self.read_thread_iteration tools error_count input = (self, error_count + 1) := by
  unfold CBoard.read_thread_iteration
  rw [if_neg (not_lt.mpr h)]
  simp only [hhead]

theorem read_thread_iteration_head_mismatch (tools : Tools) (self : CBoard) (error_count : ℤ)
    (input : SerialInput) (head0 head1 : ℕ) (h : error_count ≤ 5000)
    (hhead : input.head = some (head0, head1)) (hm : head0 ≠ 77 ∨ head1 ≠ 65) :
    self.read_thread_iteration tools error_count input = (self, error_count) := by
  unfold CBoard.read_thread_iteration
  rw [if_neg (not_lt.mpr h)]
  simp only [hhead]
  rw [if_pos hm]

theorem read_thread_iteration_body_failed (tools : Tools) (self : CBoard) (error_count : ℤ)
    (input : SerialInput) (h : error_count ≤ 5000) (hhead : input.head = some (77, 65))
    (hbody : input.body = none) :
    self.read_thread_iteration tools error_count input = (self, error_count + 1) := by
  unfold CBoard.read_thread_iteration
  rw [if_neg (not_lt.mpr h)]
  simp only [hhead, hbody]
  simp

theorem read_thread_iteration_crc_failed (tools : Tools) (self : CBoard) (error_count : ℤ)
    (input : SerialInput) (rx : GimbalToVision) (h : error_count ≤ 5000)
    (hhead : input.head = some (77, 65)) (hbody : input.body = some rx)
    (hcrc : input.crc_ok = false) :
    self.read_thread_iteration tools error_count input = (self, error_count) := by
  unfold CBoard.read_thread_iteration
  rw [if_neg (not_lt.mpr h)]
  simp only [hhead, hbody, hcrc]
  simp

theorem read_thread_iteration_rejected (tools : Tools) (self : CBoard) (error_count : ℤ)
    (input : SerialInput) (rx : GimbalToVision) (h : error_count ≤ 5000)
    (hhead : input.head = some (77, 65)) (hbody : input.body = some rx)
    (hcrc : input.crc_ok = true)
    (hrej : ¬ Accepted (be16 (rx.q.getD 0 0) (rx.q.getD 1 0))
      (be16 (rx.q.getD 2 0) (rx.q.getD 3 0)) (be16 (rx.q.getD 4 0) (rx.q.getD 5 0))
      (be16 (rx.q.getD 6 0) (rx.q.getD 7 0))) :
    self.read_thread_iteration tools error_count input = (self, 0) := by
  unfold Accepted at hrej
  rw [not_not] at hrej
  unfold CBoard.read_thread_iteration
  rw [if_neg (not_lt.mpr h)]
  simp only [hhead, hbody, hcrc]
  simp only [ne_eq, not_true_eq_false, or_self, if_false, Bool.not_true, Bool.false_eq_true]
  rw [if_pos hrej]

/-- The effect of an iteration that reads a valid frame: the counter is reset, `mode`,
`shoot_mode` and `ft_angle` are kept, `bullet_speed` is the field of the record, and the
gimbal mode follows the `switch` on the mode byte. -/
theorem read_thread_iteration_valid (tools : Tools) (self : CBoard) (error_count : ℤ)
    (input : SerialInput) (rx : GimbalToVision) (hv : ValidFrame error_count input rx) :
    (self.read_thread_iteration tools error_count input).2 = 0 ∧
      (self.read_thread_iteration tools error_count input).1.mode = self.mode ∧
      (self.read_thread_iteration tools error_count input).1.shoot_mode = self.shoot_mode ∧
      (self.read_thread_iteration tools error_count input).1.ft_angle = self.ft_angle ∧
      (self.read_thread_iteration tools error_count input).1.bullet_speed = rx.bullet_speed ∧
      (self.read_thread_iteration tools error_count input).1.mode_ =
        (match rx.mode with
          | 0 => GimbalMode.IDLE
          | 1 => GimbalMode.AUTO_AIM
          | 2 => GimbalMode.SMALL_BUFF
          | 3 => GimbalMode.BIG_BUFF
          | _ => GimbalMode.IDLE) := by
  obtain ⟨h, hhead, hbody, hcrc, hacc⟩ := hv
  unfold Accepted at hacc
  unfold CBoard.read_thread_iteration
  rw [if_neg (not_lt.mpr h)]
  simp only [hhead, hbody, hcrc]
  simp only [ne_eq, not_true_eq_false, or_self, if_false, Bool.not_true, Bool.false_eq_true]
  rw [if_neg hacc]
  refine ⟨rfl, ?_, ?_, ?_, ?_, rfl⟩ <;> (simp only; split_ifs <;> rfl)

/-- Every iteration of the receive loop falls under one of the cases above. -/
theorem read_thread_iteration_cases (tools : Tools) (self : CBoard) (error_count : ℤ)
    (input : SerialInput) :
    (error_count > 5000 ∧
        self.read_thread_iteration tools error_count input =
          ((self.reconnect input.quit_ input.open_ok).board, 0)) ∨
      (error_count ≤ 5000 ∧
        self.read_thread_iteration tools error_count input = (self, error_count + 1)) ∨
      (error_count ≤ 5000 ∧
        self.read_thread_iteration tools error_count input = (self, error_count)) ∨
      (error_count ≤ 5000 ∧ self.read_thread_iteration tools error_count input = (self, 0)) ∨
      ∃ rx, ValidFrame error_count input rx := by
  by_cases h : error_count > 5000
  · exact Or.inl ⟨h, read_thread_iteration_reconnect tools self error_count input h⟩
  · have hle : error_count ≤ 5000 := not_lt.mp h
    right
    rcases hhead : input.head with _ | ⟨head0, head1⟩
    · exact Or.inl ⟨hle, read_thread_iteration_head_failed tools self _ input hle hhead⟩
    · by_cases hm : head0 ≠ 77 ∨ head1 ≠ 65
      · exact Or.inr (Or.inl ⟨hle,
          read_thread_iteration_head_mismatch tools self _ input head0 head1 hle hhead hm⟩)
      · have h0 : head0 = 77 := by
          by_contra hc; exact hm (Or.inl hc)
        have h1 : head1 = 65 := by
          by_contra hc; exact hm (Or.inr hc)
        rw [h0, h1] at hhead
        rcases hbody : input.body with _ | rx
        · exact Or.inl ⟨hle, read_thread_iteration_body_failed tools self _ input hle hhead hbody⟩
        · rcases hcrc : input.crc_ok with _ | _
          · exact Or.inr (Or.inl ⟨hle,
              read_thread_iteration_crc_failed tools self _ input rx hle hhead hbody hcrc⟩)
          · by_cases hacc : Accepted (be16 (rx.q.getD 0 0) (rx.q.getD 1 0))
                (be16 (rx.q.getD 2 0) (rx.q.getD 3 0)) (be16 (rx.q.getD 4 0) (rx.q.getD 5 0))
                (be16 (rx.q.getD 6 0) (rx.q.getD 7 0))
            · exact Or.inr (Or.inr (Or.inr ⟨rx, hle, hhead, hbody, hcrc, hacc⟩))
            · exact Or.inr (Or.inr (Or.inl ⟨hle,
                read_thread_iteration_rejected tools self _ input rx hle hhead hbody hcrc hacc⟩))

theorem read_thread_iteration_count (tools : Tools) (self : CBoard) (error_count : ℤ)
    (input : SerialInput) (h0 : 0 ≤ error_count) :
    0 ≤ (self.read_thread_iteration tools error_count input).2 ∧
      (self.read_thread_iteration tools error_count input).2 ≤ 5001 ∧
      (self.read_thread_iteration tools error_count input).2 ≤ error_count + 1 := by
  rcases read_thread_iteration_cases tools self error_count input with
    ⟨_, h⟩ | ⟨hle, h⟩ | ⟨hle, h⟩ | ⟨hle, h⟩ | ⟨rx, hv⟩
  · rw [h]; simp only; omega
  · rw [h]; simp only; omega
  · rw [h]; simp only; omega
  · rw [h]; simp only; omega
  · rw [(read_thread_iteration_valid tools self error_count input rx hv).1]; omega

theorem read_thread_from_nil (tools : Tools) (self : CBoard) (error_count : ℤ) :
    read_thread_from tools self error_count [] =
      { board := self, error_count := error_count, open_attempts := 0 } := by
  rw [read_thread_from]

theorem read_thread_from_cons (tools : Tools) (self : CBoard) (error_count : ℤ)
    (input : SerialInput) (later : List (Bool × SerialInput)) :
    read_thread_from tools self error_count ((false, input) :: later) =
      { read_thread_from tools (self.read_thread_iteration tools error_count input).1
          (self.read_thread_iteration tools error_count input).2 later with
        open_attempts :=
          (self.read_thread_reconnect error_count input).elim 0 (fun r => r.attempts) +
            (read_thread_from tools (self.read_thread_iteration tools error_count input).1
              (self.read_thread_iteration tools error_count input).2 later).open_attempts } := by
  rw [read_thread_from]
  simp

theorem read_thread_from_quit (tools : Tools) (self : CBoard) (error_count : ℤ)
    (input : SerialInput) (later : List (Bool × SerialInput)) :
    read_thread_from tools self error_count ((true, input) :: later) =
      { board := self, error_count := error_count, open_attempts := 0 } := by
  rw [read_thread_from]
  simp

theorem reconnect_board_cases (quit_ open_ok : ℕ → Bool) (self : CBoard) :
    (self.reconnect quit_ open_ok).board = self ∨
      (self.reconnect quit_ open_ok).board = { self with queue_ := self.queue_.clear } := by
  obtain ⟨_, _, _, h4, h5, _⟩ := reconnect_loop_spec quit_ open_ok self 10 0
  unfold CBoard.reconnect
  rcases hre : (reconnect_loop quit_ open_ok self 10 0).reopened with _ | _
  · exact Or.inl (h5 hre).1
  · exact Or.inr (h4 hre).2.2

theorem reconnect_all_failed (self : CBoard) :
    self.reconnect (fun _ => false) (fun _ => false) =
      { board := self, attempts := 10, reopened := false } := by
  simp [CBoard.reconnect, reconnect_loop]

/-- The receive loop keeps `mode`, `shoot_mode` and `ft_angle` in every iteration. -/
theorem read_thread_iteration_status (tools : Tools) (self : CBoard) (error_count : ℤ)
    (input : SerialInput) :
    (self.read_thread_iteration tools error_count input).1.mode = self.mode ∧
      (self.read_thread_iteration tools error_count input).1.shoot_mode = self.shoot_mode ∧
      (self.read_thread_iteration tools error_count input).1.ft_angle = self.ft_angle := by
  rcases read_thread_iteration_cases tools self error_count input with
    ⟨_, h⟩ | ⟨hle, h⟩ | ⟨hle, h⟩ | ⟨hle, h⟩ | ⟨rx, hv⟩
  · rw [h]
    rcases reconnect_board_cases input.quit_ input.open_ok self with hb | hb <;>
      (rw [hb]; exact ⟨rfl, rfl, rfl⟩)
  · rw [h]; exact ⟨rfl, rfl, rfl⟩
  · rw [h]; exact ⟨rfl, rfl, rfl⟩
  · rw [h]; exact ⟨rfl, rfl, rfl⟩
  · obtain ⟨_, h1, h2, h3, _, _⟩ := read_thread_iteration_valid tools self error_count input rx hv
    exact ⟨h1, h2, h3⟩

/-- An iteration that does not read a valid frame keeps `bullet_speed` and the gimbal
mode. -/
theorem read_thread_iteration_invalid (tools : Tools) (self : CBoard) (error_count : ℤ)
    (input : SerialInput) (hinv : ¬ ∃ rx, ValidFrame error_count input rx) :
    (self.read_thread_iteration tools error_count input).1.bullet_speed = self.bullet_speed ∧
      (self.read_thread_iteration tools error_count input).1.mode_ = self.mode_ := by
  rcases read_thread_iteration_cases tools self error_count input with
    ⟨_, h⟩ | ⟨hle, h⟩ | ⟨hle, h⟩ | ⟨hle, h⟩ | hv
  · rw [h]
    rcases reconnect_board_cases input.quit_ input.open_ok self with hb | hb <;>
      (rw [hb]; exact ⟨rfl, rfl⟩)
  · rw [h]; exact ⟨rfl, rfl⟩
  · rw [h]; exact ⟨rfl, rfl⟩
  · rw [h]; exact ⟨rfl, rfl⟩
  · exact absurd hv hinv

theorem read_thread_from_status (tools : Tools) (iterations : List (Bool × SerialInput))
    (self : CBoard) (error_count : ℤ) :
    (read_thread_from tools self error_count iterations).board.mode = self.mode ∧
      (read_thread_from tools self error_count iterations).board.shoot_mode = self.shoot_mode ∧
      (read_thread_from tools self error_count iterations).board.ft_angle = self.ft_angle := by
  induction iterations generalizing self error_count with
  | nil => rw [read_thread_from_nil]; exact ⟨rfl, rfl, rfl⟩
  | cons head later ih =>
    obtain ⟨quit_, input⟩ := head
    rcases quit_ with _ | _
    · rw [read_thread_from_cons]
      obtain ⟨h1, h2, h3⟩ := ih (self.read_thread_iteration tools error_count input).1
        (self.read_thread_iteration tools error_count input).2
      obtain ⟨g1, g2, g3⟩ := read_thread_iteration_status tools self error_count input
      exact ⟨h1.trans g1, h2.trans g2, h3.trans g3⟩
    · rw [read_thread_from_quit]; exact ⟨rfl, rfl, rfl⟩

theorem read_thread_from_count (tools : Tools) (iterations : List (Bool × SerialInput))
    (self : CBoard) (error_count : ℤ) (h0 : 0 ≤ error_count) (h1 : error_count ≤ 5001) :
    0 ≤ (read_thread_from tools self error_count iterations).error_count ∧
      (read_thread_from tools self error_count iterations).error_count ≤ 5001 := by
  induction iterations generalizing self error_count with
  | nil => rw [read_thread_from_nil]; exact ⟨h0, h1⟩
  | cons head later ih =>
    obtain ⟨quit_, input⟩ := head
    rcases quit_ with _ | _
    · rw [read_thread_from_cons]
      obtain ⟨g0, g1, _⟩ := read_thread_iteration_count tools self error_count input h0
      exact ih _ _ g0 g1
    · rw [read_thread_from_quit]; exact ⟨h0, h1⟩

/-- While the counter cannot exceed 5000 within the listed iterations, the run makes no
reopen attempt. -/
theorem read_thread_from_no_attempt (tools : Tools) (iterations : List (Bool × SerialInput))
    (self : CBoard) (error_count : ℤ) (h0 : 0 ≤ error_count)
    (h1 : error_count + iterations.length ≤ 5001) :
    (read_thread_from tools self error_count iterations).open_attempts = 0 := by
  induction iterations generalizing self error_count with
  | nil => rw [read_thread_from_nil]
  | cons head later ih =>
    obtain ⟨quit_, input⟩ := head
    simp only [List.length_cons, Nat.cast_add, Nat.cast_one] at h1
    rcases quit_ with _ | _
    · rw [read_thread_from_cons]
      obtain ⟨g0, _, g2⟩ := read_thread_iteration_count tools self error_count input h0
      have hnone : self.read_thread_reconnect error_count input = none := by
        unfold CBoard.read_thread_reconnect
        rw [if_neg (by omega)]
      simp only [hnone, Option.elim, zero_add]
      exact ih _ _ g0 (by omega)
    · rw [read_thread_from_quit]

theorem read_thread_from_failed_reads (tools : Tools) (self : CBoard) (n : ℕ)
    (error_count : ℤ) (later : List (Bool × SerialInput)) (h : error_count + n ≤ 5001) :
    read_thread_from tools self error_count (List.replicate n (false, failingInput) ++ later) =
      read_thread_from tools self (error_count + n) later := by
  induction n generalizing error_count with
  | zero => simp
  | succ n ih =>
    push_cast at h
    rw [List.replicate_succ, List.cons_append, read_thread_from_cons]
    have hit := read_thread_iteration_head_failed tools self error_count failingInput
      (by omega) rfl
    have hnone : self.read_thread_reconnect error_count failingInput = none := by
      unfold CBoard.read_thread_reconnect
      rw [if_neg (by omega)]
    simp only [hit, hnone, Option.elim, zero_add]
    rw [ih (error_count + 1) (by omega)]
    push_cast
    rw [add_assoc, add_comm (1 : ℤ) (n : ℤ)]

theorem read_thread_from_failed_reconnect (tools : Tools) (self : CBoard)
    (later : List (Bool × SerialInput)) :
    read_thread_from tools self 5001 ((false, failingInput) :: later) =
      { read_thread_from tools self 0 later with
        open_attempts := 10 + (read_thread_from tools self 0 later).open_attempts } := by
  rw [read_thread_from_cons]
  have hit := read_thread_iteration_reconnect tools self 5001 failingInput (by norm_num)
  have hre : self.read_thread_reconnect 5001 failingInput =
      some { board := self, attempts := 10, reopened := false } := by
    unfold CBoard.read_thread_reconnect
    rw [if_pos (by norm_num)]
    exact congrArg some (reconnect_all_failed self)
  have hb : (self.reconnect failingInput.quit_ failingInput.open_ok).board = self :=
    congrArg Reconnect.board (reconnect_all_failed self)
  simp only [hit, hre, hb, Option.elim]

/-- C11 (as stated) fails: with the shutdown flag unset and a port that neither reads nor
reopens, the first 5002 iterations end with a reconnection that exhausts its 10
attempts, and the next 5002 iterations make 10 further reopen attempts. -/
theorem read_thread_reopens_after_exhaustion :
    ((boardWith "serial" []).read_thread demoTools
        (List.replicate 5001 (false, failingInput) ++ [(false, failingInput)])).open_attempts =
        10 ∧
      ((boardWith "serial" []).read_thread demoTools
        (List.replicate 5001 (false, failingInput) ++ (false, failingInput) ::
          (List.replicate 5001 (false, failingInput) ++ [(false, failingInput)]))).open_attempts =
        20 := by
  unfold CBoard.read_thread
  constructor
  · rw [read_thread_from_failed_reads demoTools _ 5001 0 _ (by norm_num)]
    norm_num
    rw [read_thread_from_failed_reconnect, read_thread_from_nil]
    rfl
  · rw [read_thread_from_failed_reads demoTools _ 5001 0 _ (by norm_num)]
    norm_num
    rw [read_thread_from_failed_reconnect,
      read_thread_from_failed_reads demoTools _ 5001 0 _ (by norm_num)]
    norm_num
    rw [read_thread_from_failed_reconnect, read_thread_from_nil]
    rfl

/-- C11 (as amended): an iteration that finds the counter above 5000 runs a reconnection
and resets the counter to 0, whether or not the reconnection exhausts its retry budget;
the receive task keeps running, makes no reopen attempt during the following 5001
iterations, and after 5001 further failed reads with the shutdown flag unset it runs a
new reconnection with 10 more reopen attempts on a port that still cannot be opened. -/
theorem read_thread_after_reconnect (tools : Tools) (self : CBoard) (error_count : ℤ)
    (input : SerialInput) (iterations : List (Bool × SerialInput))
    (hec : 5000 < error_count) (hlen : iterations.length ≤ 5001) :
    (self.read_thread_iteration tools error_count input).2 = 0 ∧
      (read_thread_from tools (self.read_thread_iteration tools error_count input).1
        (self.read_thread_iteration tools error_count input).2 iterations).open_attempts = 0 ∧
      (read_thread_from tools (self.read_thread_iteration tools error_count input).1
        (self.read_thread_iteration tools error_count input).2
        (List.replicate 5001 (false, failingInput) ++ [(false, failingInput)])).open_attempts =
        10 := by
  have hit := read_thread_iteration_reconnect tools self error_count input hec
  refine ⟨by rw [hit], ?_, ?_⟩
  · rw [hit]
    exact read_thread_from_no_attempt tools iterations _ 0 le_rfl (by
      have : (iterations.length : ℤ) ≤ 5001 := by exact_mod_cast hlen
      omega)
  · rw [hit]
    rw [read_thread_from_failed_reads tools _ 5001 0 _ (by norm_num)]
    norm_num
    rw [read_thread_from_failed_reconnect, read_thread_from_nil]
    rfl

/-- Witness for C11 (as amended): the counter at 5001, a failing port, three more
failed reads. -/
theorem read_thread_after_reconnect_witness :
    ((boardWith "serial" []).read_thread_iteration demoTools 5001 failingInput).2 = 0 ∧
      (read_thread_from demoTools
        ((boardWith "serial" []).read_thread_iteration demoTools 5001 failingInput).1
        ((boardWith "serial" []).read_thread_iteration demoTools 5001 failingInput).2
        (List.replicate 3 (false, failingInput))).open_attempts = 0 ∧
      (read_thread_from demoTools
        ((boardWith "serial" []).read_thread_iteration demoTools 5001 failingInput).1
        ((boardWith "serial" []).read_thread_iteration demoTools 5001 failingInput).2
        (List.replicate 5001 (false, failingInput) ++ [(false, failingInput)])).open_attempts =
        10 :=
  read_thread_after_reconnect demoTools (boardWith "serial" []) 5001 failingInput
    (List.replicate 3 (false, failingInput)) (by norm_num) (by simp)

/-- C12: in an iteration that reads a frame passing the CRC and unit-norm checks, the
gimbal mode becomes Idle, AutoAim, SmallBuff or BigBuff for the mode bytes 0, 1, 2, 3
and Idle for every other value. -/
theorem read_thread_gimbal_mode (tools : Tools) (self : CBoard) (error_count : ℤ)
    (input : SerialInput) (rx : GimbalToVision) (hv : ValidFrame error_count input rx) :
    (self.read_thread_iteration tools error_count input).1.mode_ = gimbalModeSpec rx.mode ∧
      (rx.mode = 0 →
        (self.read_thread_iteration tools error_count input).1.mode_ = GimbalMode.IDLE) ∧
      (rx.mode = 1 →
        (self.read_thread_iteration tools error_count input).1.mode_ = GimbalMode.AUTO_AIM) ∧
      (rx.mode = 2 →
        (self.read_thread_iteration tools error_count input).1.mode_ = GimbalMode.SMALL_BUFF) ∧
      (rx.mode = 3 →
        (self.read_thread_iteration tools error_count input).1.mode_ = GimbalMode.BIG_BUFF) ∧
      (3 < rx.mode →
        (self.read_thread_iteration tools error_count input).1.mode_ = GimbalMode.IDLE) := by
  have h := (read_thread_iteration_valid tools self error_count input rx hv).2.2.2.2.2
  have hspec : (self.read_thread_iteration tools error_count input).1.mode_ =
      gimbalModeSpec rx.mode := by
    rw [h]
    unfold gimbalModeSpec
    rcases rx.mode with _ | _ | _ | _ | n <;> simp
  refine ⟨hspec, ?_, ?_, ?_, ?_, ?_⟩
  · intro hm; rw [hspec, hm]; rfl
  · intro hm; rw [hspec, hm]; rfl
  · intro hm; rw [hspec, hm]; rfl
  · intro hm; rw [hspec, hm]; rfl
  · intro hm
    rw [hspec]
    unfold gimbalModeSpec
    rw [if_neg (by omega), if_neg (by omega), if_neg (by omega), if_neg (by omega)]

theorem validFrame_example (mode : ℕ) :
    ValidFrame 0
      { head := some (77, 65)
        body := some { mode := mode, q := [3, 232, 0, 0, 0, 0, 0, 0], bullet_speed := 15 }
        crc_ok := true
        timestamp := 7
        now := 7
        quit_ := fun _ => false
        open_ok := fun _ => true }
      { mode := mode, q := [3, 232, 0, 0, 0, 0, 0, 0], bullet_speed := 15 } := by
  refine ⟨by norm_num, rfl, rfl, rfl, ?_⟩
  have h1 : be16 3 232 = 1000 := by decide
  have h3 : be16 0 0 = 0 := by decide
  simp only [List.getD_cons_zero, List.getD_cons_succ, h1, h3]
  exact accepted_of_lt 1000 0 0 0 (by norm_num) (by norm_num) (by norm_num) (by norm_num)
    (by decide)

/-- Witness for C12: a valid frame with mode byte 2. -/
theorem read_thread_gimbal_mode_witness :
    ((boardWith "serial" []).read_thread_iteration demoTools 0
        { head := some (77, 65)
          body := some { mode := 2, q := [3, 232, 0, 0, 0, 0, 0, 0], bullet_speed := 15 }
          crc_ok := true
          timestamp := 7
          now := 7
          quit_ := fun _ => false
          open_ok := fun _ => true }).1.mode_ = GimbalMode.SMALL_BUFF :=
  (read_thread_gimbal_mode demoTools (boardWith "serial" []) 0 _ _ (validFrame_example 2)).2.2.2.1
    rfl

/-- C16: in an iteration that reads from the port (counter not above 5000), a failed or
short header read and a failed or short body read add exactly 1 to the error counter, a
header other than `'M','A'` and a frame failing the CRC check leave it unchanged, and a
frame passing the CRC check sets it to 0 whatever the unit-norm check says. -/
theorem error_count_update (tools : Tools) (self : CBoard) (error_count : ℤ)
    (input : SerialInput) (h : error_count ≤ 5000) :
    (input.head = none →
        (self.read_thread_iteration tools error_count input).2 = error_count + 1) ∧
      (input.head = some (77, 65) → input.body = none →
        (self.read_thread_iteration tools error_count input).2 = error_count + 1) ∧
      (∀ head0 head1, input.head = some (head0, head1) → head0 ≠ 77 ∨ head1 ≠ 65 →
        (self.read_thread_iteration tools error_count input).2 = error_count) ∧
      (∀ rx, input.head = some (77, 65) → input.body = some rx → input.crc_ok = false →
        (self.read_thread_iteration tools error_count input).2 = error_count) ∧
      (∀ rx, input.head = some (77, 65) → input.body = some rx → input.crc_ok = true →
        (self.read_thread_iteration tools error_count input).2 = 0) := by
  refine ⟨?_, ?_, ?_, ?_, ?_⟩
  · intro hhead
    rw [read_thread_iteration_head_failed tools self _ input h hhead]
  · intro hhead hbody
    rw [read_thread_iteration_body_failed tools self _ input h hhead hbody]
  · intro head0 head1 hhead hm
    rw [read_thread_iteration_head_mismatch tools self _ input head0 head1 h hhead hm]
  · intro rx hhead hbody hcrc
    rw [read_thread_iteration_crc_failed tools self _ input rx h hhead hbody hcrc]
  · intro rx hhead hbody hcrc
    by_cases hacc : Accepted (be16 (rx.q.getD 0 0) (rx.q.getD 1 0))
        (be16 (rx.q.getD 2 0) (rx.q.getD 3 0)) (be16 (rx.q.getD 4 0) (rx.q.getD 5 0))
        (be16 (rx.q.getD 6 0) (rx.q.getD 7 0))
    · exact (read_thread_iteration_valid tools self _ input rx ⟨h, hhead, hbody, hcrc, hacc⟩).1
    · rw [read_thread_iteration_rejected tools self _ input rx h hhead hbody hcrc hacc]

/-- Witness for C16: the counter at 3 and a failed header read. -/
theorem error_count_update_witness :
    ((boardWith "serial" []).read_thread_iteration demoTools 3 failingInput).2 = 3 + 1 :=
  (error_count_update demoTools (boardWith "serial" []) 3 failingInput (by norm_num)).1 rfl

/-- C17: whenever an iteration of the receive loop starts, the error counter is between 0
and 5001; an iteration calls `reconnect()` exactly when the counter exceeds 5000 (not at
5000) and then ends with the counter at 0, and an iteration that starts with the counter
at most 5000 does not depend on the outcome of any reopen attempt. -/
theorem error_count_invariant (tools : Tools) (self : CBoard)
    (iterations : List (Bool × SerialInput)) (error_count : ℤ) (input : SerialInput)
    (quit_ open_ok : ℕ → Bool) :
    (0 ≤ (self.read_thread tools iterations).error_count ∧
        (self.read_thread tools iterations).error_count ≤ 5001) ∧
      (self.read_thread_reconnect error_count input ≠ none ↔ 5000 < error_count) ∧
      (5000 < error_count →
        self.read_thread_reconnect error_count input =
            some (self.reconnect input.quit_ input.open_ok) ∧
          self.read_thread_iteration tools error_count input =
            ((self.reconnect input.quit_ input.open_ok).board, 0)) ∧
      self.read_thread_reconnect 5000 input = none ∧
      (error_count ≤ 5000 →
        self.read_thread_iteration tools error_count
            { input with quit_ := quit_, open_ok := open_ok } =
          self.read_thread_iteration tools error_count input) := by
  refine ⟨read_thread_from_count tools iterations self 0 le_rfl (by norm_num), ?_, ?_, ?_, ?_⟩
  · unfold CBoard.read_thread_reconnect
    by_cases hc : error_count > 5000
    · rw [if_pos hc]; simp; exact hc
    · rw [if_neg hc]; simp; exact not_lt.mp hc
  · intro hc
    refine ⟨?_, read_thread_iteration_reconnect tools self error_count input hc⟩
    unfold CBoard.read_thread_reconnect
    rw [if_pos hc]
  · unfold CBoard.read_thread_reconnect
    rw [if_neg (by norm_num)]
  · intro hle
    unfold CBoard.read_thread_iteration
    rw [if_neg (not_lt.mpr hle), if_neg (not_lt.mpr hle)]

/-- C20: the receive loop never changes `mode`, `shoot_mode` and `ft_angle`: after any
run they are what the constructor set (`idle`, `left_shoot`); `bullet_speed` and the
gimbal mode are changed only by an iteration that reads a frame passing both the CRC and
the unit-norm check. -/
theorem read_thread_status_frame (tools : Tools)
    (quaternion_canid bullet_speed_canid send_canid : ℤ) (mode_str : String) (ft_angle : ℚ)
    (ahead behind : IMUData) (tx : VisionToGimbal) (iterations : List (Bool × SerialInput))
    (self : CBoard) (error_count : ℤ) (input : SerialInput) :
    (((CBoard.init quaternion_canid bullet_speed_canid send_canid mode_str ft_angle ahead
          behind tx).read_thread tools iterations).board.mode = 0 ∧
        ((CBoard.init quaternion_canid bullet_speed_canid send_canid mode_str ft_angle ahead
          behind tx).read_thread tools iterations).board.shoot_mode = 0 ∧
        ((CBoard.init quaternion_canid bullet_speed_canid send_canid mode_str ft_angle ahead
          behind tx).read_thread tools iterations).board.ft_angle = ft_angle) ∧
      ((self.read_thread tools iterations).board.mode = self.mode ∧
        (self.read_thread tools iterations).board.shoot_mode = self.shoot_mode ∧
        (self.read_thread tools iterations).board.ft_angle = self.ft_angle) ∧
      ((¬ ∃ rx, ValidFrame error_count input rx) →
        (self.read_thread_iteration tools error_count input).1.bullet_speed =
            self.bullet_speed ∧
          (self.read_thread_iteration tools error_count input).1.mode_ = self.mode_) :=
  ⟨read_thread_from_status tools iterations _ 0, read_thread_from_status tools iterations self 0,
    read_thread_iteration_invalid tools self error_count input⟩

/-! ## the rate limit of the bullet-speed log -/

theorem fl_below_second : fl (999999999 / 1000000000) = (9007199245733793 / 9007199254740992) := by
  rw [fl_eq_of (999999999 / 1000000000) (-1) (9007199245733793) (by norm_num) (by norm_num [abs_of_pos])
    (by norm_num [abs_of_pos]) (by norm_num [abs_lt])]
  norm_num

/-- Fewer than `1e9` nanoseconds convert to less than `1.0` seconds. -/
theorem secondsOf_lt_one (n : ℤ) (hn : n < 1000000000) : secondsOf n < 1 := by
  have hle : n ≤ 999999999 := by omega
  have h1 : fl ((n : ℤ) : ℚ) ≤ 999999999 := by
    have := fl_mono (x := ((n : ℤ) : ℚ)) (y := ((999999999 : ℤ) : ℚ))
      (by exact_mod_cast hle)
    rw [fl_intCast 999999999 (by norm_num)] at this
    exact_mod_cast this
  have h2 : fl ((n : ℤ) : ℚ) / 1000000000 ≤ 999999999 / 1000000000 :=
    div_le_div_of_nonneg_right h1 (by norm_num)
  have h3 := fl_mono h2
  rw [fl_below_second] at h3
  unfold secondsOf ddiv
  have h4 : (9007199245733793 / 9007199254740992 : ℚ) < 1 := by norm_num
  linarith

/-- The elapsed seconds computed from the exact difference report at least `1.0` only
when at least `1e9` nanoseconds have elapsed. -/
theorem delta_time_unwrapped_spec (a b : ℤ) (h : delta_time_unwrapped a b ≥ 1) :
    1000000000 ≤ a - b := by
  by_contra hc
  have := secondsOf_lt_one (a - b) (by omega)
  unfold delta_time_unwrapped at h
  linarith

/-- The double computation of the elapsed seconds reports at least `1.0` only when the
int64 difference of the two nanosecond counts is at least `1e9`. -/
theorem delta_time_chrono_spec (a b : ℤ) (h : delta_time_chrono a b ≥ 1) :
    1000000000 ≤ toInt64 (a - b) := by
  by_contra hc
  have := secondsOf_lt_one (toInt64 (a - b)) (by omega)
  unfold delta_time_chrono at h
  linarith

/-- A nanosecond count within the `int64_t` range is not changed by the reduction. -/
theorem toInt64_of_mem (n : ℤ) (hlo : -9223372036854775808 ≤ n) (hhi : n < 9223372036854775808) :
    toInt64 n = n := by
  unfold toInt64
  omega

/-- Where the int64 subtraction does not overflow, the double computation of the elapsed
seconds is the one made from the exact difference. -/
theorem delta_time_chrono_eq_unwrapped (a b : ℤ) (hlo : -9223372036854775808 ≤ a - b)
    (hhi : a - b < 9223372036854775808) : delta_time_chrono a b = delta_time_unwrapped a b := by
  unfold delta_time_chrono delta_time_unwrapped
  rw [toInt64_of_mem (a - b) hlo hhi]

/-- The invariant of a rate-limited log with respect to its `last_log_time`: the lines
are spaced, none is later than `last_log_time`, each carries a positive bullet speed
and a clock reading satisfying `P`. -/
theorem log_step (P : ℤ → Prop) (log : List BulletSpeedLog) (last now : ℤ)
    (line : BulletSpeedLog) (hs : Spaced log) (hl : ∀ e ∈ log, e.now ≤ last)
    (hp : ∀ e ∈ log, 0 < e.bullet_speed ∧ P e.now) (hnow : line.now = now)
    (hgap : 1000000000 ≤ now - last) (hline : 0 < line.bullet_speed ∧ P line.now) :
    Spaced (log ++ [line]) ∧ (∀ e ∈ log ++ [line], e.now ≤ now) ∧
      ∀ e ∈ log ++ [line], 0 < e.bullet_speed ∧ P e.now := by
  refine ⟨?_, ?_, ?_⟩
  · unfold Spaced at hs ⊢
    rw [List.pairwise_append]
    refine ⟨hs, List.pairwise_singleton _ _, ?_⟩
    intro e he e2 he2
    rw [List.mem_singleton] at he2
    rw [he2, hnow]
    have := hl e he
    omega
  · intro e he
    rcases List.mem_append.mp he with h | h
    · have := hl e h; omega
    · rw [List.mem_singleton] at h; rw [h, hnow]
  · intro e he
    rcases List.mem_append.mp he with h | h
    · exact hp e h
    · rw [List.mem_singleton] at h; rw [h]; exact hline

/-- What a callback does to the log: nothing, or one line appended for a frame with a
positive bullet speed at a clock reading that `delta_time` places at least one second
after `callback_last_log_time`, which becomes that reading. -/
theorem callback_log (tools : Tools) (self : CBoard) (frame : can_frame) (timestamp now : ℤ) :
    ((self.callback tools frame timestamp now).info_log = self.info_log ∧
        (self.callback tools frame timestamp now).callback_last_log_time =
          self.callback_last_log_time) ∨
      (0 < ddiv (be16 (frame.byte 0) (frame.byte 1)) 100 ∧
        tools.delta_time now self.callback_last_log_time ≥ 1 ∧
        (self.callback tools frame timestamp now).callback_last_log_time = now ∧
        ∃ line : BulletSpeedLog, line.now = now ∧
          line.bullet_speed = ddiv (be16 (frame.byte 0) (frame.byte 1)) 100 ∧
          (self.callback tools frame timestamp now).info_log = self.info_log ++ [line]) := by
  unfold CBoard.callback
  by_cases hq : frame.can_id = toCanId self.quaternion_canid_
  · rw [if_pos hq]
    left
    simp only
    split_ifs <;> exact ⟨rfl, rfl⟩
  · rw [if_neg hq]
    by_cases hs : frame.can_id = toCanId self.bullet_speed_canid_
    · rw [if_pos hs]
      simp only
      by_cases hlog : ddiv (be16 (frame.byte 0) (frame.byte 1)) 100 > 0 ∧
          tools.delta_time now self.callback_last_log_time ≥ 1
      · rw [if_pos hlog]
        right
        exact ⟨hlog.1, hlog.2, rfl, _, rfl, rfl, rfl⟩
      · rw [if_neg hlog]
        left
        exact ⟨rfl, rfl⟩
    · rw [if_neg hs]
      left
      exact ⟨rfl, rfl⟩

theorem callbacks_log (tools : Tools)
    (hdelta : ∀ a b, tools.delta_time a b ≥ 1 → 1000000000 ≤ a - b) (P : ℤ → Prop)
    (frames : List (can_frame × ℤ × ℤ)) (hP : ∀ f ∈ frames, P f.2.2) (self : CBoard)
    (hs : Spaced self.info_log) (hl : ∀ e ∈ self.info_log, e.now ≤ self.callback_last_log_time)
    (hp : ∀ e ∈ self.info_log, 0 < e.bullet_speed ∧ P e.now) :
    Spaced (self.callbacks tools frames).info_log ∧
      (∀ e ∈ (self.callbacks tools frames).info_log,
        e.now ≤ (self.callbacks tools frames).callback_last_log_time) ∧
      ∀ e ∈ (self.callbacks tools frames).info_log, 0 < e.bullet_speed ∧ P e.now := by
  induction frames generalizing self with
  | nil => exact ⟨hs, hl, hp⟩
  | cons head later ih =>
    obtain ⟨frame, timestamp, now⟩ := head
    unfold CBoard.callbacks
    have hPlater : ∀ f ∈ later, P f.2.2 := fun f hf => hP f (List.mem_cons_of_mem _ hf)
    have hPnow : P now := hP (frame, timestamp, now) (List.mem_cons_self _ _)
    rcases callback_log tools self frame timestamp now with ⟨h1, h2⟩ |
      ⟨hpos, hd, hlast, line, hnow, hspeed, hlog⟩
    · exact ih hPlater _ (by rw [h1]; exact hs) (by rw [h1, h2]; exact hl) (by rw [h1]; exact hp)
    · obtain ⟨g1, g2, g3⟩ := log_step P self.info_log self.callback_last_log_time now line hs hl
        hp hnow (hdelta _ _ hd) ⟨by rw [hspeed]; exact hpos, by rw [hnow]; exact hPnow⟩
      exact ih hPlater _ (by rw [hlog]; exact g1) (by rw [hlog, hlast]; exact g2)
        (by rw [hlog]; exact g3)

theorem spaced_length_le_one (log : List BulletSpeedLog) (lo : ℤ) (hs : Spaced log)
    (hw : ∀ e ∈ log, lo ≤ e.now ∧ e.now < lo + 1000000000) : log.length ≤ 1 := by
  rcases log with _ | ⟨e1, _ | ⟨e2, rest⟩⟩
  · simp
  · simp
  · exfalso
    unfold Spaced at hs
    have h12 := (List.pairwise_cons.mp hs).1 e2 (List.mem_cons_self _ _)
    have h1 := hw e1 (List.mem_cons_self _ _)
    have h2 := hw e2 (List.mem_cons_of_mem _ (List.mem_cons_self _ _))
    omega

/-- What an iteration of the receive loop does to the log, with respect to
`read_thread_last_log_time`. -/
theorem read_thread_iteration_log (tools : Tools) (self : CBoard) (error_count : ℤ)
    (input : SerialInput) :
    ((self.read_thread_iteration tools error_count input).1.info_log = self.info_log ∧
        (self.read_thread_iteration tools error_count input).1.read_thread_last_log_time =
          self.read_thread_last_log_time) ∨
      (tools.delta_time input.now self.read_thread_last_log_time ≥ 1 ∧
        (self.read_thread_iteration tools error_count input).1.read_thread_last_log_time =
          input.now ∧
        ∃ line : BulletSpeedLog, line.now = input.now ∧ 0 < line.bullet_speed ∧
          (self.read_thread_iteration tools error_count input).1.info_log =
            self.info_log ++ [line]) := by
  rcases read_thread_iteration_cases tools self error_count input with
    ⟨_, h⟩ | ⟨hle, h⟩ | ⟨hle, h⟩ | ⟨hle, h⟩ | ⟨rx, hv⟩
  · rw [h]
    left
    rcases reconnect_board_cases input.quit_ input.open_ok self with hb | hb <;>
      (rw [hb]; exact ⟨rfl, rfl⟩)
  · rw [h]; exact Or.inl ⟨rfl, rfl⟩
  · rw [h]; exact Or.inl ⟨rfl, rfl⟩
  · rw [h]; exact Or.inl ⟨rfl, rfl⟩
  · obtain ⟨h, hhead, hbody, hcrc, hacc⟩ := hv
    unfold Accepted at hacc
    unfold CBoard.read_thread_iteration
    rw [if_neg (not_lt.mpr h)]
    simp only [hhead, hbody, hcrc]
    simp only [ne_eq, not_true_eq_false, or_self, if_false, Bool.not_true, Bool.false_eq_true]
    rw [if_neg hacc]
    simp only
    by_cases hlog : rx.bullet_speed > 0 ∧
        tools.delta_time input.now self.read_thread_last_log_time ≥ 1
    · rw [if_pos hlog]
      right
      exact ⟨hlog.2, rfl, _, rfl, hlog.1, rfl⟩
    · rw [if_neg hlog]
      left
      exact ⟨rfl, rfl⟩

theorem read_thread_from_log (tools : Tools)
    (hdelta : ∀ a b, tools.delta_time a b ≥ 1 → 1000000000 ≤ a - b)
    (iterations : List (Bool × SerialInput)) (self : CBoard) (error_count : ℤ)
    (hs : Spaced self.info_log)
    (hl : ∀ e ∈ self.info_log, e.now ≤ self.read_thread_last_log_time)
    (hp : ∀ e ∈ self.info_log, 0 < e.bullet_speed ∧ True) :
    Spaced (read_thread_from tools self error_count iterations).board.info_log ∧
      (∀ e ∈ (read_thread_from tools self error_count iterations).board.info_log,
        e.now ≤ (read_thread_from tools self error_count iterations).board.read_thread_last_log_time) ∧
      ∀ e ∈ (read_thread_from tools self error_count iterations).board.info_log,
        0 < e.bullet_speed ∧ True := by
  induction iterations generalizing self error_count with
  | nil => rw [read_thread_from_nil]; exact ⟨hs, hl, hp⟩
  | cons head later ih =>
    obtain ⟨quit_, input⟩ := head
    rcases quit_ with _ | _
    · rw [read_thread_from_cons]
      rcases read_thread_iteration_log tools self error_count input with ⟨h1, h2⟩ |
        ⟨hd, hlast, line, hnow, hpos, hlog⟩
      · exact ih _ _ (by rw [h1]; exact hs) (by rw [h1, h2]; exact hl) (by rw [h1]; exact hp)
      · obtain ⟨g1, g2, g3⟩ := log_step (fun _ => True) self.info_log
          self.read_thread_last_log_time input.now line hs hl hp hnow (hdelta _ _ hd)
          ⟨hpos, trivial⟩
        exact ih _ _ (by rw [hlog]; exact g1) (by rw [hlog, hlast]; exact g2)
          (by rw [hlog]; exact g3)
    · rw [read_thread_from_quit]; exact ⟨hs, hl, hp⟩

/-- C13: with a `delta_time` that reports at least `1.0` only when at least one second
separates its arguments, after the constructor and any sequence of CAN frames any two
bullet-speed log lines are at least one second apart and each was written for a positive
bullet speed; frames whose clock readings all lie within less than one second leave at
most one line (so do three frames one millisecond apart); a frame whose decoded bullet
speed is not positive writes none; the serial decode path is rate-limited likewise. -/
theorem bullet_speed_log_spaced (tools : Tools)
    (hdelta : ∀ a b, tools.delta_time a b ≥ 1 → 1000000000 ≤ a - b)
    (quaternion_canid bullet_speed_canid send_canid : ℤ) (mode_str : String) (ft_angle : ℚ)
    (ahead behind : IMUData) (tx : VisionToGimbal) (frames : List (can_frame × ℤ × ℤ))
    (iterations : List (Bool × SerialInput)) (self : CBoard) (frame : can_frame)
    (timestamp now : ℤ) :
    Spaced ((CBoard.init quaternion_canid bullet_speed_canid send_canid mode_str ft_angle
        ahead behind tx).callbacks tools frames).info_log ∧
      (∀ e ∈ ((CBoard.init quaternion_canid bullet_speed_canid send_canid mode_str ft_angle
        ahead behind tx).callbacks tools frames).info_log, 0 < e.bullet_speed) ∧
      (∀ lo, (∀ f ∈ frames, lo ≤ f.2.2 ∧ f.2.2 < lo + 1000000000) →
        ((CBoard.init quaternion_canid bullet_speed_canid send_canid mode_str ft_angle
          ahead behind tx).callbacks tools frames).info_log.length ≤ 1) ∧
      (ddiv (be16 (frame.byte 0) (frame.byte 1)) 100 ≤ 0 →
        (self.callback tools frame timestamp now).info_log = self.info_log) ∧
      Spaced ((CBoard.init quaternion_canid bullet_speed_canid send_canid mode_str ft_angle
        ahead behind tx).read_thread tools iterations).board.info_log ∧
      ∀ e ∈ ((CBoard.init quaternion_canid bullet_speed_canid send_canid mode_str ft_angle
        ahead behind tx).read_thread tools iterations).board.info_log, 0 < e.bullet_speed := by
  have hempty : ∀ (Q : BulletSpeedLog → Prop), ∀ e ∈ (CBoard.init quaternion_canid
      bullet_speed_canid send_canid mode_str ft_angle ahead behind tx).info_log, Q e := by
    intro Q e he
    simp [CBoard.init] at he
  have hsp : Spaced (CBoard.init quaternion_canid bullet_speed_canid send_canid mode_str
      ft_angle ahead behind tx).info_log := by
    simp [CBoard.init, Spaced]
  refine ⟨?_, ?_, ?_, ?_, ?_, ?_⟩
  · exact (callbacks_log tools hdelta (fun _ => True) frames (fun _ _ => trivial) _ hsp
      (hempty _) (hempty _)).1
  · intro e he
    exact ((callbacks_log tools hdelta (fun _ => True) frames (fun _ _ => trivial) _ hsp
      (hempty _) (hempty _)).2.2 e he).1
  · intro lo hw
    obtain ⟨g1, _, g3⟩ := callbacks_log tools hdelta
      (fun t => lo ≤ t ∧ t < lo + 1000000000) frames hw _ hsp (hempty _) (hempty _)
    exact spaced_length_le_one _ lo g1 (fun e he => (g3 e he).2)
  · intro hle
    rcases callback_log tools self frame timestamp now with ⟨h1, _⟩ | ⟨hpos, _⟩
    · exact h1
    · exact absurd hpos (not_lt.mpr hle)
  · exact (read_thread_from_log tools hdelta iterations _ 0 hsp (hempty _) (hempty _)).1
  · intro e he
    exact ((read_thread_from_log tools hdelta iterations _ 0 hsp (hempty _) (hempty _)).2.2
      e he).1

/-- Witness for C13: the elapsed seconds computed from the exact difference of the
nanosecond counts as `delta_time`, and three status frames with bullet speed 25.00, one
millisecond apart. -/
theorem bullet_speed_log_spaced_witness :
    Spaced ((CBoard.init 256 257 255 "can" 0 (sampleAt 0) (sampleAt 0) ⟨0, 0, 0, 0⟩).callbacks
        unwrappedTools
        [(⟨257, 8, [9, 196, 0, 0, 0, 0, 0, 0]⟩, 5000000000, 5000000000),
          (⟨257, 8, [9, 196, 0, 0, 0, 0, 0, 0]⟩, 5001000000, 5001000000),
          (⟨257, 8, [9, 196, 0, 0, 0, 0, 0, 0]⟩, 5002000000, 5002000000)]).info_log ∧
      ((CBoard.init 256 257 255 "can" 0 (sampleAt 0) (sampleAt 0) ⟨0, 0, 0, 0⟩).callbacks
        unwrappedTools
        [(⟨257, 8, [9, 196, 0, 0, 0, 0, 0, 0]⟩, 5000000000, 5000000000),
          (⟨257, 8, [9, 196, 0, 0, 0, 0, 0, 0]⟩, 5001000000, 5001000000),
          (⟨257, 8, [9, 196, 0, 0, 0, 0, 0, 0]⟩, 5002000000, 5002000000)]).info_log.length ≤ 1 :=
  have h := bullet_speed_log_spaced unwrappedTools delta_time_unwrapped_spec 256 257 255 "can" 0
    (sampleAt 0) (sampleAt 0) ⟨0, 0, 0, 0⟩
    [(⟨257, 8, [9, 196, 0, 0, 0, 0, 0, 0]⟩, 5000000000, 5000000000),
      (⟨257, 8, [9, 196, 0, 0, 0, 0, 0, 0]⟩, 5001000000, 5001000000),
      (⟨257, 8, [9, 196, 0, 0, 0, 0, 0, 0]⟩, 5002000000, 5002000000)] []
    (boardWith "can" []) ⟨257, 8, [9, 196, 0, 0, 0, 0, 0, 0]⟩ 0 0
  ⟨h.1, h.2.2.1 5000000000 (by
    intro f hf
    simp only [List.mem_cons, List.mem_singleton, List.not_mem_nil, or_false] at hf
    rcases hf with rfl | rfl | rfl <;> norm_num)⟩

/-! ## imu_at: the divisor and the fraction -/

theorem abs_fl_sub_le_rel (x : ℚ) (hx : (2 : ℚ) ^ (-1022 : ℤ) ≤ |x|) :
    |fl x - x| ≤ |x| / 2 ^ 53 := by
  have hpos : 0 < |x| := lt_of_lt_of_le (by positivity) hx
  have hlog : -1022 ≤ Int.log 2 |x| :=
    (Int.zpow_le_iff_le_log (b := 2) (by norm_num) hpos).mp (by exact_mod_cast hx)
  have hb : binade x = Int.log 2 |x| := by
    unfold binade; exact max_eq_left hlog
  have hle : (2 : ℚ) ^ (Int.log 2 |x|) ≤ |x| := by
    simpa using Int.zpow_log_le_self (b := 2) (by norm_num) hpos
  calc |fl x - x| ≤ ulp x / 2 := abs_fl_sub_le x
    _ = (2 : ℚ) ^ (Int.log 2 |x|) / 2 ^ 53 := by
        unfold ulp
        rw [hb, zpow_sub₀ (by norm_num)]
        norm_num
        ring
    _ ≤ |x| / 2 ^ 53 := div_le_div_of_nonneg_right hle (by positivity)

theorem fl_below_one : fl (9007199254740991 / 9007199254740992) = (9007199254740991 / 9007199254740992) := by
  rw [fl_eq_of (9007199254740991 / 9007199254740992) (-1) (9007199254740991) (by norm_num) (by norm_num [abs_of_pos])
    (by norm_num [abs_of_pos]) (by norm_num [abs_lt])]
  norm_num

theorem secondsOf_eq (n : ℤ) (h : |n| < 2 ^ 53) : secondsOf n = fl ((n : ℚ) / 1000000000) := by
  unfold secondsOf ddiv
  rw [fl_intCast n h]

theorem fl_rel_bounds (x : ℚ) (hx : 1 / 1000000000 ≤ x) :
    x - x / 2 ^ 53 ≤ fl x ∧ fl x ≤ x + x / 2 ^ 53 := by
  have hpos : 0 < x := lt_of_lt_of_le (by norm_num) hx
  have hn : (2 : ℚ) ^ (-1022 : ℤ) ≤ |x| := by
    rw [abs_of_pos hpos]
    calc (2 : ℚ) ^ (-1022 : ℤ) ≤ (2 : ℚ) ^ (-30 : ℤ) :=
          zpow_le_zpow_right₀ (by norm_num) (by norm_num)
      _ ≤ 1 / 1000000000 := by norm_num
      _ ≤ x := hx
  have h := abs_fl_sub_le_rel x hn
  rw [abs_of_pos hpos, abs_le] at h
  constructor <;> linarith

theorem fraction_bound (A B fa fb : ℚ) (hAB : A + 1 ≤ B) (hB : B ≤ 2251799813685248)
    (hfa : fa ≤ A / 1000000000 + A / 1000000000 / 2 ^ 53)
    (hfb : B / 1000000000 - B / 1000000000 / 2 ^ 53 ≤ fb) :
    fa ≤ 9007199254740991 / 9007199254740992 * fb := by
  norm_num at hfa hfb ⊢
  linarith

/-- With `t_a ≤ t_c < t_b` and a window shorter than `2 ^ 51` ns the fraction is below
1. -/
theorem interpolationFraction_lt_one (t_a t_b t_c : ℤ) (h1 : t_a ≤ t_c) (h2 : t_c < t_b)
    (h3 : t_b - t_a < 2 ^ 51) :
    ∀ k, interpolationFraction t_a t_b t_c = some k → k < 1 := by
  intro k hk
  have hab : 0 < secondsOf (t_b - t_a) := secondsOf_pos (by omega)
  unfold interpolationFraction at hk
  simp only at hk
  rw [if_neg (ne_of_gt hab)] at hk
  have hk2 : k = ddiv (secondsOf (t_c - t_a)) (secondsOf (t_b - t_a)) := by
    cases hk; rfl
  rw [hk2]
  have hB : secondsOf (t_b - t_a) = fl (((t_b - t_a : ℤ) : ℚ) / 1000000000) :=
    secondsOf_eq _ (by rw [abs_lt]; constructor <;> omega)
  have hA : secondsOf (t_c - t_a) = fl (((t_c - t_a : ℤ) : ℚ) / 1000000000) :=
    secondsOf_eq _ (by rw [abs_lt]; constructor <;> omega)
  have cA0 : (0 : ℚ) ≤ ((t_c - t_a : ℤ) : ℚ) := by exact_mod_cast (by omega : 0 ≤ t_c - t_a)
  have cAB : ((t_c - t_a : ℤ) : ℚ) + 1 ≤ ((t_b - t_a : ℤ) : ℚ) := by
    exact_mod_cast (by omega : t_c - t_a + 1 ≤ t_b - t_a)
  have cB : ((t_b - t_a : ℤ) : ℚ) ≤ 2251799813685248 := by
    exact_mod_cast (by omega : t_b - t_a ≤ 2251799813685248)
  have hfb := (fl_rel_bounds (((t_b - t_a : ℤ) : ℚ) / 1000000000)
    (div_le_div_of_nonneg_right (by linarith) (by norm_num))).1
  have hfa : fl (((t_c - t_a : ℤ) : ℚ) / 1000000000) ≤
      ((t_c - t_a : ℤ) : ℚ) / 1000000000 + ((t_c - t_a : ℤ) : ℚ) / 1000000000 / 2 ^ 53 := by
    rcases eq_or_lt_of_le cA0 with hz | hpos
    · rw [← hz, zero_div, fl_zero]; norm_num
    · have h1le : (1 : ℚ) ≤ ((t_c - t_a : ℤ) : ℚ) := by
        have : (0 : ℤ) < t_c - t_a := by exact_mod_cast hpos
        exact_mod_cast (by omega : (1 : ℤ) ≤ t_c - t_a)
      exact (fl_rel_bounds _ (div_le_div_of_nonneg_right h1le (by norm_num))).2
  have hqle : secondsOf (t_c - t_a) / secondsOf (t_b - t_a) ≤
      9007199254740991 / 9007199254740992 := by
    rw [div_le_iff₀ hab, hA, hB]
    exact fraction_bound _ _ _ _ cAB cB hfa hfb
  unfold ddiv
  have hfl := fl_mono hqle
  rw [fl_below_one] at hfl
  have : (9007199254740991 / 9007199254740992 : ℚ) < 1 := by norm_num
  linarith

theorem imu_at_loop_post (t : ℤ) (items : List IMUData) (a0 a b : IMUData)
    (rest : List IMUData) (h : imu_at_loop t items a0 = some (a, b, rest)) :
    t < b.timestamp ∧ (a = a0 ∨ a.timestamp ≤ t) := by
  induction items generalizing a0 with
  | nil => simp [imu_at_loop] at h
  | cons s later ih =>
    rw [imu_at_loop] at h
    by_cases hs : s.timestamp > t
    · rw [if_pos hs] at h
      simp only [Option.some.injEq, Prod.mk.injEq] at h
      obtain ⟨h1, h2, _⟩ := h
      rw [← h2, ← h1]
      exact ⟨hs, Or.inl rfl⟩
    · rw [if_neg hs] at h
      obtain ⟨hb, ha⟩ := ih s h
      refine ⟨hb, Or.inr ?_⟩
      rcases ha with ha | ha
      · rw [ha]; exact not_lt.mp hs
      · exact ha

/-- Whenever the advancement step returns, `behind` is later than the query, and `ahead`
is not later than the query unless the call was entered with the query earlier than
`data_ahead_`. -/
theorem advance_post (self board : CBoard) (t : ℤ) (h : self.advance t = some board) :
    t < board.data_behind_.timestamp ∧
      (self.data_ahead_.timestamp ≤ t → board.data_ahead_.timestamp ≤ t) := by
  unfold CBoard.advance at h
  simp only at h
  rcases hl : imu_at_loop t self.queue_.items
      (if self.data_behind_.timestamp < t then self.data_behind_ else self.data_ahead_) with
    _ | ⟨a, b, rest⟩
  · rw [hl] at h; cases h
  · rw [hl] at h
    simp only [Option.some.injEq] at h
    obtain ⟨hb, ha⟩ := imu_at_loop_post t _ _ a b rest hl
    rw [← h]
    refine ⟨hb, ?_⟩
    intro h0
    simp only
    rcases ha with ha | ha
    · rw [ha]
      split_ifs with hlt
      · exact le_of_lt hlt
      · exact h0
    · exact ha

theorem imu_at_some (eigen : EigenOps) (self : CBoard) (t : ℤ) (r : ImuAt)
    (h : self.imu_at eigen t = some r) :
    self.advance t = some r.board ∧
      r.k = interpolationFraction r.board.data_ahead_.timestamp r.board.data_behind_.timestamp t := by
  unfold CBoard.imu_at at h
  rcases ha : self.advance t with _ | board
  · rw [ha] at h; cases h
  · rw [ha] at h
    simp only [Option.some.injEq] at h
    rw [← h]
    exact ⟨rfl, rfl⟩

/-- C18 (as amended): whenever `imu_at` returns from a call entered with
`data_ahead_.timestamp ≤ query`, the divisor `behind.timestamp - ahead.timestamp` is
strictly positive and `0 ≤ k ≤ 1`, with `k < 1` when the window is shorter than
`2 ^ 51` ns, for any order and any repetition of the timestamps of the popped samples;
the divisor can be zero only in a call entered with `query < data_ahead_.timestamp`. -/
theorem imu_at_divisor (eigen : EigenOps) (self : CBoard) (t : ℤ) (r : ImuAt)
    (hr : self.imu_at eigen t = some r) :
    (self.data_ahead_.timestamp ≤ t →
        0 < r.board.data_behind_.timestamp - r.board.data_ahead_.timestamp ∧
          ∃ k, r.k = some k ∧ 0 ≤ k ∧ k ≤ 1 ∧
            (r.board.data_behind_.timestamp - r.board.data_ahead_.timestamp < 2 ^ 51 → k < 1)) ∧
      (r.board.data_behind_.timestamp - r.board.data_ahead_.timestamp = 0 →
        t < self.data_ahead_.timestamp) := by
  obtain ⟨hadv, hk⟩ := imu_at_some eigen self t r hr
  obtain ⟨hb, ha⟩ := advance_post self r.board t hadv
  have hmain : self.data_ahead_.timestamp ≤ t →
      0 < r.board.data_behind_.timestamp - r.board.data_ahead_.timestamp ∧
        ∃ k, r.k = some k ∧ 0 ≤ k ∧ k ≤ 1 ∧
          (r.board.data_behind_.timestamp - r.board.data_ahead_.timestamp < 2 ^ 51 → k < 1) := by
    intro h0
    have ha2 := ha h0
    obtain ⟨k, hk1, hk0, hkle⟩ := interpolationFraction_mem _ _ t ha2 hb
    refine ⟨by omega, k, by rw [hk, hk1], hk0, hkle, ?_⟩
    intro hshort
    exact interpolationFraction_lt_one _ _ t ha2 hb hshort k hk1
  refine ⟨hmain, ?_⟩
  intro hzero
  by_contra hc
  have := (hmain (not_lt.mp hc)).1
  omega

/-- Witness for C18 (as amended): window (10, 20), next sample at 30, query 20. -/
theorem imu_at_divisor_witness :
    ((sampleAt 10).timestamp ≤ 20 →
        0 < (sampleAt 30).timestamp - (sampleAt 10).timestamp ∧
          ∃ k, some (1 / 2 : ℚ) = some k ∧ 0 ≤ k ∧ k ≤ 1 ∧
            ((sampleAt 30).timestamp - (sampleAt 10).timestamp < 2 ^ 51 → k < 1)) ∧
      ((sampleAt 30).timestamp - (sampleAt 10).timestamp = 0 →
        20 < (sampleAt 10).timestamp) :=
  imu_at_divisor lerpOps
    { boardWith "can" [sampleAt 30] with
      data_ahead_ := sampleAt 10
      data_behind_ := sampleAt 20 } 20
    { board :=
        { boardWith "can" [] with
          data_ahead_ := sampleAt 10
          data_behind_ := sampleAt 30 }
      k := some (1 / 2)
      q_c := some ⟨1, 0, 0, 0⟩ }
    (by
      simp [CBoard.imu_at, CBoard.advance, imu_at_loop, sampleAt, boardWith, CBoard.init,
        interpolationFraction_midway, lerpOps])

theorem fl_uptime_minus_one : fl 36028797018963967 = 36028797018963968 := by
  rw [fl_eq_of 36028797018963967 (54) (9007199254740992) (by norm_num) (by norm_num [abs_of_pos])
    (by norm_num [abs_of_pos]) (by norm_num [abs_lt])]
  norm_num

theorem fl_uptime : fl 36028797018963968 = 36028797018963968 := by
  rw [fl_eq_of 36028797018963968 (55) (4503599627370496) (by norm_num) (by norm_num [abs_of_pos])
    (by norm_num [abs_of_pos]) (by norm_num [abs_lt])]
  norm_num

theorem fl_uptime_seconds : fl (36028797018963968 / 1000000000) = (4835703278458517 / 134217728) := by
  rw [fl_eq_of (36028797018963968 / 1000000000) (25) (4835703278458517) (by norm_num) (by norm_num [abs_of_pos])
    (by norm_num [abs_of_pos]) (by norm_num [abs_lt])]
  norm_num

/-- C18 (as stated) fails on a long window: with `data_ahead_` at the epoch (as the
serial constructor leaves it), the next sample at `2 ^ 55` ns and the query one
nanosecond earlier, the call is entered with `data_ahead_.timestamp ≤ query`, yet both
durations round to the same double and `k` is exactly 1. -/
theorem imu_at_fraction_one :
    (boardWith "serial" [sampleAt 36028797018963968]).data_ahead_.timestamp ≤
        36028797018963967 ∧
      ((boardWith "serial" [sampleAt 36028797018963968]).imu_at lerpOps
          36028797018963967).map (fun r => (r.board.data_ahead_.timestamp,
            r.board.data_behind_.timestamp, r.k)) =
        some (0, 36028797018963968, some 1) ∧
      ¬ (1 : ℚ) < 1 := by
  have hs1 : secondsOf 36028797018963967 = (4835703278458517 / 134217728) := by
    unfold secondsOf ddiv
    rw [show ((36028797018963967 : ℤ) : ℚ) = 36028797018963967 by norm_num,
      fl_uptime_minus_one, fl_uptime_seconds]
  have hs2 : secondsOf 36028797018963968 = (4835703278458517 / 134217728) := by
    unfold secondsOf ddiv
    rw [show ((36028797018963968 : ℤ) : ℚ) = 36028797018963968 by norm_num,
      fl_uptime, fl_uptime_seconds]
  have hk : interpolationFraction 0 36028797018963968 36028797018963967 = some 1 := by
    unfold interpolationFraction
    simp only [sub_zero, hs1, hs2]
    rw [if_neg (by norm_num)]
    unfold ddiv
    rw [div_self (by norm_num), fl_one]
  refine ⟨by simp [boardWith, CBoard.init], ?_, by norm_num⟩
  simp [CBoard.imu_at, CBoard.advance, imu_at_loop, sampleAt, boardWith, CBoard.init, hk]

/-! ## imu_at: which samples make the window -/

/-- C14 at a failing input: in CAN mode with samples at 10, 20, 30, 40 the constructor
primes the window with the samples at 10 and 20; the query 15 lies inside that window,
yet the call pops the sample at 30 over `data_behind_`, so the window becomes (10, 30):
the sample at 20, the first one later than the query, is skipped. -/
theorem imu_at_skips_sample :
    NonDecreasing [sampleAt 10, sampleAt 20, sampleAt 30, sampleAt 40] ∧
      ([sampleAt 10, sampleAt 20, sampleAt 30, sampleAt 40].find?
        fun s => decide (15 < s.timestamp)) = some (sampleAt 20) ∧
      ((boardWith "can" [sampleAt 10, sampleAt 20, sampleAt 30, sampleAt 40]).construct
          true).map (fun b => (b.data_ahead_, b.data_behind_)) =
        some (sampleAt 10, sampleAt 20) ∧
      (((boardWith "can" [sampleAt 10, sampleAt 20, sampleAt 30, sampleAt 40]).construct
          true).bind fun b => (b.imu_at lerpOps 15).map fun r =>
            (r.board.data_ahead_, r.board.data_behind_)) =
        some (sampleAt 10, sampleAt 30) ∧
      sampleAt 30 ≠ sampleAt 20 := by
  refine ⟨by simp [NonDecreasing, sampleAt], by simp [sampleAt], ?_, ?_, by simp [sampleAt]⟩
  · simp [boardWith, CBoard.construct, CBoard.init, ThreadSafeQueue.pop]
  · simp [boardWith, CBoard.construct, CBoard.init, ThreadSafeQueue.pop, CBoard.imu_at,
      CBoard.advance, imu_at_loop, sampleAt]

/-- What the code does on a query inside the window: when `data_behind_` is not earlier
than the query and the next sample is later than the query, `data_ahead_` is kept and
the next sample replaces `data_behind_`. -/
theorem advance_inside_window (self : CBoard) (t : ℤ) (next : IMUData) (rest : List IMUData)
    (hq : self.queue_.items = next :: rest) (hb : t ≤ self.data_behind_.timestamp)
    (hnext : t < next.timestamp) :
    self.advance t =
      some
        { self with
          data_behind_ := next
          queue_ := { self.queue_ with items := rest } } := by
  simp [CBoard.advance, hq, imu_at_loop, hnext, not_lt.mpr hb]

/-- C15 at a failing input: in serial mode the constructor pops the first sample (at
100) without storing it, so `data_ahead_` and `data_behind_` stay default-constructed
(timestamp at the epoch, indeterminate quaternion, here (7,7,7,7) and (8,8,8,8)); the
first query 150 then interpolates between the default-constructed `data_behind_` and
the sample at 200. -/
theorem imu_at_serial_default_endpoint :
    ((CBoard.init 256 257 255 "serial" 0 ⟨⟨7, 7, 7, 7⟩, 0, 9⟩ ⟨⟨8, 8, 8, 8⟩, 0, 9⟩
          ⟨0, 0, 0, 0⟩).data_behind_ = ⟨⟨8, 8, 8, 8⟩, 0, 9⟩) ∧
      (({ CBoard.init 256 257 255 "serial" 0 ⟨⟨7, 7, 7, 7⟩, 0, 9⟩ ⟨⟨8, 8, 8, 8⟩, 0, 9⟩
            ⟨0, 0, 0, 0⟩ with
          queue_ := { max_size := 5000, items := [sampleAt 100, sampleAt 200] } } :
          CBoard).construct true).map
          (fun b => (b.data_ahead_, b.data_behind_, b.queue_.items)) =
        some (⟨⟨7, 7, 7, 7⟩, 0, 9⟩, ⟨⟨8, 8, 8, 8⟩, 0, 9⟩, [sampleAt 200]) ∧
      ((({ CBoard.init 256 257 255 "serial" 0 ⟨⟨7, 7, 7, 7⟩, 0, 9⟩ ⟨⟨8, 8, 8, 8⟩, 0, 9⟩
            ⟨0, 0, 0, 0⟩ with
          queue_ := { max_size := 5000, items := [sampleAt 100, sampleAt 200] } } :
          CBoard).construct true).bind fun b => (b.imu_at lerpOps 150).map fun r =>
            (r.board.data_ahead_, r.board.data_behind_)) =
        some (⟨⟨8, 8, 8, 8⟩, 0, 9⟩, sampleAt 200) ∧
      (⟨⟨8, 8, 8, 8⟩, 0, 9⟩ : IMUData) ∉ [sampleAt 100, sampleAt 200] := by
  refine ⟨rfl, ?_, ?_, by simp [sampleAt]⟩
  · simp [CBoard.construct, CBoard.init, ThreadSafeQueue.pop]
  · simp [CBoard.construct, CBoard.init, ThreadSafeQueue.pop, CBoard.imu_at,
      CBoard.advance, imu_at_loop, sampleAt]

/-! ## imu_at at `ahead.timestamp`: the normalisation of the result -/

theorem fl_scalar_sample : fl (1002 / 1000) = (4512606826625237 / 4503599627370496) := by
  rw [fl_eq_of (1002 / 1000) (0) (4512606826625237) (by norm_num) (by norm_num [abs_of_pos])
    (by norm_num [abs_of_pos]) (by norm_num [abs_lt])]
  norm_num

/-- The sample decoded from the raw fields (1002, 0, 0, 0): `w` is the double nearest to
`1.002`. -/
theorem decodedSample_scalar (timestamp : ℤ) :
    decodedSample 1002 0 0 0 timestamp =
      { q := ⟨4512606826625237 / 4503599627370496, 0, 0, 0⟩
        timestamp := timestamp
        crc16 := 0 } := by
  unfold decodedSample ddiv
  rw [show (((1002 : ℤ) : ℚ)) / 1000 = 1002 / 1000 by norm_num, fl_scalar_sample,
    show (((0 : ℤ) : ℚ)) / 1000 = 0 by norm_num, fl_zero]

/-- The raw fields (1002, 0, 0, 0) pass the unit-norm check: the squared norm is
`1.004004`. -/
theorem accepted_scalar : Accepted 1002 0 0 0 :=
  accepted_of_lt 1002 0 0 0 (by norm_num) (by norm_num) (by norm_num) (by norm_num)
    (by unfold rawNorm; norm_num [abs_lt])

/-- C3 (as stated) fails: the raw fields (1002, 0, 0, 0) pass the unit-norm check and
decode to a sample with `w = fl(1.002)`, which is not normalised.  With that sample as
`ahead` at 10, `behind` at 20 and the next sample at 30, the query at 10 returns with
`k = 0` and the normalised quaternion `(1, 0, 0, 0)`, which is not `ahead.q`. -/
theorem imu_at_at_ahead_returns_normalised :
    Accepted 1002 0 0 0 ∧
      (decodedSample 1002 0 0 0 10).timestamp < (sampleAt 20).timestamp ∧
      (decodedSample 1002 0 0 0 10).timestamp < (sampleAt 30).timestamp ∧
      (∀ a b, scalarOps.slerp a 0 b = a) ∧
      ({ boardWith "can" [sampleAt 30] with
          data_ahead_ := decodedSample 1002 0 0 0 10
          data_behind_ := sampleAt 20 } : CBoard).imu_at scalarOps 10 =
        some
          { board :=
              { boardWith "can" [] with
                data_ahead_ := decodedSample 1002 0 0 0 10
                data_behind_ := sampleAt 30 }
            k := some 0
            q_c := some ⟨1, 0, 0, 0⟩ } ∧
      (decodedSample 1002 0 0 0 10).q ≠ ⟨1, 0, 0, 0⟩ := by
  refine ⟨accepted_scalar, by simp [decodedSample, sampleAt], by simp [decodedSample, sampleAt],
    scalarOps_slerp_zero, ?_, ?_⟩
  · have h := imu_at_at_ahead_spec scalarOps
      { boardWith "can" [sampleAt 30] with
        data_ahead_ := decodedSample 1002 0 0 0 10
        data_behind_ := sampleAt 20 } (sampleAt 30) [] scalarOps_slerp_zero
      (by simp [decodedSample, sampleAt]) (by simp [boardWith])
      (by simp [decodedSample, sampleAt])
    have hn : scalarOps.normalized (scalarOps.normalized (decodedSample 1002 0 0 0 10).q) =
        ⟨1, 0, 0, 0⟩ := by
      rw [decodedSample_scalar]
      simp [scalarOps]
    simp only [hn] at h
    exact h
  · rw [decodedSample_scalar]
    simp
    norm_num

/-! ## callback: the name lookups of the log line -/

/-- What the code does when a status frame is logged: the names are looked up at the raw
values of bytes 2 and 3, and the lookup is out of range as soon as byte 2 is 5 or more
or byte 3 is 3 or more. -/
theorem callback_log_lookup (tools : Tools) (self : CBoard) (frame : can_frame)
    (timestamp now : ℤ) (hq : frame.can_id ≠ toCanId self.quaternion_canid_)
    (hs : frame.can_id = toCanId self.bullet_speed_canid_)
    (hpos : 0 < ddiv (be16 (frame.byte 0) (frame.byte 1)) 100)
    (hd : tools.delta_time now self.callback_last_log_time ≥ 1) :
    (self.callback tools frame timestamp now).info_log =
        self.info_log ++
          [{ now := now
             bullet_speed := ddiv (be16 (frame.byte 0) (frame.byte 1)) 100
             mode_name := MODES[frame.byte 2]?
             shoot_mode_name := SHOOT_MODES[frame.byte 3]?
             ft_angle := ddiv (be16 (frame.byte 4) (frame.byte 5)) 10000 }] ∧
      (5 ≤ frame.byte 2 → MODES[frame.byte 2]? = none) ∧
      (3 ≤ frame.byte 3 → SHOOT_MODES[frame.byte 3]? = none) := by
  refine ⟨?_, ?_, ?_⟩
  · unfold CBoard.callback
    rw [if_neg hq, if_pos hs]
    simp only
    rw [if_pos ⟨hpos, hd⟩]
  · intro h
    exact List.getElem?_eq_none (by unfold MODES; simpa using h)
  · intro h
    exact List.getElem?_eq_none (by unfold SHOOT_MODES; simpa using h)

end io
